import Mathlib

/-!
# Content backend of `belajar-bareng-nikma` (`src/main.go`)

A shallow embedding of the Go program: the content document, the JSON merge
decoder it is filled with, the hard-coded credential checks, the HTTP route
handlers of `main`, the image upload and the static file fallback.

Go strings are byte sequences.  JSON texts (request bodies, the content file)
are represented by the JSON value they denote; the scanner and the printer of
`encoding/json` are library code and are not unfolded here.  A slice is
modelled with its backing array: the elements it shows, and the elements the
array still holds past its length, into which `encoding/json` decodes again.
-/

namespace Nikma

/-! ## Go strings -/

/-- One byte of a Go string. -/
abbrev Byte := Fin 256

/-- Go `string`: an arbitrary sequence of bytes (not necessarily UTF-8). -/
abbrev GoString := List Byte

/-- Bytes of an ASCII literal of the source. -/
def ascii (s : String) : GoString := s.toList.map (fun c => Fin.ofNat c.toNat)

/-- Go `strings.HasPrefix`. -/
def HasPrefix (s pre : GoString) : Bool := pre.isPrefixOf s

/-- Go `strings.HasSuffix`. -/
def HasSuffix (s suf : GoString) : Bool := suf.isSuffixOf s

/-- Go `strings.TrimPrefix`: drops `pre` from the front of `s` when it is there. -/
def TrimPrefix (s pre : GoString) : GoString :=
  if HasPrefix s pre then s.drop pre.length else s

/-- Go `strings.Split(s, sep)` for a one-byte separator: the pieces between
    the occurrences of `sep`, one more than there are occurrences. -/
def Split (sep : Byte) : GoString → List GoString
  | [] => [[]]
  | c :: cs =>
    if c = sep then [] :: Split sep cs
    else
      match Split sep cs with
      | p :: ps => (c :: p) :: ps
      | [] => [[c]]

/-! ## `encoding/base64`, `StdEncoding` -/

/-- The entry of `StdEncoding.decodeMap` for a byte: its six-bit value when
    the byte is in the alphabet `A-Z a-z 0-9 + /`, nothing (0xff) otherwise. -/
def decodeMap (c : Byte) : Option Nat :=
  if 65 ≤ c.val ∧ c.val ≤ 90 then some (c.val - 65)
  else if 97 ≤ c.val ∧ c.val ≤ 122 then some (c.val - 71)
  else if 48 ≤ c.val ∧ c.val ≤ 57 then some (c.val + 4)
  else if c.val = 43 then some 62
  else if c.val = 47 then some 63
  else none

/-- The entry of the `StdEncoding` alphabet for a six-bit value. -/
def encodeStd (v : Nat) : Byte :=
  if v < 26 then Fin.ofNat (v + 65)
  else if v < 52 then Fin.ofNat (v + 71)
  else if v < 62 then Fin.ofNat (v - 4)
  else if v = 62 then 43
  else 47

/-- The padding character `=`. -/
def padChar : Byte := 61

/-- Line breaks, which the decoder skips wherever they stand. -/
def isNewline (c : Byte) : Bool := c.val = 10 || c.val = 13

/-- The 24-bit word `decodeQuantum` assembles from up to four six-bit values
    (`dbuf[0]<<18 | dbuf[1]<<12 | dbuf[2]<<6 | dbuf[3]`, missing ones zero). -/
def quantumVal (q : List Nat) : Nat :=
  q.getD 0 0 * 262144 + q.getD 1 0 * 4096 + q.getD 2 0 * 64 + q.getD 3 0

/-- The first `n` of the three bytes `byte(val>>16), byte(val>>8), byte(val)`. -/
def quantumBytes (q : List Nat) (n : Nat) : List Byte :=
  ([Fin.ofNat (quantumVal q / 65536), Fin.ofNat (quantumVal q / 256),
    Fin.ofNat (quantumVal q)] : List Byte).take n

/-- Skips the line breaks at the front of the input. -/
def skipNewlines : GoString → GoString
  | [] => []
  | c :: cs => if isNewline c then skipNewlines cs else c :: cs

/-- The loop of `(*Encoding).Decode` over `decodeQuantum`, for `StdEncoding`
    (padded, not strict).  `q` holds the six-bit values of the quantum being
    read, `out` the bytes decoded so far; `none` is `CorruptInputError`. -/
def decodeLoop : GoString → List Nat → List Byte → Option (List Byte)
  | [], q, out => if q.length = 0 then some out else none
  | c :: cs, q, out =>
    match decodeMap c with
    | some v =>
      if q.length = 3 then decodeLoop cs [] (out ++ quantumBytes (q ++ [v]) 3)
      else decodeLoop cs (q ++ [v]) out
    | none =>
      if isNewline c then decodeLoop cs q out
      else if c ≠ padChar then none
      else if q.length < 2 then none
      else if q.length = 2 then
        match skipNewlines cs with
        | [] => none
        | c2 :: cs2 =>
          if c2 ≠ padChar then none
          else if skipNewlines cs2 = [] then some (out ++ quantumBytes q 1)
          else none
      else
        if skipNewlines cs = [] then some (out ++ quantumBytes q 2) else none

/-- Go `base64.StdEncoding.DecodeString`; `none` when it returns an error. -/
def DecodeString (s : GoString) : Option GoString := decodeLoop s [] []

/-- Go `base64.StdEncoding.EncodeToString`. -/
def EncodeToString : GoString → GoString
  | [] => []
  | [a] =>
    let val := a.val * 65536
    [encodeStd (val / 262144 % 64), encodeStd (val / 4096 % 64), padChar, padChar]
  | [a, b] =>
    let val := a.val * 65536 + b.val * 256
    [encodeStd (val / 262144 % 64), encodeStd (val / 4096 % 64),
     encodeStd (val / 64 % 64), padChar]
  | a :: b :: c :: rest =>
    let val := a.val * 65536 + b.val * 256 + c.val
    encodeStd (val / 262144 % 64) :: encodeStd (val / 4096 % 64) ::
      encodeStd (val / 64 % 64) :: encodeStd (val % 64) :: EncodeToString rest

/-! ## The Basic-Auth gate -/

/-- Go `r.Header.Get("Authorization")`: the header value, `""` when absent. -/
def headerGet (h : Option GoString) : GoString := h.getD []

/-- The function `checkAuth` of `main.go`, on the request's `Authorization` header. -/
def checkAuth (authorization : Option GoString) : Bool :=
  let authHeader := headerGet authorization
  if authHeader = [] then false
  else if HasPrefix authHeader (ascii "Basic ") then
    let encodedCredentials := TrimPrefix authHeader (ascii "Basic ")
    match DecodeString encodedCredentials with
    | none => false
    | some credentials =>
      let parts := Split 58 credentials
      if parts.length ≠ 2 then false
      else
        let username := parts.getD 0 []
        let password := parts.getD 1 []
        username = ascii "nikma" && password = ascii "280200"
  else false

/-! ## UTF-8, as `encoding/json` reads Go strings -/

/-- Whether `lo ≤ b ≤ hi`. -/
def inRange (b : Byte) (lo hi : Nat) : Bool := decide (lo ≤ b.val) && decide (b.val ≤ hi)

/-- Go `utf8.DecodeRuneInString`, as far as `encoding/json` looks at it: the
    width of the encoded rune the string starts with, or `none` where Go
    returns `(RuneError, 1)` or `(RuneError, 0)`: a byte that starts no valid
    encoding (overlong forms, surrogates and values above U+10FFFF included). -/
def runeWidth : GoString → Option Nat
  | [] => none
  | b0 :: rest =>
    if b0.val < 128 then some 1
    else if b0.val < 194 then none
    else if b0.val < 224 then
      match rest with
      | b1 :: _ => if inRange b1 128 191 then some 2 else none
      | _ => none
    else if b0.val < 240 then
      match rest with
      | b1 :: b2 :: _ =>
        if inRange b1 (if b0.val = 224 then 160 else 128) (if b0.val = 237 then 159 else 191)
            && inRange b2 128 191 then some 3 else none
      | _ => none
    else if b0.val < 245 then
      match rest with
      | b1 :: b2 :: b3 :: _ =>
        if inRange b1 (if b0.val = 240 then 144 else 128) (if b0.val = 244 then 143 else 191)
            && inRange b2 128 191 && inRange b3 128 191 then some 4 else none
      | _ => none
    else none

/-- Walks a string rune by rune; `skip` counts the bytes that still belong to
    the rune accepted last.  Go `utf8.ValidString` is `validFrom 0`. -/
def validFrom : Nat → GoString → Bool
  | _, [] => true
  | k + 1, _ :: rest => validFrom k rest
  | 0, b :: rest =>
    match runeWidth (b :: rest) with
    | some n => validFrom (n - 1) rest
    | none => false

/-- Go `utf8.ValidString`. -/
def ValidString (s : GoString) : Bool := validFrom 0 s

/-- The string a JSON text written by `encoding/json` denotes for a Go string:
    the encoder copies every validly encoded rune and writes the escape of
    U+FFFD (bytes EF BF BD once read back) for each byte that starts none. -/
def coerceFrom : Nat → GoString → GoString
  | _, [] => []
  | k + 1, b :: rest => b :: coerceFrom k rest
  | 0, b :: rest =>
    match runeWidth (b :: rest) with
    | some n => b :: coerceFrom (n - 1) rest
    | none => 239 :: 191 :: 189 :: coerceFrom 0 rest

/-- The Go string read back from the JSON string written for `s`. -/
def coerceUTF8 (s : GoString) : GoString := coerceFrom 0 s

/-! ## JSON values and the decoder of `encoding/json` -/

/-- The value a JSON text denotes.  Strings and object keys are stored
    unquoted, as the decoder hands them to the target; numbers keep their literal. -/
inductive JSON where
  | null
  | bool (b : Bool)
  | number (literal : GoString)
  | string (s : GoString)
  | array (elems : List JSON)
  | object (members : List (GoString × JSON))

/-- The outcome of decoding into a target: the target afterwards, and whether
    an `UnmarshalTypeError` was saved on the way.  The decoder skips a value of
    the wrong type, goes on with the rest, and returns the saved error at the end. -/
structure Decoded (α : Type) where
  val : α
  err : Bool
  deriving DecidableEq

/-- The elements a Go slice shows: `none` is the nil slice, `some xs` a
    non-nil slice.  What its backing array holds past its length is kept
    apart (`Backing`), since no read of the document sees it. -/
abbrev Slice (α : Type) := Option (List α)

/-- Key folding of `encoding/json` (`foldName`): ASCII letters to upper case,
    and the two non-ASCII runes whose simple case folding reaches ASCII,
    U+017F (long s, C5 BF) to `S` and U+212A (Kelvin sign, E2 84 AA) to `K`.
    Every other byte is kept: the result is only ever compared with the folded
    ASCII name of a field, which no other non-ASCII rune can produce.  The
    counter says how many bytes of a folded rune are still to be dropped. -/
def foldFrom : Nat → GoString → GoString
  | _, [] => []
  | k + 1, _ :: rest => foldFrom k rest
  | 0, b :: rest =>
    if 97 ≤ b.val ∧ b.val ≤ 122 then Fin.ofNat (b.val - 32) :: foldFrom 0 rest
    else if b.val = 197 ∧ rest.take 1 = [191] then 83 :: foldFrom 1 rest
    else if b.val = 226 ∧ rest.take 2 = [132, 170] then 75 :: foldFrom 2 rest
    else b :: foldFrom 0 rest

/-- The folded form of a key or field name. -/
def foldName (s : GoString) : GoString := foldFrom 0 s

/-- The index of the struct field an object key is decoded into: the field
    whose JSON name equals the key up to case folding (the names of one struct
    never fold to the same string, so the exact match is the folded match). -/
def fieldIndex (names : List String) (key : GoString) : Option Nat :=
  let i := names.findIdx (fun n => foldName (ascii n) = foldName key)
  if i < names.length then some i else none

/-- Decoding into a Go `string`: a JSON string is stored, `null` leaves the
    target as it is, anything else is an `UnmarshalTypeError`. -/
def decodeString (v : JSON) (old : GoString) : Decoded GoString :=
  match v with
  | .string s => ⟨s, false⟩
  | .null => ⟨old, false⟩
  | _ => ⟨old, true⟩

/-- One member of a JSON object decoded into a struct: the field its key
    names is decoded into (`step i value target`), a key that names no field
    is skipped. -/
def decodeMember {α : Type} (names : List String) (step : Nat → JSON → α → Decoded α)
    (acc : Decoded α) (m : GoString × JSON) : Decoded α :=
  match fieldIndex names m.1 with
  | some i => let r := step i m.2 acc.val; ⟨r.val, acc.err || r.err⟩
  | none => acc

/-- Decoding into a struct: the members of a JSON object are decoded in
    turn, each into the field its key names; fields the object does not name
    are NOT touched.  `null` leaves the struct as it is, anything else is an
    `UnmarshalTypeError`. -/
def decodeStruct {α : Type} (names : List String) (step : Nat → JSON → α → Decoded α)
    (v : JSON) (old : α) : Decoded α :=
  match v with
  | .object members => members.foldl (decodeMember names step) ⟨old, false⟩
  | .null => ⟨old, false⟩
  | _ => ⟨old, true⟩

/-- The values a JSON object gives for field `i` of a struct, in order; none
    when the value is no object. -/
def JSON.values (names : List String) (i : Nat) (v : JSON) : List JSON :=
  match v with
  | .object members =>
    members.filterMap (fun m => if fieldIndex names m.1 = some i then some m.2 else none)
  | _ => []

/-- The elements of a JSON array decoded into a backing array: element `i`
    is decoded INTO what the backing array holds at `i` (the array loop of
    `encoding/json` does `d.value(v.Index(i))` without clearing the element),
    and into a zero element past the end of the backing array, where a grown
    slice is fresh memory. -/
def decodeElems {α : Type} (zero : α) (dec : JSON → α → Decoded α) :
    List JSON → List α → Decoded (List α)
  | [], _ => ⟨[], false⟩
  | x :: xs, backing =>
    let r := dec x (backing.headD zero)
    let rs := decodeElems zero dec xs backing.tail
    ⟨r.val :: rs.val, r.err || rs.err⟩

/-- Decoding into a slice `old` whose backing array holds `spare` past its
    length (what the slice held before it was cut short).  `null` makes the
    slice nil; an empty array makes it a fresh empty slice; another array is
    decoded element-wise into the backing array `old ++ spare`, the length
    becomes the length of the array and what the backing array holds past it
    stays behind; anything else is an `UnmarshalTypeError`. -/
def decodeSlice {α : Type} (zero : α) (dec : JSON → α → Decoded α)
    (v : JSON) (old : Slice α) (spare : List α) : Decoded (Slice α × List α) :=
  match v with
  | .null => ⟨(none, []), false⟩
  | .array [] => ⟨(some [], []), false⟩
  | .array (x :: xs) =>
    let r := decodeElems zero dec (x :: xs) (old.getD [] ++ spare)
    ⟨(some r.val, (old.getD [] ++ spare).drop (x :: xs).length), r.err⟩
  | _ => ⟨(old, spare), true⟩

/-- What is behind a slice after the JSON of the slice `t` has been decoded
    into the slice `old`, which had `h` behind it. -/
def sliceBackingAfter {α : Type} (t old : Slice α) (h : List α) : List α :=
  match t with
  | none => []
  | some [] => []
  | some (x :: xs) => (old.getD [] ++ h).drop (x :: xs).length

/-- Encoding of a Go `string`. -/
def encodeString (s : GoString) : JSON := .string (coerceUTF8 s)

/-- Encoding of a slice: `null` for the nil slice, an array otherwise. -/
def encodeSlice {α : Type} (enc : α → JSON) (s : Slice α) : JSON :=
  match s with
  | none => .null
  | some xs => .array (xs.map enc)

/-! ## The data model of `main.go` -/

/-- The hero section (Go struct `HeroSection`). -/
structure HeroSection where
  Title : GoString
  Subtitle : GoString
  Description : GoString
  WhatsappNumber : GoString
  WhatsappMessage : GoString
  deriving DecidableEq

/-- The Go zero value of `HeroSection`. -/
def HeroSection.zero : HeroSection :=
  ⟨[], [], [], [], []⟩

/-- The JSON names of the fields of `HeroSection` (its `json` tags), in order. -/
def HeroSection.names : List String :=
  ["title", "subtitle", "description", "whatsappNumber", "whatsappMessage"]

/-- Decoding a JSON value into a `HeroSection` that already holds `old`. -/
def decodeHeroSection (v : JSON) (old : HeroSection) : Decoded HeroSection :=
  decodeStruct HeroSection.names (fun i x t =>
    match i with
    | 0 => let r := decodeString x t.Title; ⟨{ t with Title := r.val }, r.err⟩
    | 1 => let r := decodeString x t.Subtitle; ⟨{ t with Subtitle := r.val }, r.err⟩
    | 2 => let r := decodeString x t.Description; ⟨{ t with Description := r.val }, r.err⟩
    | 3 => let r := decodeString x t.WhatsappNumber; ⟨{ t with WhatsappNumber := r.val }, r.err⟩
    | 4 => let r := decodeString x t.WhatsappMessage; ⟨{ t with WhatsappMessage := r.val }, r.err⟩
    | _ => ⟨t, false⟩) v old

/-- The JSON value `encoding/json` writes for `HeroSection`. -/
def encodeHeroSection (t : HeroSection) : JSON :=
  .object [(ascii "title", encodeString t.Title),
    (ascii "subtitle", encodeString t.Subtitle),
    (ascii "description", encodeString t.Description),
    (ascii "whatsappNumber", encodeString t.WhatsappNumber),
    (ascii "whatsappMessage", encodeString t.WhatsappMessage)]

/-- A `HeroSection` read back from its own JSON: every string through `coerceUTF8`. -/
def HeroSection.coerce (t : HeroSection) : HeroSection :=
  ⟨coerceUTF8 t.Title, coerceUTF8 t.Subtitle, coerceUTF8 t.Description, coerceUTF8 t.WhatsappNumber, coerceUTF8 t.WhatsappMessage⟩

/-- Every string of the `HeroSection` is valid UTF-8. -/
def HeroSection.Valid (t : HeroSection) : Prop :=
  ValidString t.Title = true ∧ ValidString t.Subtitle = true ∧ ValidString t.Description = true ∧ ValidString t.WhatsappNumber = true ∧ ValidString t.WhatsappMessage = true

/-- The about section (Go struct `AboutSection`). -/
structure AboutSection where
  Title : GoString
  Description1 : GoString
  Description2 : GoString
  Description3 : GoString
  deriving DecidableEq

/-- The Go zero value of `AboutSection`. -/
def AboutSection.zero : AboutSection :=
  ⟨[], [], [], []⟩

/-- The JSON names of the fields of `AboutSection` (its `json` tags), in order. -/
def AboutSection.names : List String :=
  ["title", "description1", "description2", "description3"]

/-- Decoding a JSON value into a `AboutSection` that already holds `old`. -/
def decodeAboutSection (v : JSON) (old : AboutSection) : Decoded AboutSection :=
  decodeStruct AboutSection.names (fun i x t =>
    match i with
    | 0 => let r := decodeString x t.Title; ⟨{ t with Title := r.val }, r.err⟩
    | 1 => let r := decodeString x t.Description1; ⟨{ t with Description1 := r.val }, r.err⟩
    | 2 => let r := decodeString x t.Description2; ⟨{ t with Description2 := r.val }, r.err⟩
    | 3 => let r := decodeString x t.Description3; ⟨{ t with Description3 := r.val }, r.err⟩
    | _ => ⟨t, false⟩) v old

/-- The JSON value `encoding/json` writes for `AboutSection`. -/
def encodeAboutSection (t : AboutSection) : JSON :=
  .object [(ascii "title", encodeString t.Title),
    (ascii "description1", encodeString t.Description1),
    (ascii "description2", encodeString t.Description2),
    (ascii "description3", encodeString t.Description3)]

/-- A `AboutSection` read back from its own JSON: every string through `coerceUTF8`. -/
def AboutSection.coerce (t : AboutSection) : AboutSection :=
  ⟨coerceUTF8 t.Title, coerceUTF8 t.Description1, coerceUTF8 t.Description2, coerceUTF8 t.Description3⟩

/-- Every string of the `AboutSection` is valid UTF-8. -/
def AboutSection.Valid (t : AboutSection) : Prop :=
  ValidString t.Title = true ∧ ValidString t.Description1 = true ∧ ValidString t.Description2 = true ∧ ValidString t.Description3 = true

/-- A single program (SD or SMP) (Go struct `ProgramItem`). -/
structure ProgramItem where
  Title : GoString
  Description : GoString
  Features : Slice GoString
  deriving DecidableEq

/-- The Go zero value of `ProgramItem`. -/
def ProgramItem.zero : ProgramItem :=
  ⟨[], [], none⟩

/-- The JSON names of the fields of `ProgramItem` (its `json` tags), in order. -/
def ProgramItem.names : List String :=
  ["title", "description", "features"]

/-- Decoding a JSON value into a `ProgramItem` that already holds `old.1`, with
    `old.2` behind its slices. -/
def decodeProgramItem (v : JSON) (old : ProgramItem × List GoString) : Decoded (ProgramItem × List GoString) :=
  decodeStruct ProgramItem.names (fun i x m =>
    match i with
    | 0 => let r := decodeString x m.1.Title; ⟨({ m.1 with Title := r.val }, m.2), r.err⟩
    | 1 => let r := decodeString x m.1.Description; ⟨({ m.1 with Description := r.val }, m.2), r.err⟩
    | 2 =>
      let r := decodeSlice [] decodeString x m.1.Features m.2
      ⟨({ m.1 with Features := r.val.1 }, r.val.2), r.err⟩
    | _ => ⟨m, false⟩) v old

/-- The JSON value `encoding/json` writes for `ProgramItem`. -/
def encodeProgramItem (t : ProgramItem) : JSON :=
  .object [(ascii "title", encodeString t.Title),
    (ascii "description", encodeString t.Description),
    (ascii "features", encodeSlice encodeString t.Features)]

/-- A `ProgramItem` read back from its own JSON: every string through `coerceUTF8`. -/
def ProgramItem.coerce (t : ProgramItem) : ProgramItem :=
  ⟨coerceUTF8 t.Title, coerceUTF8 t.Description, Option.map (List.map coerceUTF8) t.Features⟩

/-- Every string of the `ProgramItem` is valid UTF-8. -/
def ProgramItem.Valid (t : ProgramItem) : Prop :=
  ValidString t.Title = true ∧ ValidString t.Description = true ∧ (∀ x ∈ (t.Features).getD [], ValidString x = true)

/-- What is behind the slices of a `ProgramItem` after the JSON of `t` has been
    decoded into `old`, which had `h` behind its slices. -/
def ProgramItem.backingAfter (t old : ProgramItem) (h : List GoString) : List GoString :=
  sliceBackingAfter t.Features old.Features h

/-- The program section (Go struct `ProgramSection`). -/
structure ProgramSection where
  Title : GoString
  Sd : ProgramItem
  Smp : ProgramItem
  deriving DecidableEq

/-- The Go zero value of `ProgramSection`. -/
def ProgramSection.zero : ProgramSection :=
  ⟨[], ProgramItem.zero, ProgramItem.zero⟩

/-- The JSON names of the fields of `ProgramSection` (its `json` tags), in order. -/
def ProgramSection.names : List String :=
  ["title", "sd", "smp"]

/-- The backing arrays of the slices of a `ProgramSection` past their lengths. -/
structure ProgramBacking where
  Sd : List GoString
  Smp : List GoString
  deriving DecidableEq

/-- Decoding a JSON value into a `ProgramSection` that already holds `old.1`, with
    `old.2` behind its slices. -/
def decodeProgramSection (v : JSON) (old : ProgramSection × ProgramBacking) : Decoded (ProgramSection × ProgramBacking) :=
  decodeStruct ProgramSection.names (fun i x m =>
    match i with
    | 0 => let r := decodeString x m.1.Title; ⟨({ m.1 with Title := r.val }, m.2), r.err⟩
    | 1 =>
      let r := decodeProgramItem x (m.1.Sd, m.2.Sd)
      ⟨({ m.1 with Sd := r.val.1 }, { m.2 with Sd := r.val.2 }), r.err⟩
    | 2 =>
      let r := decodeProgramItem x (m.1.Smp, m.2.Smp)
      ⟨({ m.1 with Smp := r.val.1 }, { m.2 with Smp := r.val.2 }), r.err⟩
    | _ => ⟨m, false⟩) v old

/-- The JSON value `encoding/json` writes for `ProgramSection`. -/
def encodeProgramSection (t : ProgramSection) : JSON :=
  .object [(ascii "title", encodeString t.Title),
    (ascii "sd", encodeProgramItem t.Sd),
    (ascii "smp", encodeProgramItem t.Smp)]

/-- A `ProgramSection` read back from its own JSON: every string through `coerceUTF8`. -/
def ProgramSection.coerce (t : ProgramSection) : ProgramSection :=
  ⟨coerceUTF8 t.Title, ProgramItem.coerce t.Sd, ProgramItem.coerce t.Smp⟩

/-- Every string of the `ProgramSection` is valid UTF-8. -/
def ProgramSection.Valid (t : ProgramSection) : Prop :=
  ValidString t.Title = true ∧ ProgramItem.Valid (t.Sd) ∧ ProgramItem.Valid (t.Smp)

/-- What is behind the slices of a `ProgramSection` after the JSON of `t` has been
    decoded into `old`, which had `h` behind its slices. -/
def ProgramSection.backingAfter (t old : ProgramSection) (h : ProgramBacking) : ProgramBacking :=
  ⟨ProgramItem.backingAfter t.Sd old.Sd h.Sd, ProgramItem.backingAfter t.Smp old.Smp h.Smp⟩

/-- A single gallery item (Go struct `GalleryItem`). -/
structure GalleryItem where
  Title : GoString
  Image : GoString
  deriving DecidableEq

/-- The Go zero value of `GalleryItem`. -/
def GalleryItem.zero : GalleryItem :=
  ⟨[], []⟩

/-- The JSON names of the fields of `GalleryItem` (its `json` tags), in order. -/
def GalleryItem.names : List String :=
  ["title", "image"]

/-- Decoding a JSON value into a `GalleryItem` that already holds `old`. -/
def decodeGalleryItem (v : JSON) (old : GalleryItem) : Decoded GalleryItem :=
  decodeStruct GalleryItem.names (fun i x t =>
    match i with
    | 0 => let r := decodeString x t.Title; ⟨{ t with Title := r.val }, r.err⟩
    | 1 => let r := decodeString x t.Image; ⟨{ t with Image := r.val }, r.err⟩
    | _ => ⟨t, false⟩) v old

/-- The JSON value `encoding/json` writes for `GalleryItem`. -/
def encodeGalleryItem (t : GalleryItem) : JSON :=
  .object [(ascii "title", encodeString t.Title),
    (ascii "image", encodeString t.Image)]

/-- A `GalleryItem` read back from its own JSON: every string through `coerceUTF8`. -/
def GalleryItem.coerce (t : GalleryItem) : GalleryItem :=
  ⟨coerceUTF8 t.Title, coerceUTF8 t.Image⟩

/-- Every string of the `GalleryItem` is valid UTF-8. -/
def GalleryItem.Valid (t : GalleryItem) : Prop :=
  ValidString t.Title = true ∧ ValidString t.Image = true

/-- The gallery section (Go struct `GallerySection`). -/
structure GallerySection where
  Title : GoString
  Items : Slice GalleryItem
  deriving DecidableEq

/-- The Go zero value of `GallerySection`. -/
def GallerySection.zero : GallerySection :=
  ⟨[], none⟩

/-- The JSON names of the fields of `GallerySection` (its `json` tags), in order. -/
def GallerySection.names : List String :=
  ["title", "items"]

/-- Decoding a JSON value into a `GallerySection` that already holds `old.1`, with
    `old.2` behind its slices. -/
def decodeGallerySection (v : JSON) (old : GallerySection × List GalleryItem) : Decoded (GallerySection × List GalleryItem) :=
  decodeStruct GallerySection.names (fun i x m =>
    match i with
    | 0 => let r := decodeString x m.1.Title; ⟨({ m.1 with Title := r.val }, m.2), r.err⟩
    | 1 =>
      let r := decodeSlice GalleryItem.zero decodeGalleryItem x m.1.Items m.2
      ⟨({ m.1 with Items := r.val.1 }, r.val.2), r.err⟩
    | _ => ⟨m, false⟩) v old

/-- The JSON value `encoding/json` writes for `GallerySection`. -/
def encodeGallerySection (t : GallerySection) : JSON :=
  .object [(ascii "title", encodeString t.Title),
    (ascii "items", encodeSlice encodeGalleryItem t.Items)]

/-- A `GallerySection` read back from its own JSON: every string through `coerceUTF8`. -/
def GallerySection.coerce (t : GallerySection) : GallerySection :=
  ⟨coerceUTF8 t.Title, Option.map (List.map GalleryItem.coerce) t.Items⟩

/-- Every string of the `GallerySection` is valid UTF-8. -/
def GallerySection.Valid (t : GallerySection) : Prop :=
  ValidString t.Title = true ∧ (∀ x ∈ (t.Items).getD [], GalleryItem.Valid x)

/-- What is behind the slices of a `GallerySection` after the JSON of `t` has been
    decoded into `old`, which had `h` behind its slices. -/
def GallerySection.backingAfter (t old : GallerySection) (h : List GalleryItem) : List GalleryItem :=
  sliceBackingAfter t.Items old.Items h

/-- A single testimonial (Go struct `TestimonialItem`). -/
structure TestimonialItem where
  Text : GoString
  Author : GoString
  deriving DecidableEq

/-- The Go zero value of `TestimonialItem`. -/
def TestimonialItem.zero : TestimonialItem :=
  ⟨[], []⟩

/-- The JSON names of the fields of `TestimonialItem` (its `json` tags), in order. -/
def TestimonialItem.names : List String :=
  ["text", "author"]

/-- Decoding a JSON value into a `TestimonialItem` that already holds `old`. -/
def decodeTestimonialItem (v : JSON) (old : TestimonialItem) : Decoded TestimonialItem :=
  decodeStruct TestimonialItem.names (fun i x t =>
    match i with
    | 0 => let r := decodeString x t.Text; ⟨{ t with Text := r.val }, r.err⟩
    | 1 => let r := decodeString x t.Author; ⟨{ t with Author := r.val }, r.err⟩
    | _ => ⟨t, false⟩) v old

/-- The JSON value `encoding/json` writes for `TestimonialItem`. -/
def encodeTestimonialItem (t : TestimonialItem) : JSON :=
  .object [(ascii "text", encodeString t.Text),
    (ascii "author", encodeString t.Author)]

/-- A `TestimonialItem` read back from its own JSON: every string through `coerceUTF8`. -/
def TestimonialItem.coerce (t : TestimonialItem) : TestimonialItem :=
  ⟨coerceUTF8 t.Text, coerceUTF8 t.Author⟩

/-- Every string of the `TestimonialItem` is valid UTF-8. -/
def TestimonialItem.Valid (t : TestimonialItem) : Prop :=
  ValidString t.Text = true ∧ ValidString t.Author = true

/-- The testimonials section (Go struct `TestimonialsSection`). -/
structure TestimonialsSection where
  Title : GoString
  Items : Slice TestimonialItem
  deriving DecidableEq

/-- The Go zero value of `TestimonialsSection`. -/
def TestimonialsSection.zero : TestimonialsSection :=
  ⟨[], none⟩

/-- The JSON names of the fields of `TestimonialsSection` (its `json` tags), in order. -/
def TestimonialsSection.names : List String :=
  ["title", "items"]

/-- Decoding a JSON value into a `TestimonialsSection` that already holds `old.1`, with
    `old.2` behind its slices. -/
def decodeTestimonialsSection (v : JSON) (old : TestimonialsSection × List TestimonialItem) : Decoded (TestimonialsSection × List TestimonialItem) :=
  decodeStruct TestimonialsSection.names (fun i x m =>
    match i with
    | 0 => let r := decodeString x m.1.Title; ⟨({ m.1 with Title := r.val }, m.2), r.err⟩
    | 1 =>
      let r := decodeSlice TestimonialItem.zero decodeTestimonialItem x m.1.Items m.2
      ⟨({ m.1 with Items := r.val.1 }, r.val.2), r.err⟩
    | _ => ⟨m, false⟩) v old

/-- The JSON value `encoding/json` writes for `TestimonialsSection`. -/
def encodeTestimonialsSection (t : TestimonialsSection) : JSON :=
  .object [(ascii "title", encodeString t.Title),
    (ascii "items", encodeSlice encodeTestimonialItem t.Items)]

/-- A `TestimonialsSection` read back from its own JSON: every string through `coerceUTF8`. -/
def TestimonialsSection.coerce (t : TestimonialsSection) : TestimonialsSection :=
  ⟨coerceUTF8 t.Title, Option.map (List.map TestimonialItem.coerce) t.Items⟩

/-- Every string of the `TestimonialsSection` is valid UTF-8. -/
def TestimonialsSection.Valid (t : TestimonialsSection) : Prop :=
  ValidString t.Title = true ∧ (∀ x ∈ (t.Items).getD [], TestimonialItem.Valid x)

/-- What is behind the slices of a `TestimonialsSection` after the JSON of `t` has been
    decoded into `old`, which had `h` behind its slices. -/
def TestimonialsSection.backingAfter (t old : TestimonialsSection) (h : List TestimonialItem) : List TestimonialItem :=
  sliceBackingAfter t.Items old.Items h

/-- The contact section (Go struct `ContactSection`). -/
structure ContactSection where
  Title : GoString
  Description : GoString
  ServiceArea : GoString
  ButtonText : GoString
  deriving DecidableEq

/-- The Go zero value of `ContactSection`. -/
def ContactSection.zero : ContactSection :=
  ⟨[], [], [], []⟩

/-- The JSON names of the fields of `ContactSection` (its `json` tags), in order. -/
def ContactSection.names : List String :=
  ["title", "description", "serviceArea", "buttonText"]

/-- Decoding a JSON value into a `ContactSection` that already holds `old`. -/
def decodeContactSection (v : JSON) (old : ContactSection) : Decoded ContactSection :=
  decodeStruct ContactSection.names (fun i x t =>
    match i with
    | 0 => let r := decodeString x t.Title; ⟨{ t with Title := r.val }, r.err⟩
    | 1 => let r := decodeString x t.Description; ⟨{ t with Description := r.val }, r.err⟩
    | 2 => let r := decodeString x t.ServiceArea; ⟨{ t with ServiceArea := r.val }, r.err⟩
    | 3 => let r := decodeString x t.ButtonText; ⟨{ t with ButtonText := r.val }, r.err⟩
    | _ => ⟨t, false⟩) v old

/-- The JSON value `encoding/json` writes for `ContactSection`. -/
def encodeContactSection (t : ContactSection) : JSON :=
  .object [(ascii "title", encodeString t.Title),
    (ascii "description", encodeString t.Description),
    (ascii "serviceArea", encodeString t.ServiceArea),
    (ascii "buttonText", encodeString t.ButtonText)]

/-- A `ContactSection` read back from its own JSON: every string through `coerceUTF8`. -/
def ContactSection.coerce (t : ContactSection) : ContactSection :=
  ⟨coerceUTF8 t.Title, coerceUTF8 t.Description, coerceUTF8 t.ServiceArea, coerceUTF8 t.ButtonText⟩

/-- Every string of the `ContactSection` is valid UTF-8. -/
def ContactSection.Valid (t : ContactSection) : Prop :=
  ValidString t.Title = true ∧ ValidString t.Description = true ∧ ValidString t.ServiceArea = true ∧ ValidString t.ButtonText = true

/-- The footer (Go struct `FooterSection`). -/
structure FooterSection where
  Text : GoString
  deriving DecidableEq

/-- The Go zero value of `FooterSection`. -/
def FooterSection.zero : FooterSection :=
  ⟨[]⟩

/-- The JSON names of the fields of `FooterSection` (its `json` tags), in order. -/
def FooterSection.names : List String :=
  ["text"]

/-- Decoding a JSON value into a `FooterSection` that already holds `old`. -/
def decodeFooterSection (v : JSON) (old : FooterSection) : Decoded FooterSection :=
  decodeStruct FooterSection.names (fun i x t =>
    match i with
    | 0 => let r := decodeString x t.Text; ⟨{ t with Text := r.val }, r.err⟩
    | _ => ⟨t, false⟩) v old

/-- The JSON value `encoding/json` writes for `FooterSection`. -/
def encodeFooterSection (t : FooterSection) : JSON :=
  .object [(ascii "text", encodeString t.Text)]

/-- A `FooterSection` read back from its own JSON: every string through `coerceUTF8`. -/
def FooterSection.coerce (t : FooterSection) : FooterSection :=
  ⟨coerceUTF8 t.Text⟩

/-- Every string of the `FooterSection` is valid UTF-8. -/
def FooterSection.Valid (t : FooterSection) : Prop :=
  ValidString t.Text = true

/-- The content document of the site (Go struct `ContentData`). -/
structure ContentData where
  Hero : HeroSection
  About : AboutSection
  Program : ProgramSection
  Gallery : GallerySection
  Testimonials : TestimonialsSection
  Contact : ContactSection
  Footer : FooterSection
  deriving DecidableEq

/-- The Go zero value of `ContentData`. -/
def ContentData.zero : ContentData :=
  ⟨HeroSection.zero, AboutSection.zero, ProgramSection.zero, GallerySection.zero, TestimonialsSection.zero, ContactSection.zero, FooterSection.zero⟩

/-- The JSON names of the fields of `ContentData` (its `json` tags), in order. -/
def ContentData.names : List String :=
  ["hero", "about", "program", "gallery", "testimonials", "contact", "footer"]

/-- The backing arrays of the slices of the document past their lengths:
    the elements a slice held before it was cut short, which `encoding/json`
    decodes into again when a later array is longer. -/
structure Backing where
  Program : ProgramBacking
  Gallery : List GalleryItem
  Testimonials : List TestimonialItem
  deriving DecidableEq

/-- Backing arrays that hold nothing past the lengths of the slices. -/
def Backing.empty : Backing := ⟨⟨[], []⟩, [], []⟩

/-- Decoding a JSON value into a `ContentData` that already holds `old.1`, with
    `old.2` behind its slices. -/
def decodeContentData (v : JSON) (old : ContentData × Backing) : Decoded (ContentData × Backing) :=
  decodeStruct ContentData.names (fun i x m =>
    match i with
    | 0 => let r := decodeHeroSection x m.1.Hero; ⟨({ m.1 with Hero := r.val }, m.2), r.err⟩
    | 1 => let r := decodeAboutSection x m.1.About; ⟨({ m.1 with About := r.val }, m.2), r.err⟩
    | 2 =>
      let r := decodeProgramSection x (m.1.Program, m.2.Program)
      ⟨({ m.1 with Program := r.val.1 }, { m.2 with Program := r.val.2 }), r.err⟩
    | 3 =>
      let r := decodeGallerySection x (m.1.Gallery, m.2.Gallery)
      ⟨({ m.1 with Gallery := r.val.1 }, { m.2 with Gallery := r.val.2 }), r.err⟩
    | 4 =>
      let r := decodeTestimonialsSection x (m.1.Testimonials, m.2.Testimonials)
      ⟨({ m.1 with Testimonials := r.val.1 }, { m.2 with Testimonials := r.val.2 }), r.err⟩
    | 5 => let r := decodeContactSection x m.1.Contact; ⟨({ m.1 with Contact := r.val }, m.2), r.err⟩
    | 6 => let r := decodeFooterSection x m.1.Footer; ⟨({ m.1 with Footer := r.val }, m.2), r.err⟩
    | _ => ⟨m, false⟩) v old

/-- The JSON value `encoding/json` writes for `ContentData`. -/
def encodeContentData (t : ContentData) : JSON :=
  .object [(ascii "hero", encodeHeroSection t.Hero),
    (ascii "about", encodeAboutSection t.About),
    (ascii "program", encodeProgramSection t.Program),
    (ascii "gallery", encodeGallerySection t.Gallery),
    (ascii "testimonials", encodeTestimonialsSection t.Testimonials),
    (ascii "contact", encodeContactSection t.Contact),
    (ascii "footer", encodeFooterSection t.Footer)]

/-- A `ContentData` read back from its own JSON: every string through `coerceUTF8`. -/
def ContentData.coerce (t : ContentData) : ContentData :=
  ⟨HeroSection.coerce t.Hero, AboutSection.coerce t.About, ProgramSection.coerce t.Program, GallerySection.coerce t.Gallery, TestimonialsSection.coerce t.Testimonials, ContactSection.coerce t.Contact, FooterSection.coerce t.Footer⟩

/-- Every string of the `ContentData` is valid UTF-8. -/
def ContentData.Valid (t : ContentData) : Prop :=
  HeroSection.Valid (t.Hero) ∧ AboutSection.Valid (t.About) ∧ ProgramSection.Valid (t.Program) ∧ GallerySection.Valid (t.Gallery) ∧ TestimonialsSection.Valid (t.Testimonials) ∧ ContactSection.Valid (t.Contact) ∧ FooterSection.Valid (t.Footer)

/-- What is behind the slices of a `ContentData` after the JSON of `t` has been
    decoded into `old`, which had `h` behind its slices. -/
def ContentData.backingAfter (t old : ContentData) (h : Backing) : Backing :=
  ⟨ProgramSection.backingAfter t.Program old.Program h.Program, GallerySection.backingAfter t.Gallery old.Gallery h.Gallery, TestimonialsSection.backingAfter t.Testimonials old.Testimonials h.Testimonials⟩

/-- The credentials the login endpoint reads (Go struct `AuthCredentials`). -/
structure AuthCredentials where
  Username : GoString
  Password : GoString
  deriving DecidableEq

/-- The Go zero value of `AuthCredentials`. -/
def AuthCredentials.zero : AuthCredentials :=
  ⟨[], []⟩

/-- The JSON names of the fields of `AuthCredentials` (its `json` tags), in order. -/
def AuthCredentials.names : List String :=
  ["username", "password"]

/-- Decoding a JSON value into a `AuthCredentials` that already holds `old`. -/
def decodeAuthCredentials (v : JSON) (old : AuthCredentials) : Decoded AuthCredentials :=
  decodeStruct AuthCredentials.names (fun i x t =>
    match i with
    | 0 => let r := decodeString x t.Username; ⟨{ t with Username := r.val }, r.err⟩
    | 1 => let r := decodeString x t.Password; ⟨{ t with Password := r.val }, r.err⟩
    | _ => ⟨t, false⟩) v old

/-- The document `InitializeDefaultContent` assigns to `contentData`. -/
def InitializeDefaultContent : ContentData :=
  { Hero :=
      { Title := ascii "Bimbel Tuntas, Nilai Pintas."
        Subtitle := ascii "Bimbingan Matematika & IPA oleh Sarjana Fisika."
        Description := ascii "Bimbingan intensif dan personal untuk siswa SD dan SMP. Ubah kesulitan belajar menjadi prestasi nyata, fokus pada pemahaman konsep dasar."
        WhatsappNumber := ascii "6281234567890"
        WhatsappMessage := ascii "Halo Kak Nikma, saya tertarik dengan bimbel Belajar Bareng Nikma. Saya ingin mendaftar dan mendapatkan sesi perkenalan gratis." }
    About :=
      { Title := ascii "Kenalan dengan Kak Nikma"
        Description1 := ascii "Kak Nikma adalah lulusan Sarjana Fisika yang memiliki <span class='font-semibold text-gold'>passion mendalam dalam mengajar Matematika dan IPA (Fisika/Biologi)</span>."
        Description2 := ascii "Dengan metode pengajaran yang sabar, terstruktur, dan fokus pada pemecahan masalah, Kak Nikma membantu membangun kepercayaan diri siswa SD dan SMP dalam belajar."
        Description3 := ascii "Tujuan utamanya adalah mengubah kesulitan belajar menjadi prestasi nyata melalui pemahaman konsep dasar yang kuat." }
    Program :=
      { Title := ascii "Program Belajar Bareng Nikma"
        Sd :=
          { Title := ascii "Program SD (Kelas 4-6)"
            Description := ascii "Fokus pada Dasar-dasar Matematika dan Sains."
            Features := some [
              ascii "Penguatan Calitung (Catur, Literasi, Hitung)",
              ascii "Pemahaman konsep dasar Matematika",
              ascii "Latihan soal rutin"] }
        Smp :=
          { Title := ascii "Program SMP (Kelas 7-9)"
            Description := ascii "Fokus pada Matematika dan Fisika."
            Features := some [
              ascii "Pemecahan Masalah Aljabar",
              ascii "Konsep Dasar Fisika",
              ascii "Persiapan Ujian Sekolah/Daerah"] } }
    Gallery :=
      { Title := ascii "Galeri Kegiatan Belajar Bareng Nikma"
        Items := some [
          ⟨ascii "Aktivitas Belajar Interaktif", ascii "/assets/images/gallery1.jpg"⟩,
          ⟨ascii "Murid-Murid Bahagia", ascii "/assets/images/gallery2.jpg"⟩,
          ⟨ascii "Sesi Belajar Kelompok", ascii "/assets/images/gallery3.jpg"⟩,
          ⟨ascii "Penghargaan Prestasi", ascii "/assets/images/gallery4.jpg"⟩,
          ⟨ascii "Kegiatan Praktikum IPA", ascii "/assets/images/gallery5.jpg"⟩,
          ⟨ascii "Sesi Evaluasi Mingguan", ascii "/assets/images/gallery6.jpg"⟩] }
    Testimonials :=
      { Title := ascii "Apa Kata Mereka?"
        Items := some [
          ⟨ascii "Nilai matematika adik saya naik drastis setelah les di sini. Kak Nikma sabar dan bisa menjelaskan pelajaran dengan cara yang mudah dimengerti.",
           ascii "Ortu Murid SD"⟩,
          ⟨ascii "Alhamdulillah, anak saya jadi lebih percaya diri saat ujian karena paham konsepnya. Terima kasih Kak Nikma!",
           ascii "Ortu Murid SMP"⟩,
          ⟨ascii "Metode belajarnya seru dan ga bikin bosan. Anak saya malah semangat belajar IPA setiap minggu.",
           ascii "Ortu Murid SD"⟩] }
    Contact :=
      { Title := ascii "Hubungi Kami"
        Description := ascii "Siap memulai perjalanan belajar yang menyenangkan dan efektif? Hubungi kami melalui WhatsApp!"
        ServiceArea := ascii "Online dan Tatap Muka Area Bunder, Banyuwangi"
        ButtonText := ascii "Hubungi via WhatsApp" }
    Footer := { Text := ascii "&copy; 2025 Belajar Bareng Nikma. Hak Cipta Dilindungi." } }

/-! ## Paths into the document -/

/-- A path from a struct to a field inside it: at each step the JSON names
    of the struct at hand and the index of the field to enter. -/
abbrev FieldPath := List (List String × Nat)

/-- Whether a JSON value, decoded into a struct, gives some value for the
    field at the end of the path. -/
def JSON.namesPath : FieldPath → JSON → Bool
  | [], _ => true
  | (names, i) :: rest, v => (v.values names i).any (JSON.namesPath rest)

/-- The value that stays in the field at the end of the path when the last
    value given at each step of the path is the one that counts. -/
def JSON.lastAt : FieldPath → JSON → Option JSON
  | [], v => some v
  | (names, i) :: rest, v =>
    match (v.values names i).getLast? with
    | none => none
    | some x => JSON.lastAt rest x

/-- The string fields of the document that are not inside a slice. -/
inductive Leaf where
  | heroTitle
  | heroSubtitle
  | heroDescription
  | heroWhatsappNumber
  | heroWhatsappMessage
  | aboutTitle
  | aboutDescription1
  | aboutDescription2
  | aboutDescription3
  | programTitle
  | programSdTitle
  | programSdDescription
  | programSmpTitle
  | programSmpDescription
  | galleryTitle
  | testimonialsTitle
  | contactTitle
  | contactDescription
  | contactServiceArea
  | contactButtonText
  | footerText
  deriving DecidableEq

/-- The path of a string field, as `encoding/json` finds it by the `json` tags. -/
def Leaf.path : Leaf → FieldPath
  | .heroTitle => [(ContentData.names, 0), (HeroSection.names, 0)]
  | .heroSubtitle => [(ContentData.names, 0), (HeroSection.names, 1)]
  | .heroDescription => [(ContentData.names, 0), (HeroSection.names, 2)]
  | .heroWhatsappNumber => [(ContentData.names, 0), (HeroSection.names, 3)]
  | .heroWhatsappMessage => [(ContentData.names, 0), (HeroSection.names, 4)]
  | .aboutTitle => [(ContentData.names, 1), (AboutSection.names, 0)]
  | .aboutDescription1 => [(ContentData.names, 1), (AboutSection.names, 1)]
  | .aboutDescription2 => [(ContentData.names, 1), (AboutSection.names, 2)]
  | .aboutDescription3 => [(ContentData.names, 1), (AboutSection.names, 3)]
  | .programTitle => [(ContentData.names, 2), (ProgramSection.names, 0)]
  | .programSdTitle => [(ContentData.names, 2), (ProgramSection.names, 1), (ProgramItem.names, 0)]
  | .programSdDescription => [(ContentData.names, 2), (ProgramSection.names, 1), (ProgramItem.names, 1)]
  | .programSmpTitle => [(ContentData.names, 2), (ProgramSection.names, 2), (ProgramItem.names, 0)]
  | .programSmpDescription => [(ContentData.names, 2), (ProgramSection.names, 2), (ProgramItem.names, 1)]
  | .galleryTitle => [(ContentData.names, 3), (GallerySection.names, 0)]
  | .testimonialsTitle => [(ContentData.names, 4), (TestimonialsSection.names, 0)]
  | .contactTitle => [(ContentData.names, 5), (ContactSection.names, 0)]
  | .contactDescription => [(ContentData.names, 5), (ContactSection.names, 1)]
  | .contactServiceArea => [(ContentData.names, 5), (ContactSection.names, 2)]
  | .contactButtonText => [(ContentData.names, 5), (ContactSection.names, 3)]
  | .footerText => [(ContentData.names, 6), (FooterSection.names, 0)]

/-- The string field of a document. -/
def Leaf.get : Leaf → ContentData → GoString
  | .heroTitle => fun d => d.Hero.Title
  | .heroSubtitle => fun d => d.Hero.Subtitle
  | .heroDescription => fun d => d.Hero.Description
  | .heroWhatsappNumber => fun d => d.Hero.WhatsappNumber
  | .heroWhatsappMessage => fun d => d.Hero.WhatsappMessage
  | .aboutTitle => fun d => d.About.Title
  | .aboutDescription1 => fun d => d.About.Description1
  | .aboutDescription2 => fun d => d.About.Description2
  | .aboutDescription3 => fun d => d.About.Description3
  | .programTitle => fun d => d.Program.Title
  | .programSdTitle => fun d => d.Program.Sd.Title
  | .programSdDescription => fun d => d.Program.Sd.Description
  | .programSmpTitle => fun d => d.Program.Smp.Title
  | .programSmpDescription => fun d => d.Program.Smp.Description
  | .galleryTitle => fun d => d.Gallery.Title
  | .testimonialsTitle => fun d => d.Testimonials.Title
  | .contactTitle => fun d => d.Contact.Title
  | .contactDescription => fun d => d.Contact.Description
  | .contactServiceArea => fun d => d.Contact.ServiceArea
  | .contactButtonText => fun d => d.Contact.ButtonText
  | .footerText => fun d => d.Footer.Text


/-! ## Files, requests and responses -/

/-- What a path of the working directory holds.  `json v` is a file whose
    bytes are a JSON text denoting `v` (what `SaveContent` writes); `raw b` is
    a file with the bytes `b`, which the model never reads as JSON (at the
    content path it stands for a file that is no JSON text); `dir` is a directory. -/
inductive FileData where
  | raw (bytes : List Byte)
  | json (v : JSON)
  | dir

/-- The working directory: what each relative, cleaned path holds. -/
abbrev FS := GoString → Option FileData

/-- The file system with `path` set to `d`. -/
def FS.write (fs : FS) (path : GoString) (d : Option FileData) : FS :=
  fun q => if q = path then d else fs q

/-- The global state of the process: the variable `contentData`, what the
    backing arrays of its slices hold past their lengths, and the files. -/
structure Server where
  contentData : ContentData
  backing : Backing
  fs : FS

/-- How `ioutil.WriteFile` ended: done, or failed leaving the path in some
    state the environment picks (untouched, truncated, partly written). -/
inductive WriteResult where
  | ok
  | failed (left : Option FileData)

/-- How `io.Copy` into the created file ended: done, or failed after some bytes. -/
inductive CopyResult where
  | ok
  | failed (written : List Byte)

/-- The outcomes of the system calls of one request, picked by the environment. -/
structure Env where
  writeFile : WriteResult
  readFile : Bool
  mkdir : Bool
  create : Bool
  copy : CopyResult

/-- The body of a response. -/
inductive Body where
  | empty
  | text (line : String)
  | json (v : JSON)
  | file (d : FileData)
  | listing (dir : GoString)

/-- What a handler has put on its `http.ResponseWriter`. -/
structure Response where
  status : Nat
  headers : List (String × GoString)
  body : Body

/-- The response writer a handler starts from: no header set, nothing
    written; the server answers 200 when the handler writes no status. -/
def Response.new : Response := ⟨200, [], .empty⟩

/-- Go `w.Header().Set(k, v)`. -/
def Response.setHeader (w : Response) (k : String) (v : GoString) : Response :=
  { w with headers := w.headers.filter (fun h => h.1 ≠ k) ++ [(k, v)] }

/-- Go `w.Header().Get(k)`, `none` when the header is not set. -/
def Response.getHeader (w : Response) (k : String) : Option GoString :=
  (w.headers.find? (fun h => h.1 = k)).map (fun h => h.2)

/-- Go `http.Error(w, msg, code)`. -/
def httpError (w : Response) (msg : String) (code : Nat) : Response :=
  { ((w.setHeader "Content-Type" (ascii "text/plain; charset=utf-8")).setHeader
      "X-Content-Type-Options" (ascii "nosniff")) with status := code, body := .text msg }

/-- Go `json.NewEncoder(w).Encode(v)` on a writer whose status is not yet written. -/
def encodeTo (w : Response) (v : JSON) : Response := { w with body := .json v }

/-- The request, as the handlers read it. -/
structure Request where
  /-- Go `r.Method`. -/
  Method : String
  /-- Go `r.URL.Path`, cleaned by the `ServeMux`. -/
  Path : GoString
  /-- The `Authorization` header, when there is one. -/
  Authorization : Option GoString
  /-- The first JSON value of the body, as `json.Decoder` scans it; `none`
      when the body does not start with a well-formed JSON value. -/
  Body : Option JSON
  /-- The first file part of the multipart form field `image`: its
      `filename` parameter as sent, and its bytes. -/
  Image : Option (GoString × List Byte)

/-! ## The content store -/

/-- The constant `contentFilePath`. -/
def contentFilePath : GoString := ascii "content.json"

/-- The function `SaveContent`: the new state and whether an error is returned.
    `json.MarshalIndent` cannot fail on a `ContentData`. -/
def SaveContent (env : Env) (s : Server) : Server × Bool :=
  let data := FileData.json (encodeContentData s.contentData)
  match env.writeFile with
  | .ok => ({ s with fs := s.fs.write contentFilePath (some data) }, false)
  | .failed left => ({ s with fs := s.fs.write contentFilePath left }, true)

/-- The function `LoadContent`: the new state and whether an error is returned. -/
def LoadContent (env : Env) (s : Server) : Server × Bool :=
  match s.fs contentFilePath with
  | none =>
    SaveContent env { s with contentData := InitializeDefaultContent, backing := Backing.empty }
  | some d =>
    if env.readFile = false then (s, true)
    else
      match d with
      | .json v =>
        let r := decodeContentData v (s.contentData, s.backing)
        ({ s with contentData := r.val.1, backing := r.val.2 }, r.err)
      | _ => (s, true)

/-- The state of a process that has just started: `contentData` is zero. -/
def Server.fresh (fs : FS) : Server := ⟨ContentData.zero, Backing.empty, fs⟩

/-- The handler `GetContent`. -/
def GetContent (s : Server) (w : Response) : Response :=
  encodeTo (w.setHeader "Content-Type" (ascii "application/json")) (encodeContentData s.contentData)

/-- The JSON of a `map[string]string`, keys sorted as `encoding/json` writes them. -/
def encodeMap (m : List (String × GoString)) : JSON :=
  .object (m.map (fun kv => (ascii kv.1, encodeString kv.2)))

/-- The handler `UpdateContent`. -/
def UpdateContent (env : Env) (r : Request) (s : Server) (w : Response) : Server × Response :=
  if !checkAuth r.Authorization then (s, httpError w "Unauthorized" 401)
  else
    match r.Body with
    | none => (s, httpError w "Invalid request body" 400)
    | some v =>
      let d := decodeContentData v (s.contentData, s.backing)
      let s1 := { s with contentData := d.val.1, backing := d.val.2 }
      if d.err then (s1, httpError w "Invalid request body" 400)
      else
        let saved := SaveContent env s1
        if saved.2 then (saved.1, httpError w "Failed to save content" 500)
        else
          (saved.1, encodeTo (w.setHeader "Content-Type" (ascii "application/json"))
            (encodeMap [("message", ascii "Content updated successfully"),
                        ("status", ascii "success")]))

/-! ## The login endpoint -/

/-- The JSON of a `map[string]bool` with the one key `success`. -/
def encodeSuccess (b : Bool) : JSON := .object [(ascii "success", .bool b)]

/-- The handler `Authenticate`. -/
def Authenticate (r : Request) (w : Response) : Response :=
  let w := ((w.setHeader "Access-Control-Allow-Origin" (ascii "*")).setHeader
    "Access-Control-Allow-Methods" (ascii "POST, OPTIONS")).setHeader
    "Access-Control-Allow-Headers" (ascii "Content-Type")
  if r.Method = "OPTIONS" then w
  else
    match r.Body with
    | none => httpError w "Invalid request body" 400
    | some v =>
      let creds := decodeAuthCredentials v AuthCredentials.zero
      if creds.err then httpError w "Invalid request body" 400
      else if creds.val.Username = ascii "nikma" && creds.val.Password = ascii "250200" then
        encodeTo (w.setHeader "Content-Type" (ascii "application/json")) (encodeSuccess true)
      else
        encodeTo { (w.setHeader "Content-Type" (ascii "application/json")) with status := 401 }
          (encodeSuccess false)

/-! ## Static files (`net/http`) -/

/-- Drops the slashes at the end of a path. -/
def trimSlashes (path : GoString) : GoString :=
  (path.reverse.dropWhile (fun c => c.val = 47)).reverse

/-- Go `filepath.Base` (and `path.Base`): the last element of a path, `.` for
    the empty path, `/` for a path of slashes only. -/
def Base (path : GoString) : GoString :=
  if path = [] then ascii "."
  else
    let last := (Split 47 (trimSlashes path)).getLastD []
    if last = [] then ascii "/" else last

/-- The file a cleaned URL path names under `http.Dir("./")`: the path
    without its leading slash and without a trailing one (`path.Clean` of a
    path the `ServeMux` has cleaned only drops the trailing slash). -/
def fileKey (upath : GoString) : GoString :=
  let p := if HasSuffix upath (ascii "/") then upath.dropLast else upath
  if HasPrefix p (ascii "/") then p.drop 1 else p

/-- Go `localRedirect`: status 301 with a relative `Location`. -/
def localRedirect (w : Response) (location : GoString) : Response :=
  { (w.setHeader "Location" location) with status := 301 }

/-- Go `containsDotDot`: some element of the path, split at `/` and `\`, is `..`. -/
def containsDotDot (v : GoString) : Bool :=
  ((Split 47 v).flatMap (Split 92)).any (fun ent => ent = ascii "..")

/-- The function `serveContent` of `net/http` for a plain request (no `Range`,
    no conditional headers): the bytes of the file, and no body at all when
    the method is HEAD. -/
def serveContent (r : Request) (d : FileData) (w : Response) : Response :=
  if r.Method = "HEAD" then w else { w with body := .file d }

/-- The function `serveFile` of `net/http` for a plain request (no `Range`,
    no conditional headers), on the file `name` of the working directory.
    Only status, `Location` and body are modelled. -/
def serveFile (fs : FS) (r : Request) (name : GoString) (redirect : Bool) (w : Response) :
    Response :=
  if HasSuffix r.Path (ascii "/index.html") then localRedirect w (ascii "./")
  else
    match fs name with
    | none => httpError w "404 page not found" 404
    | some .dir =>
      if redirect && !HasSuffix r.Path (ascii "/") then
        localRedirect w (Base r.Path ++ ascii "/")
      else
        let index := if name = [] then ascii "index.html" else name ++ ascii "/index.html"
        match fs index with
        | some (.raw b) => serveContent r (.raw b) w
        | some (.json v) => serveContent r (.json v) w
        | some .dir => { w with body := .listing index }
        | none => { w with body := .listing name }
    | some d =>
      if redirect && HasSuffix r.Path (ascii "/") then
        localRedirect w (ascii "../" ++ Base r.Path)
      else serveContent r d w

/-- Go `http.ServeFile(w, r, name)`. -/
def ServeFile (fs : FS) (r : Request) (name : GoString) (w : Response) : Response :=
  if containsDotDot r.Path then httpError w "invalid URL path" 400
  else serveFile fs r name false w

/-- Go `http.FileServer(http.Dir("./")).ServeHTTP(w, r)`.  As the package
    documents, a request whose path ends in `/index.html` is redirected to the
    directory, whatever the file holds. -/
def FileServer (fs : FS) (r : Request) (w : Response) : Response :=
  serveFile fs r (fileKey r.Path) true w

/-- The handler `GetIndex`. -/
def GetIndex (s : Server) (r : Request) (w : Response) : Response :=
  ServeFile s.fs r (ascii "index.html") w

/-- The handler `GetDashboard`. -/
def GetDashboard (s : Server) (r : Request) (w : Response) : Response :=
  ServeFile s.fs r (ascii "dashboard.html") w

/-! ## The upload -/

/-- Go `r.FormFile("image")`: the file name and the bytes of the uploaded
    file.  `mime/multipart` takes a part for a file only when its `filename`
    parameter is not empty, and reduces the name to `filepath.Base` of it. -/
def FormFile (r : Request) : Option (GoString × List Byte) :=
  match r.Image with
  | none => none
  | some (filename, data) => if filename = [] then none else some (Base filename, data)

/-- Go `os.MkdirAll("uploads", os.ModePerm)`, whose error the program drops:
    the directory is made when the path is free and the call succeeds. -/
def mkdirUploads (env : Env) (fs : FS) : FS :=
  match fs (ascii "uploads") with
  | none => if env.mkdir then fs.write (ascii "uploads") (some .dir) else fs
  | some _ => fs

/-- Whether `os.Create("uploads/" + name)` can succeed at all: `uploads` has
    to be a directory, the name must name no directory (`.`, `..`, `/`, or an
    existing one) and hold no NUL byte. -/
def creatable (fs : FS) (name : GoString) : Bool :=
  (match fs (ascii "uploads") with
   | some .dir => true
   | _ => false) &&
  (match fs (ascii "uploads/" ++ name) with
   | some .dir => false
   | _ => true) &&
  !(name = ascii "." || name = ascii ".." || name = ascii "/") &&
  !name.any (fun c => c.val = 0)

/-- The handler `UploadImage`. -/
def UploadImage (env : Env) (r : Request) (s : Server) (w : Response) : Server × Response :=
  match FormFile r with
  | none => (s, httpError w "Error retrieving file" 400)
  | some (filename, file) =>
    let fs1 := mkdirUploads env s.fs
    let dst := ascii "uploads/" ++ filename
    if !(env.create && creatable fs1 filename) then
      ({ s with fs := fs1 }, httpError w "Error creating file" 500)
    else
      match env.copy with
      | .failed written =>
        ({ s with fs := fs1.write dst (some (.raw written)) },
          httpError w "Error saving file" 500)
      | .ok =>
        ({ s with fs := fs1.write dst (some (.raw file)) },
          encodeTo (w.setHeader "Content-Type" (ascii "application/json"))
            (encodeMap [("imagePath", ascii "/uploads/" ++ filename),
                        ("message", ascii "Image uploaded successfully"),
                        ("status", ascii "success")]))

/-! ## The routes of `main` -/

/-- The handler registered for `/api/content`. -/
def handleContent (env : Env) (r : Request) (s : Server) : Server × Response :=
  let w := ((Response.new.setHeader "Access-Control-Allow-Origin" (ascii "*")).setHeader
    "Access-Control-Allow-Methods" (ascii "GET, POST, OPTIONS")).setHeader
    "Access-Control-Allow-Headers" (ascii "Content-Type, Authorization")
  if r.Method = "OPTIONS" then (s, w)
  else if r.Method = "POST" && !checkAuth r.Authorization then
    (s, httpError w "Unauthorized" 401)
  else if r.Method = "GET" then (s, GetContent s w)
  else if r.Method = "POST" then UpdateContent env r s w
  else (s, httpError w "Method not allowed" 405)

/-- The handler registered for `/api/authenticate`. -/
def handleAuthenticate (r : Request) (s : Server) : Server × Response :=
  let w := ((Response.new.setHeader "Access-Control-Allow-Origin" (ascii "*")).setHeader
    "Access-Control-Allow-Methods" (ascii "POST, OPTIONS")).setHeader
    "Access-Control-Allow-Headers" (ascii "Content-Type")
  if r.Method = "OPTIONS" then (s, w)
  else if r.Method = "POST" then (s, Authenticate r w)
  else (s, httpError w "Method not allowed" 405)

/-- The handler registered for `/api/upload-image`. -/
def handleUploadImage (env : Env) (r : Request) (s : Server) : Server × Response :=
  let w := ((Response.new.setHeader "Access-Control-Allow-Origin" (ascii "*")).setHeader
    "Access-Control-Allow-Methods" (ascii "POST, OPTIONS")).setHeader
    "Access-Control-Allow-Headers" (ascii "Content-Type, Authorization")
  if r.Method = "OPTIONS" then (s, w)
  else if !checkAuth r.Authorization then (s, httpError w "Unauthorized" 401)
  else if r.Method = "POST" then UploadImage env r s w
  else (s, httpError w "Method not allowed" 405)

/-- The handler registered for `/`. -/
def handleRoot (r : Request) (s : Server) : Server × Response :=
  if r.Path = ascii "/" then (s, GetIndex s r Response.new)
  else (s, FileServer s.fs r Response.new)

/-- The handler registered for `/dashboard`. -/
def handleDashboard (r : Request) (s : Server) : Server × Response :=
  (s, GetDashboard s r Response.new)

/-- The patterns registered on the `ServeMux`. -/
inductive Route where
  | apiContent
  | apiAuthenticate
  | apiUploadImage
  | root
  | dashboard
  deriving DecidableEq

/-- The pattern the `ServeMux` picks for a cleaned path: the exact one, and
    `/` for every other path. -/
def route (path : GoString) : Route :=
  if path = ascii "/api/content" then .apiContent
  else if path = ascii "/api/authenticate" then .apiAuthenticate
  else if path = ascii "/api/upload-image" then .apiUploadImage
  else if path = ascii "/dashboard" then .dashboard
  else .root

/-- What the server sends of a handler's response: all of it, except that in
    answer to HEAD it sends no body, whatever the handler wrote. -/
def sent (r : Request) (w : Response) : Response :=
  if r.Method = "HEAD" then { w with body := .empty } else w

/-- The handler of a route. -/
def handler (rt : Route) (env : Env) (r : Request) (s : Server) : Server × Response :=
  match rt with
  | .apiContent => handleContent env r s
  | .apiAuthenticate => handleAuthenticate r s
  | .apiUploadImage => handleUploadImage env r s
  | .root => handleRoot r s
  | .dashboard => handleDashboard r s

/-- One request served by the handler of a route: the new state and the
    response as sent. -/
def handle (rt : Route) (env : Env) (r : Request) (s : Server) : Server × Response :=
  ((handler rt env r s).1, sent r (handler rt env r s).2)

/-- One request served by the server. -/
def serve (env : Env) (r : Request) (s : Server) : Server × Response :=
  handle (route r.Path) env r s

/-! ## Clients and sample inputs -/

/-- The header a client sends for the pair `(u, p)`: `Basic ` and the base64
    of `u:p`. -/
def basicHeader (u p : GoString) : GoString :=
  ascii "Basic " ++ EncodeToString (u ++ ascii ":" ++ p)

/-- The body a client posts to the login endpoint for the pair `(u, p)`. -/
def loginBody (u p : GoString) : JSON :=
  .object [(ascii "username", .string u), (ascii "password", .string p)]

/-- A working directory with no file. -/
def emptyFS : FS := fun _ => none

/-- An environment in which every system call succeeds. -/
def okEnv : Env := ⟨.ok, true, true, true, .ok⟩

/-- An environment in which writing the content file fails and leaves nothing. -/
def failEnv : Env := ⟨.failed none, true, true, true, .ok⟩

/-- A server holding the default document and no file. -/
def defaultServer : Server := ⟨InitializeDefaultContent, Backing.empty, emptyFS⟩

/-- A request with nothing but method, path and `Authorization` header. -/
def plainRequest (method : String) (path : GoString) (auth : Option GoString) : Request :=
  ⟨method, path, auth, none, none⟩

/-- A request with a JSON body. -/
def jsonRequest (method : String) (path : GoString) (auth : Option GoString) (v : JSON) :
    Request :=
  ⟨method, path, auth, some v, none⟩

/-- A working directory with the two pages of the site. -/
def siteFS : FS := fun path =>
  if path = ascii "index.html" then some (.raw (ascii "<html>index</html>"))
  else if path = ascii "dashboard.html" then some (.raw (ascii "<html>dashboard</html>"))
  else none

/-- A server holding the default document and the two pages. -/
def siteServer : Server := ⟨InitializeDefaultContent, Backing.empty, siteFS⟩

/-- The header of a client that knows the pair of the gate. -/
def gateHeader : GoString := basicHeader (ascii "nikma") (ascii "280200")

/-- A body that names the footer only. -/
def footerBody : JSON :=
  .object [(ascii "footer", .object [(ascii "text", .string (ascii "x"))])]

/-- A body that names the footer and gives a number where the hero section belongs. -/
def mistypedBody : JSON :=
  .object [(ascii "footer", .object [(ascii "text", .string (ascii "x"))]),
           (ascii "hero", .number (ascii "5"))]

/-- A body that names the gallery twice: first with one item, then with two
    items that give a title only. -/
def twiceGalleryBody : JSON :=
  .object [
    (ascii "gallery", .object [(ascii "items", .array [
      .object [(ascii "title", .string (ascii "a"))]])]),
    (ascii "gallery", .object [(ascii "items", .array [
      .object [(ascii "title", .string (ascii "b"))],
      .object [(ascii "title", .string (ascii "c"))]])])]

/-- A body that cuts the features of the SD program down to one. -/
def oneFeatureBody : JSON :=
  .object [(ascii "program", .object [(ascii "sd", .object [
    (ascii "features", .array [.string (ascii "only")])])])]

/-- A body that gives two features for the SD program, the second a number. -/
def mistypedFeatureBody : JSON :=
  .object [(ascii "program", .object [(ascii "sd", .object [
    (ascii "features", .array [.string (ascii "p"), .number (ascii "5")])])])]

/-- A working directory in which `uploads/a.png` already holds other bytes. -/
def uploadedFS : FS := fun path =>
  if path = ascii "uploads" then some .dir
  else if path = ascii "uploads/a.png" then some (.raw [9, 9])
  else none

/-- A server holding the default document and the earlier upload. -/
def uploadedServer : Server := ⟨InitializeDefaultContent, Backing.empty, uploadedFS⟩

/-- The file name `caf` + byte E9 + `.png`, which is no UTF-8. -/
def latin1Name : GoString := ascii "caf" ++ [233] ++ ascii ".png"

/-- A document whose footer text is the single byte FF, which is no UTF-8. -/
def badDocument : ContentData := { ContentData.zero with Footer := ⟨[255]⟩ }

/-- An authorized upload of a file with the given `filename` parameter and bytes. -/
def uploadRequest (filename : GoString) (data : List Byte) : Request :=
  ⟨"POST", ascii "/api/upload-image", some gateHeader, none, some (filename, data)⟩

/-! ## Lemmas on strings -/

theorem Split_ne_nil (sep : Byte) (s : GoString) : Split sep s ≠ [] := by
  induction s with
  | nil => simp [Split]
  | cons c cs ih =>
    unfold Split
    split
    · simp
    · split
      · simp
      · simp

theorem Split_length (sep : Byte) (s : GoString) :
    (Split sep s).length = s.count sep + 1 := by
  induction s with
  | nil => simp [Split]
  | cons c cs ih =>
    unfold Split
    by_cases h : c = sep
    · subst h
      simp [ih]
    · have hne : (c == sep) = false := by simpa using h
      rw [if_neg h, List.count_cons, hne]
      cases hs : Split sep cs with
      | nil => exact absurd hs (Split_ne_nil sep cs)
      | cons p ps => rw [hs] at ih; simpa using ih

theorem Split_pair (sep : Byte) (s a b : GoString) (h : Split sep s = [a, b]) :
    s = a ++ sep :: b := by
  induction s generalizing a with
  | nil => simp [Split] at h
  | cons c cs ih =>
    unfold Split at h
    by_cases hc : c = sep
    · subst hc
      rw [if_pos rfl] at h
      have h1 : a = [] := by
        have := congrArg List.head? h
        simpa using this.symm
      subst h1
      have h2 : Split c cs = [b] := by simpa using h
      -- a single piece: no separator is left
      have hlen := Split_length c cs
      rw [h2] at hlen
      have hcount : cs.count c = 0 := by simpa using hlen.symm
      clear ih h
      have : ∀ (t : GoString) (u : GoString), t.count c = 0 → Split c t = [u] → t = u := by
        intro t
        induction t with
        | nil => intro u _ hu; simpa [Split] using hu
        | cons d ds ihd =>
          intro u hcnt hu
          have hd : d ≠ c := by
            intro hdc
            subst hdc
            simp at hcnt
          have hcnt2 : ds.count c = 0 := by
            rw [List.count_cons] at hcnt
            omega
          unfold Split at hu
          rw [if_neg hd] at hu
          cases hs : Split c ds with
          | nil => exact absurd hs (Split_ne_nil c ds)
          | cons p ps =>
            rw [hs] at hu
            simp at hu
            obtain ⟨hu1, hu2⟩ := hu
            subst hu2
            have := ihd p hcnt2 hs
            rw [← hu1, this]
      rw [this cs b hcount h2]
      rfl
    · rw [if_neg hc] at h
      cases hs : Split sep cs with
      | nil => exact absurd hs (Split_ne_nil sep cs)
      | cons p ps =>
        rw [hs] at h
        simp at h
        obtain ⟨h1, h2⟩ := h
        subst h2
        have := ih p hs
        rw [← h1, this]
        rfl

/-! ## Lemmas on the Basic-Auth gate -/

/-- The gate on a decoded credential string: exactly `nikma:280200` passes. -/
theorem credentials_ok_iff (c : GoString) :
    (if (Split 58 c).length ≠ 2 then false
      else ((Split 58 c).getD 0 [] = ascii "nikma" && (Split 58 c).getD 1 [] = ascii "280200"))
      = true ↔ c = ascii "nikma:280200" := by
  constructor
  · intro h
    by_cases hl : (Split 58 c).length ≠ 2
    · rw [if_pos hl] at h
      exact absurd h (by simp)
    · rw [if_neg hl] at h
      have hl2 : (Split 58 c).length = 2 := by simpa using hl
      match hs : Split 58 c, hl2 with
      | [a, b], _ =>
        rw [hs] at h
        simp at h
        have := Split_pair 58 c a b hs
        rw [this, h.1, h.2]
        decide
  · intro h
    subst h
    decide

theorem checkAuth_none : checkAuth none = false := by
  simp [checkAuth, headerGet]

theorem checkAuth_not_basic (v : GoString) (h : HasPrefix v (ascii "Basic ") = false) :
    checkAuth (some v) = false := by
  simp [checkAuth, headerGet, h]

theorem HasPrefix_append (pre rest : GoString) : HasPrefix (pre ++ rest) pre = true := by
  simp [HasPrefix]

theorem HasPrefix_iff (s pre : GoString) :
    HasPrefix s pre = true ↔ ∃ rest, s = pre ++ rest := by
  unfold HasPrefix
  rw [List.isPrefixOf_iff_prefix]
  constructor
  · rintro ⟨t, ht⟩
    exact ⟨t, ht.symm⟩
  · rintro ⟨t, ht⟩
    exact ⟨t, ht.symm⟩

theorem TrimPrefix_append (pre rest : GoString) : TrimPrefix (pre ++ rest) pre = rest := by
  simp [TrimPrefix, HasPrefix_append]

/-- The gate on a header of the Basic scheme. -/
theorem checkAuth_basic (rest : GoString) :
    checkAuth (some (ascii "Basic " ++ rest)) =
      match DecodeString rest with
      | none => false
      | some c => decide (c = ascii "nikma:280200") := by
  have hne : ascii "Basic " ++ rest ≠ [] := by
    intro h
    have := congrArg List.length h
    simp [ascii] at this
  unfold checkAuth
  simp only [headerGet, Option.getD_some, if_neg hne, HasPrefix_append, if_true,
    TrimPrefix_append]
  cases hd : DecodeString rest with
  | none => rfl
  | some c =>
    simp only
    have := credentials_ok_iff c
    by_cases hc : c = ascii "nikma:280200"
    · rw [this.mpr hc]
      simp [hc]
    · have hf : ¬ ((if (Split 58 c).length ≠ 2 then false
        else ((Split 58 c).getD 0 [] = ascii "nikma" &&
          (Split 58 c).getD 1 [] = ascii "280200")) = true) := fun h => hc (this.mp h)
      rw [Bool.not_eq_true] at hf
      rw [hf]
      simp [hc]

/-- The gate accepts a header exactly when it is `Basic ` followed by text
    that `base64.StdEncoding` decodes to `nikma:280200`. -/
theorem checkAuth_iff (h : Option GoString) :
    checkAuth h = true ↔
      ∃ rest, h = some (ascii "Basic " ++ rest) ∧
        DecodeString rest = some (ascii "nikma:280200") := by
  constructor
  · intro hc
    cases h with
    | none => rw [checkAuth_none] at hc; exact absurd hc (by simp)
    | some v =>
      by_cases hp : HasPrefix v (ascii "Basic ") = true
      · obtain ⟨rest, hrest⟩ := (HasPrefix_iff _ _).mp hp
        subst hrest
        refine ⟨rest, rfl, ?_⟩
        rw [checkAuth_basic] at hc
        cases hd : DecodeString rest with
        | none => rw [hd] at hc; exact absurd hc (by simp)
        | some c =>
          rw [hd] at hc
          simp at hc
          rw [hc]
      · rw [Bool.not_eq_true] at hp
        rw [checkAuth_not_basic v hp] at hc
        exact absurd hc (by simp)
  · rintro ⟨rest, rfl, hd⟩
    rw [checkAuth_basic, hd]
    simp

/-! ## Lemmas on base64 -/

theorem decodeMap_encodeStd_fin : ∀ v : Fin 64, decodeMap (encodeStd v.val) = some v.val := by
  decide

theorem decodeMap_encodeStd (v : Nat) (h : v < 64) : decodeMap (encodeStd v) = some v :=
  decodeMap_encodeStd_fin ⟨v, h⟩

theorem decodeMap_padChar : decodeMap padChar = none := by decide

theorem quantumBytes_three (a b c : Byte) :
    quantumBytes [(a.val * 65536 + b.val * 256 + c.val) / 262144 % 64,
      (a.val * 65536 + b.val * 256 + c.val) / 4096 % 64,
      (a.val * 65536 + b.val * 256 + c.val) / 64 % 64,
      (a.val * 65536 + b.val * 256 + c.val) % 64] 3 = [a, b, c] := by
  have ha := a.isLt
  have hb := b.isLt
  have hc := c.isLt
  simp only [quantumBytes, quantumVal, List.getD_cons_zero, List.getD_cons_succ, List.take,
    List.cons.injEq, and_true]
  refine ⟨?_, ?_, ?_⟩ <;> apply Fin.ext <;> simp only [Fin.ofNat, Fin.val_mk] <;> omega

theorem quantumBytes_two (a b : Byte) :
    quantumBytes [(a.val * 65536 + b.val * 256) / 262144 % 64,
      (a.val * 65536 + b.val * 256) / 4096 % 64,
      (a.val * 65536 + b.val * 256) / 64 % 64] 2 = [a, b] := by
  have ha := a.isLt
  have hb := b.isLt
  simp only [quantumBytes, quantumVal, List.getD_cons_zero, List.getD_cons_succ, List.take,
    List.getD_nil, List.cons.injEq, and_true]
  refine ⟨?_, ?_⟩ <;> apply Fin.ext <;> simp only [Fin.ofNat, Fin.val_mk] <;> omega

theorem quantumBytes_one (a : Byte) :
    quantumBytes [(a.val * 65536) / 262144 % 64, (a.val * 65536) / 4096 % 64] 1 = [a] := by
  have ha := a.isLt
  simp only [quantumBytes, quantumVal, List.getD_cons_zero, List.getD_cons_succ, List.take,
    List.getD_nil, List.cons.injEq, and_true]
  apply Fin.ext
  simp only [Fin.ofNat, Fin.val_mk]
  omega

/-- One alphabet character read by the decoder while the quantum is not yet full. -/
theorem decodeLoop_push (v : Nat) (hv : v < 64) (cs : GoString) (q : List Nat)
    (out : List Byte) (hq : q.length ≠ 3) :
    decodeLoop (encodeStd v :: cs) q out = decodeLoop cs (q ++ [v]) out := by
  rw [decodeLoop, decodeMap_encodeStd v hv]
  simp only [if_neg hq]

/-- The alphabet character that completes a quantum. -/
theorem decodeLoop_full (v : Nat) (hv : v < 64) (cs : GoString) (q : List Nat)
    (out : List Byte) (hq : q.length = 3) :
    decodeLoop (encodeStd v :: cs) q out =
      decodeLoop cs [] (out ++ quantumBytes (q ++ [v]) 3) := by
  rw [decodeLoop, decodeMap_encodeStd v hv]
  simp only [if_pos hq]

/-- What `EncodeToString` writes, `DecodeString` reads back. -/
theorem decodeLoop_EncodeToString (bs : GoString) :
    ∀ out : List Byte, decodeLoop (EncodeToString bs) [] out = some (out ++ bs) := by
  induction bs using EncodeToString.induct with
  | case1 => intro out; simp [EncodeToString, decodeLoop]
  | case2 a =>
    intro out
    simp only [EncodeToString]
    rw [decodeLoop_push _ (Nat.mod_lt _ (by decide)) _ _ _ (by simp),
      decodeLoop_push _ (Nat.mod_lt _ (by decide)) _ _ _ (by simp)]
    rw [decodeLoop, decodeMap_padChar]
    have h1 : isNewline padChar = false := by decide
    simp only [h1, List.nil_append, List.length_cons, List.length_nil, skipNewlines]
    simp [quantumBytes_one, skipNewlines]
  | case3 a b =>
    intro out
    simp only [EncodeToString]
    rw [decodeLoop_push _ (Nat.mod_lt _ (by decide)) _ _ _ (by simp),
      decodeLoop_push _ (Nat.mod_lt _ (by decide)) _ _ _ (by simp),
      decodeLoop_push _ (Nat.mod_lt _ (by decide)) _ _ _ (by simp)]
    rw [decodeLoop, decodeMap_padChar]
    have h1 : isNewline padChar = false := by decide
    simp only [h1, List.nil_append, List.length_cons, List.length_nil, skipNewlines]
    simp [quantumBytes_two, skipNewlines]
  | case4 a b c rest ih =>
    intro out
    simp only [EncodeToString]
    rw [decodeLoop_push _ (Nat.mod_lt _ (by decide)) _ _ _ (by simp),
      decodeLoop_push _ (Nat.mod_lt _ (by decide)) _ _ _ (by simp),
      decodeLoop_push _ (Nat.mod_lt _ (by decide)) _ _ _ (by simp),
      decodeLoop_full _ (Nat.mod_lt _ (by decide)) _ _ _ (by simp)]
    rw [ih]
    simp only [List.nil_append, List.cons_append, quantumBytes_three, List.append_assoc]

theorem DecodeString_EncodeToString (bs : GoString) :
    DecodeString (EncodeToString bs) = some bs := by
  simpa [DecodeString] using decodeLoop_EncodeToString bs []

/-! ## Headers without line breaks -/

set_option maxRecDepth 100000 in
theorem decodeMap_inv_all :
    ∀ c : Byte, (decodeMap c).all (fun v => decide (encodeStd v = c) && decide (v < 64)) = true := by
  decide

theorem decodeMap_inv (c : Byte) (v : Nat) (h : decodeMap c = some v) :
    encodeStd v = c ∧ v < 64 := by
  have := decodeMap_inv_all c
  rw [h] at this
  simpa using this

/-- The decoder only ever appends to what it has decoded. -/
theorem decodeLoop_prefix (cs : GoString) :
    ∀ (q : List Nat) (out res : List Byte), decodeLoop cs q out = some res →
      ∃ t, res = out ++ t := by
  induction cs with
  | nil =>
    intro q out res h
    simp only [decodeLoop] at h
    split at h
    · exact ⟨[], by simpa using (Option.some.inj h).symm⟩
    · exact absurd h (by simp)
  | cons c cs ih =>
    intro q out res h
    rw [decodeLoop] at h
    split at h
    · split at h
      · obtain ⟨t, ht⟩ := ih _ _ _ h
        exact ⟨_, by rw [ht, List.append_assoc]⟩
      · exact ih _ _ _ h
    · split at h
      · exact ih _ _ _ h
      · split at h
        · exact absurd h (by simp)
        · split at h
          · exact absurd h (by simp)
          · split at h
            · split at h
              · exact absurd h (by simp)
              · split at h
                · exact absurd h (by simp)
                · split at h
                  · exact ⟨_, (Option.some.inj h).symm⟩
                  · exact absurd h (by simp)
            · split at h
              · exact ⟨_, (Option.some.inj h).symm⟩
              · exact absurd h (by simp)

theorem decodeLoop_nil_inv (q : List Nat) (out res : List Byte)
    (h : decodeLoop [] q out = some res) : q.length = 0 ∧ res = out := by
  simp only [decodeLoop] at h
  split at h
  · exact ⟨by assumption, (Option.some.inj h).symm⟩
  · exact absurd h (by simp)

/-- A character read while the quantum holds fewer than two values. -/
theorem decodeLoop_step_lt2 (c : Byte) (cs : GoString) (q : List Nat) (out res : List Byte)
    (hnl : isNewline c = false) (hq : q.length < 2)
    (h : decodeLoop (c :: cs) q out = some res) :
    ∃ v, v < 64 ∧ c = encodeStd v ∧ decodeLoop cs (q ++ [v]) out = some res := by
  rw [decodeLoop] at h
  cases hd : decodeMap c with
  | none =>
    rw [hd] at h
    simp [hnl, hq] at h
  | some v =>
    rw [hd] at h
    have hq3 : q.length ≠ 3 := by omega
    simp only [if_neg hq3] at h
    obtain ⟨h1, h2⟩ := decodeMap_inv c v hd
    exact ⟨v, h2, h1.symm, h⟩

/-- A character read while the quantum holds two values. -/
theorem decodeLoop_step_eq2 (c : Byte) (cs : GoString) (q : List Nat) (out res : List Byte)
    (hnl : isNewline c = false) (hq : q.length = 2)
    (h : decodeLoop (c :: cs) q out = some res) :
    (∃ v, v < 64 ∧ c = encodeStd v ∧ decodeLoop cs (q ++ [v]) out = some res) ∨
      res = out ++ quantumBytes q 1 := by
  rw [decodeLoop] at h
  cases hd : decodeMap c with
  | none =>
    rw [hd] at h
    right
    by_cases hp : c ≠ padChar
    · simp [hnl, hp] at h
    · have hq2 : ¬ q.length < 2 := by omega
      simp only [hnl, Bool.false_eq_true, if_false, if_neg hp, if_neg hq2, if_pos hq] at h
      split at h
      · exact absurd h (by simp)
      · split at h
        · exact absurd h (by simp)
        · split at h
          · exact (Option.some.inj h).symm
          · exact absurd h (by simp)
  | some v =>
    rw [hd] at h
    have hq3 : q.length ≠ 3 := by omega
    simp only [if_neg hq3] at h
    obtain ⟨h1, h2⟩ := decodeMap_inv c v hd
    exact Or.inl ⟨v, h2, h1.symm, h⟩

/-- A character read while the quantum holds three values. -/
theorem decodeLoop_step_eq3 (c : Byte) (cs : GoString) (q : List Nat) (out res : List Byte)
    (hnl : isNewline c = false) (hq : q.length = 3)
    (h : decodeLoop (c :: cs) q out = some res) :
    (∃ v, v < 64 ∧ c = encodeStd v ∧
        decodeLoop cs [] (out ++ quantumBytes (q ++ [v]) 3) = some res) ∨
      res = out ++ quantumBytes q 2 := by
  rw [decodeLoop] at h
  cases hd : decodeMap c with
  | none =>
    rw [hd] at h
    right
    by_cases hp : c ≠ padChar
    · simp [hnl, hp] at h
    · have hq2 : ¬ q.length < 2 := by omega
      have hq2b : ¬ q.length = 2 := by omega
      simp only [hnl, Bool.false_eq_true, if_false, if_neg hp, if_neg hq2, if_neg hq2b] at h
      split at h
      · exact (Option.some.inj h).symm
      · exact absurd h (by simp)
  | some v =>
    rw [hd] at h
    simp only [if_pos hq] at h
    obtain ⟨h1, h2⟩ := decodeMap_inv c v hd
    exact Or.inl ⟨v, h2, h1.symm, h⟩

theorem quantumBytes_length (q : List Nat) (n : Nat) (hn : n ≤ 3) :
    (quantumBytes q n).length = n := by
  simp [quantumBytes, hn]

/-- The characters of a full quantum are the encoding of its three bytes. -/
theorem EncodeToString_quantum (v0 v1 v2 v3 : Nat) (h0 : v0 < 64) (h1 : v1 < 64)
    (h2 : v2 < 64) (h3 : v3 < 64) (t : GoString) :
    EncodeToString (quantumBytes [v0, v1, v2, v3] 3 ++ t) =
      encodeStd v0 :: encodeStd v1 :: encodeStd v2 :: encodeStd v3 :: EncodeToString t := by
  simp only [quantumBytes, quantumVal, List.getD_cons_zero, List.getD_cons_succ, List.take,
    List.cons_append, List.nil_append, EncodeToString, Fin.ofNat, Fin.val_mk]
  have e0 : ((v0 * 262144 + v1 * 4096 + v2 * 64 + v3) / 65536 % (255 + 1) * 65536 +
      (v0 * 262144 + v1 * 4096 + v2 * 64 + v3) / 256 % (255 + 1) * 256 +
      (v0 * 262144 + v1 * 4096 + v2 * 64 + v3) % (255 + 1)) =
      v0 * 262144 + v1 * 4096 + v2 * 64 + v3 := by omega
  rw [e0]
  have a0 : (v0 * 262144 + v1 * 4096 + v2 * 64 + v3) / 262144 % 64 = v0 := by omega
  have a1 : (v0 * 262144 + v1 * 4096 + v2 * 64 + v3) / 4096 % 64 = v1 := by omega
  have a2 : (v0 * 262144 + v1 * 4096 + v2 * 64 + v3) / 64 % 64 = v2 := by omega
  have a3 : (v0 * 262144 + v1 * 4096 + v2 * 64 + v3) % 64 = v3 := by omega
  rw [a0, a1, a2, a3]
  rfl

/-- Text without line breaks that decodes to a whole number of quanta is
    the encoding of what it decodes to. -/
theorem decodeLoop_inv (n : Nat) :
    ∀ (cs : GoString) (out bs : List Byte), cs.length ≤ n →
      (∀ c ∈ cs, isNewline c = false) →
      decodeLoop cs [] out = some (out ++ bs) → bs.length % 3 = 0 →
      cs = EncodeToString bs := by
  induction n with
  | zero =>
    intro cs out bs hlen _ h _
    have hcs : cs = [] := List.length_eq_zero.mp (Nat.le_zero.mp hlen)
    subst hcs
    have := (decodeLoop_nil_inv _ _ _ h).2
    have hb : bs = [] := by simpa using this
    subst hb
    rfl
  | succ n ih =>
    intro cs out bs hlen hnl h hmod
    match cs, hlen, hnl, h with
    | [], _, _, h =>
      have := (decodeLoop_nil_inv _ _ _ h).2
      have hb : bs = [] := by simpa using this
      subst hb
      rfl
    | c0 :: cs1, hlen, hnl, h =>
      obtain ⟨v0, hv0, hc0, h⟩ :=
        decodeLoop_step_lt2 c0 cs1 [] out _ (hnl c0 (by simp)) (by simp) h
      simp only [List.nil_append] at h
      match cs1, hlen, hnl, h with
      | [], _, _, h => exact absurd (decodeLoop_nil_inv _ _ _ h).1 (by simp)
      | c1 :: cs2, hlen, hnl, h =>
        obtain ⟨v1, hv1, hc1, h⟩ :=
          decodeLoop_step_lt2 c1 cs2 _ out _ (hnl c1 (by simp)) (by simp) h
        simp only [List.cons_append, List.nil_append] at h
        match cs2, hlen, hnl, h with
        | [], _, _, h => exact absurd (decodeLoop_nil_inv _ _ _ h).1 (by simp)
        | c2 :: cs3, hlen, hnl, h =>
          rcases decodeLoop_step_eq2 c2 cs3 _ out _ (hnl c2 (by simp)) (by simp) h with
            ⟨v2, hv2, hc2, h⟩ | hres
          · simp only [List.cons_append, List.nil_append] at h
            match cs3, hlen, hnl, h with
            | [], _, _, h => exact absurd (decodeLoop_nil_inv _ _ _ h).1 (by simp)
            | c3 :: cs4, hlen, hnl, h =>
              rcases decodeLoop_step_eq3 c3 cs4 _ out _ (hnl c3 (by simp)) (by simp) h with
                ⟨v3, hv3, hc3, h⟩ | hres
              · simp only [List.cons_append, List.nil_append] at h
                obtain ⟨t, ht⟩ := decodeLoop_prefix _ _ _ _ h
                have hbs : bs = quantumBytes [v0, v1, v2, v3] 3 ++ t := by
                  have := ht
                  rw [List.append_assoc] at this
                  exact List.append_cancel_left this
                have hlt : t.length % 3 = 0 := by
                  rw [hbs, List.length_append, quantumBytes_length _ 3 (le_refl 3)] at hmod
                  omega
                have h4 : cs4 = EncodeToString t := by
                  apply ih cs4 (out ++ quantumBytes [v0, v1, v2, v3] 3) t
                  · simp only [List.length_cons] at hlen
                    omega
                  · intro c hc
                    exact hnl c (by simp [hc])
                  · rw [← ht]
                    exact h
                  · exact hlt
                rw [hbs, EncodeToString_quantum v0 v1 v2 v3 hv0 hv1 hv2 hv3, ← h4, hc0, hc1,
                  hc2, hc3]
              · have hb := List.append_cancel_left hres
                rw [hb, quantumBytes_length _ 2 (by decide)] at hmod
                exact absurd hmod (by decide)
          · have hb := List.append_cancel_left hres
            rw [hb, quantumBytes_length _ 1 (by decide)] at hmod
            exact absurd hmod (by decide)

/-- For text without line breaks, decoding to `bs` (a whole number of
    three-byte groups) means being the standard encoding of `bs`. -/
theorem DecodeString_eq_iff (rest bs : GoString) (hnl : ∀ c ∈ rest, isNewline c = false)
    (hmod : bs.length % 3 = 0) :
    DecodeString rest = some bs ↔ rest = EncodeToString bs := by
  constructor
  · intro h
    exact decodeLoop_inv rest.length rest [] bs (le_refl _) hnl (by simpa [DecodeString] using h)
      hmod
  · intro h
    rw [h]
    exact DecodeString_EncodeToString bs

/-! ## Lemmas on the login endpoint -/

theorem fieldIndex_username :
    fieldIndex AuthCredentials.names (ascii "username") = some 0 := by decide

theorem fieldIndex_password :
    fieldIndex AuthCredentials.names (ascii "password") = some 1 := by decide

theorem decode_loginBody (u p : GoString) :
    decodeAuthCredentials (loginBody u p) AuthCredentials.zero = ⟨⟨u, p⟩, false⟩ := by
  simp [decodeAuthCredentials, loginBody, decodeStruct, decodeMember, fieldIndex_username,
    fieldIndex_password, decodeString, AuthCredentials.zero]

/-- The answer of `/api/authenticate` to a POST whose body decodes to `(u, p)`. -/
theorem handleAuthenticate_post (r : Request) (s : Server) (v : JSON) (u p : GoString)
    (hm : r.Method = "POST") (hb : r.Body = some v)
    (hd : decodeAuthCredentials v AuthCredentials.zero = ⟨⟨u, p⟩, false⟩) :
    (handleAuthenticate r s).1 = s ∧
    (handleAuthenticate r s).2.status =
      (if u = ascii "nikma" ∧ p = ascii "250200" then 200 else 401) ∧
    (handleAuthenticate r s).2.body =
      .json (encodeSuccess (decide (u = ascii "nikma" ∧ p = ascii "250200"))) := by
  have h1 : ¬ ("POST" = "OPTIONS") := by decide
  unfold handleAuthenticate Authenticate
  simp only [hm, h1, if_false, if_true, hb, hd]
  by_cases hc : u = ascii "nikma" ∧ p = ascii "250200"
  · simp [hc, encodeTo, Response.setHeader, Response.new]
  · rw [if_neg hc]
    have : (decide (u = ascii "nikma") && decide (p = ascii "250200")) = false := by
      simpa using hc
    simp [this, hc, encodeTo, Response.setHeader, Response.new]

theorem append_colon_inj (u p n w : GoString) (hn : (58 : Byte) ∉ n) (hw : (58 : Byte) ∉ w)
    (h : u ++ (58 : Byte) :: p = n ++ (58 : Byte) :: w) : u = n ∧ p = w := by
  rcases List.append_eq_append_iff.mp h with ⟨a, h1, h2⟩ | ⟨c, h1, h2⟩
  · cases a with
    | nil => simp at h1 h2; exact ⟨h1.symm, h2⟩
    | cons x xs =>
      simp at h2
      obtain ⟨hx, _⟩ := h2
      subst hx
      exact absurd (by rw [h1]; simp) hn
  · cases c with
    | nil => simp at h1 h2; exact ⟨h1, h2.symm⟩
    | cons x xs =>
      simp at h2
      obtain ⟨hx, h3⟩ := h2
      subst hx
      exact absurd (by rw [h3]; simp) hw

/-- The gate on the header a client builds for `(u, p)`. -/
theorem checkAuth_basicHeader (u p : GoString) :
    checkAuth (some (basicHeader u p)) = true ↔ u = ascii "nikma" ∧ p = ascii "280200" := by
  unfold basicHeader
  rw [checkAuth_basic, DecodeString_EncodeToString]
  simp only [decide_eq_true_eq]
  constructor
  · intro h
    have h2 : u ++ (58 : Byte) :: p = ascii "nikma" ++ (58 : Byte) :: ascii "280200" := by
      have e0 : ascii ":" = [(58 : Byte)] := by decide
      have e1 : u ++ ascii ":" ++ p = u ++ (58 : Byte) :: p := by
        simp [e0]
      rw [← e1, h]
      decide
    exact append_colon_inj u p _ _ (by decide) (by decide) h2
  · rintro ⟨rfl, rfl⟩
    decide

/-! ## Lemmas on the JSON codec -/

theorem coerceFrom_of_validFrom (s : GoString) :
    ∀ k, validFrom k s = true → coerceFrom k s = s := by
  induction s with
  | nil => intro k _; cases k <;> rfl
  | cons b rest ih =>
    intro k h
    cases k with
    | succ k =>
      simp only [validFrom] at h
      simp only [coerceFrom, ih k h]
    | zero =>
      simp only [validFrom] at h
      simp only [coerceFrom]
      cases hw : runeWidth (b :: rest) with
      | none => rw [hw] at h; exact absurd h (by simp)
      | some n =>
        rw [hw] at h
        simp only [ih (n - 1) h]

theorem coerceUTF8_of_valid (s : GoString) (h : ValidString s = true) : coerceUTF8 s = s :=
  coerceFrom_of_validFrom s 0 h

theorem map_coerceUTF8_of_valid (xs : List GoString) (h : ∀ x ∈ xs, ValidString x = true) :
    xs.map coerceUTF8 = xs := by
  induction xs with
  | nil => rfl
  | cons x xs ih =>
    simp only [List.map_cons]
    rw [coerceUTF8_of_valid x (h x (by simp)), ih (fun y hy => h y (by simp [hy]))]

theorem decodeString_encodeString (s old : GoString) :
    decodeString (encodeString s) old = ⟨coerceUTF8 s, false⟩ := rfl

/-- Elements written by `enc` are read back whatever the backing array held. -/
theorem decodeElems_map {α : Type} (zero : α) (dec : JSON → α → Decoded α) (enc : α → JSON)
    (co : α → α) (h : ∀ x old, dec (enc x) old = ⟨co x, false⟩) (xs : List α) :
    ∀ olds, decodeElems zero dec (xs.map enc) olds = ⟨xs.map co, false⟩ := by
  induction xs with
  | nil => intro olds; rfl
  | cons x xs ih =>
    intro olds
    simp only [List.map_cons, decodeElems, h, ih]
    rfl

theorem decodeSlice_encodeSlice {α : Type} (zero : α) (dec : JSON → α → Decoded α)
    (enc : α → JSON) (co : α → α) (h : ∀ x old, dec (enc x) old = ⟨co x, false⟩)
    (t old : Slice α) (spare : List α) :
    decodeSlice zero dec (encodeSlice enc t) old spare
      = ⟨(t.map (List.map co), sliceBackingAfter t old spare), false⟩ := by
  cases t with
  | none => rfl
  | some xs =>
    cases xs with
    | nil => rfl
    | cons x xs =>
      have hm := decodeElems_map zero dec enc co h (x :: xs) (old.getD [] ++ spare)
      simp only [List.map_cons] at hm
      simp only [encodeSlice, List.map_cons, decodeSlice, hm, Option.map_some',
        sliceBackingAfter, List.length_cons, List.length_map]

theorem slice_coerceUTF8_of_valid (t : Slice GoString)
    (h : ∀ x ∈ t.getD [], ValidString x = true) : t.map (List.map coerceUTF8) = t := by
  cases t with
  | none => rfl
  | some xs =>
    simp only [Option.getD_some] at h
    simp only [Option.map_some', map_coerceUTF8_of_valid xs h]

theorem fieldIndex_HeroSection_title :
    fieldIndex HeroSection.names (ascii "title") = some 0 := by decide

theorem fieldIndex_HeroSection_subtitle :
    fieldIndex HeroSection.names (ascii "subtitle") = some 1 := by decide

theorem fieldIndex_HeroSection_description :
    fieldIndex HeroSection.names (ascii "description") = some 2 := by decide

theorem fieldIndex_HeroSection_whatsappNumber :
    fieldIndex HeroSection.names (ascii "whatsappNumber") = some 3 := by decide

theorem fieldIndex_HeroSection_whatsappMessage :
    fieldIndex HeroSection.names (ascii "whatsappMessage") = some 4 := by decide

/-- A `HeroSection` written by `encoding/json` is read back whatever the target held. -/
theorem decodeHeroSection_encodeHeroSection (t old : HeroSection) :
    decodeHeroSection (encodeHeroSection t) old = ⟨HeroSection.coerce t, false⟩ := by
  simp only [decodeHeroSection, encodeHeroSection, decodeStruct, decodeMember, List.foldl_cons,
    List.foldl_nil, fieldIndex_HeroSection_title, fieldIndex_HeroSection_subtitle, fieldIndex_HeroSection_description, fieldIndex_HeroSection_whatsappNumber, fieldIndex_HeroSection_whatsappMessage,
    decodeString_encodeString,
    Bool.or_false, HeroSection.coerce]

theorem coerce_of_valid_HeroSection (t : HeroSection) (h : HeroSection.Valid t) : HeroSection.coerce t = t := by
  obtain ⟨h0, h1, h2, h3, h4⟩ := h
  cases t
  simp only [HeroSection.coerce] at *
  rw [coerceUTF8_of_valid _ h0, coerceUTF8_of_valid _ h1, coerceUTF8_of_valid _ h2, coerceUTF8_of_valid _ h3, coerceUTF8_of_valid _ h4]

theorem fieldIndex_AboutSection_title :
    fieldIndex AboutSection.names (ascii "title") = some 0 := by decide

theorem fieldIndex_AboutSection_description1 :
    fieldIndex AboutSection.names (ascii "description1") = some 1 := by decide

theorem fieldIndex_AboutSection_description2 :
    fieldIndex AboutSection.names (ascii "description2") = some 2 := by decide

theorem fieldIndex_AboutSection_description3 :
    fieldIndex AboutSection.names (ascii "description3") = some 3 := by decide

/-- A `AboutSection` written by `encoding/json` is read back whatever the target held. -/
theorem decodeAboutSection_encodeAboutSection (t old : AboutSection) :
    decodeAboutSection (encodeAboutSection t) old = ⟨AboutSection.coerce t, false⟩ := by
  simp only [decodeAboutSection, encodeAboutSection, decodeStruct, decodeMember, List.foldl_cons,
    List.foldl_nil, fieldIndex_AboutSection_title, fieldIndex_AboutSection_description1, fieldIndex_AboutSection_description2, fieldIndex_AboutSection_description3,
    decodeString_encodeString,
    Bool.or_false, AboutSection.coerce]

theorem coerce_of_valid_AboutSection (t : AboutSection) (h : AboutSection.Valid t) : AboutSection.coerce t = t := by
  obtain ⟨h0, h1, h2, h3⟩ := h
  cases t
  simp only [AboutSection.coerce] at *
  rw [coerceUTF8_of_valid _ h0, coerceUTF8_of_valid _ h1, coerceUTF8_of_valid _ h2, coerceUTF8_of_valid _ h3]

theorem fieldIndex_ProgramItem_title :
    fieldIndex ProgramItem.names (ascii "title") = some 0 := by decide

theorem fieldIndex_ProgramItem_description :
    fieldIndex ProgramItem.names (ascii "description") = some 1 := by decide

theorem fieldIndex_ProgramItem_features :
    fieldIndex ProgramItem.names (ascii "features") = some 2 := by decide

/-- A `ProgramItem` written by `encoding/json` is read back whatever the target held. -/
theorem decodeProgramItem_encodeProgramItem (t old : ProgramItem) (h : List GoString) :
    decodeProgramItem (encodeProgramItem t) (old, h)
      = ⟨(ProgramItem.coerce t, ProgramItem.backingAfter t old h), false⟩ := by
  simp only [decodeProgramItem, encodeProgramItem, decodeStruct, decodeMember, List.foldl_cons,
    List.foldl_nil, fieldIndex_ProgramItem_title, fieldIndex_ProgramItem_description, fieldIndex_ProgramItem_features,
    decodeSlice_encodeSlice [] decodeString encodeString coerceUTF8 decodeString_encodeString,
    decodeString_encodeString,
    Bool.or_false, ProgramItem.coerce, ProgramItem.backingAfter]

theorem coerce_of_valid_ProgramItem (t : ProgramItem) (h : ProgramItem.Valid t) : ProgramItem.coerce t = t := by
  obtain ⟨h0, h1, h2⟩ := h
  cases t
  simp only [ProgramItem.coerce] at *
  rw [coerceUTF8_of_valid _ h0, coerceUTF8_of_valid _ h1, slice_coerceUTF8_of_valid _ h2]

theorem fieldIndex_ProgramSection_title :
    fieldIndex ProgramSection.names (ascii "title") = some 0 := by decide

theorem fieldIndex_ProgramSection_sd :
    fieldIndex ProgramSection.names (ascii "sd") = some 1 := by decide

theorem fieldIndex_ProgramSection_smp :
    fieldIndex ProgramSection.names (ascii "smp") = some 2 := by decide

/-- A `ProgramSection` written by `encoding/json` is read back whatever the target held. -/
theorem decodeProgramSection_encodeProgramSection (t old : ProgramSection) (h : ProgramBacking) :
    decodeProgramSection (encodeProgramSection t) (old, h)
      = ⟨(ProgramSection.coerce t, ProgramSection.backingAfter t old h), false⟩ := by
  simp only [decodeProgramSection, encodeProgramSection, decodeStruct, decodeMember, List.foldl_cons,
    List.foldl_nil, fieldIndex_ProgramSection_title, fieldIndex_ProgramSection_sd, fieldIndex_ProgramSection_smp,
    decodeProgramItem_encodeProgramItem,
    decodeString_encodeString,
    Bool.or_false, ProgramSection.coerce, ProgramSection.backingAfter]

theorem coerce_of_valid_ProgramSection (t : ProgramSection) (h : ProgramSection.Valid t) : ProgramSection.coerce t = t := by
  obtain ⟨h0, h1, h2⟩ := h
  cases t
  simp only [ProgramSection.coerce] at *
  rw [coerceUTF8_of_valid _ h0, coerce_of_valid_ProgramItem _ h1, coerce_of_valid_ProgramItem _ h2]

theorem fieldIndex_GalleryItem_title :
    fieldIndex GalleryItem.names (ascii "title") = some 0 := by decide

theorem fieldIndex_GalleryItem_image :
    fieldIndex GalleryItem.names (ascii "image") = some 1 := by decide

/-- A `GalleryItem` written by `encoding/json` is read back whatever the target held. -/
theorem decodeGalleryItem_encodeGalleryItem (t old : GalleryItem) :
    decodeGalleryItem (encodeGalleryItem t) old = ⟨GalleryItem.coerce t, false⟩ := by
  simp only [decodeGalleryItem, encodeGalleryItem, decodeStruct, decodeMember, List.foldl_cons,
    List.foldl_nil, fieldIndex_GalleryItem_title, fieldIndex_GalleryItem_image,
    decodeString_encodeString,
    Bool.or_false, GalleryItem.coerce]

theorem coerce_of_valid_GalleryItem (t : GalleryItem) (h : GalleryItem.Valid t) : GalleryItem.coerce t = t := by
  obtain ⟨h0, h1⟩ := h
  cases t
  simp only [GalleryItem.coerce] at *
  rw [coerceUTF8_of_valid _ h0, coerceUTF8_of_valid _ h1]

theorem map_coerce_of_valid_GalleryItem (t : Slice GalleryItem) (h : ∀ x ∈ t.getD [], GalleryItem.Valid x) :
    t.map (List.map GalleryItem.coerce) = t := by
  cases t with
  | none => rfl
  | some xs =>
    simp only [Option.getD_some] at h
    simp only [Option.map_some', Option.some.injEq]
    induction xs with
    | nil => rfl
    | cons x xs ih =>
      simp only [List.map_cons]
      rw [coerce_of_valid_GalleryItem x (h x (by simp)), ih (fun y hy => h y (by simp [hy]))]

theorem fieldIndex_GallerySection_title :
    fieldIndex GallerySection.names (ascii "title") = some 0 := by decide

theorem fieldIndex_GallerySection_items :
    fieldIndex GallerySection.names (ascii "items") = some 1 := by decide

/-- A `GallerySection` written by `encoding/json` is read back whatever the target held. -/
theorem decodeGallerySection_encodeGallerySection (t old : GallerySection) (h : List GalleryItem) :
    decodeGallerySection (encodeGallerySection t) (old, h)
      = ⟨(GallerySection.coerce t, GallerySection.backingAfter t old h), false⟩ := by
  simp only [decodeGallerySection, encodeGallerySection, decodeStruct, decodeMember, List.foldl_cons,
    List.foldl_nil, fieldIndex_GallerySection_title, fieldIndex_GallerySection_items,
    decodeSlice_encodeSlice GalleryItem.zero decodeGalleryItem encodeGalleryItem GalleryItem.coerce decodeGalleryItem_encodeGalleryItem,
    decodeString_encodeString,
    Bool.or_false, GallerySection.coerce, GallerySection.backingAfter]

theorem coerce_of_valid_GallerySection (t : GallerySection) (h : GallerySection.Valid t) : GallerySection.coerce t = t := by
  obtain ⟨h0, h1⟩ := h
  cases t
  simp only [GallerySection.coerce] at *
  rw [coerceUTF8_of_valid _ h0, map_coerce_of_valid_GalleryItem _ h1]

theorem fieldIndex_TestimonialItem_text :
    fieldIndex TestimonialItem.names (ascii "text") = some 0 := by decide

theorem fieldIndex_TestimonialItem_author :
    fieldIndex TestimonialItem.names (ascii "author") = some 1 := by decide

/-- A `TestimonialItem` written by `encoding/json` is read back whatever the target held. -/
theorem decodeTestimonialItem_encodeTestimonialItem (t old : TestimonialItem) :
    decodeTestimonialItem (encodeTestimonialItem t) old = ⟨TestimonialItem.coerce t, false⟩ := by
  simp only [decodeTestimonialItem, encodeTestimonialItem, decodeStruct, decodeMember, List.foldl_cons,
    List.foldl_nil, fieldIndex_TestimonialItem_text, fieldIndex_TestimonialItem_author,
    decodeString_encodeString,
    Bool.or_false, TestimonialItem.coerce]

theorem coerce_of_valid_TestimonialItem (t : TestimonialItem) (h : TestimonialItem.Valid t) : TestimonialItem.coerce t = t := by
  obtain ⟨h0, h1⟩ := h
  cases t
  simp only [TestimonialItem.coerce] at *
  rw [coerceUTF8_of_valid _ h0, coerceUTF8_of_valid _ h1]

theorem map_coerce_of_valid_TestimonialItem (t : Slice TestimonialItem) (h : ∀ x ∈ t.getD [], TestimonialItem.Valid x) :
    t.map (List.map TestimonialItem.coerce) = t := by
  cases t with
  | none => rfl
  | some xs =>
    simp only [Option.getD_some] at h
    simp only [Option.map_some', Option.some.injEq]
    induction xs with
    | nil => rfl
    | cons x xs ih =>
      simp only [List.map_cons]
      rw [coerce_of_valid_TestimonialItem x (h x (by simp)), ih (fun y hy => h y (by simp [hy]))]

theorem fieldIndex_TestimonialsSection_title :
    fieldIndex TestimonialsSection.names (ascii "title") = some 0 := by decide

theorem fieldIndex_TestimonialsSection_items :
    fieldIndex TestimonialsSection.names (ascii "items") = some 1 := by decide

/-- A `TestimonialsSection` written by `encoding/json` is read back whatever the target held. -/
theorem decodeTestimonialsSection_encodeTestimonialsSection (t old : TestimonialsSection) (h : List TestimonialItem) :
    decodeTestimonialsSection (encodeTestimonialsSection t) (old, h)
      = ⟨(TestimonialsSection.coerce t, TestimonialsSection.backingAfter t old h), false⟩ := by
  simp only [decodeTestimonialsSection, encodeTestimonialsSection, decodeStruct, decodeMember, List.foldl_cons,
    List.foldl_nil, fieldIndex_TestimonialsSection_title, fieldIndex_TestimonialsSection_items,
    decodeSlice_encodeSlice TestimonialItem.zero decodeTestimonialItem encodeTestimonialItem TestimonialItem.coerce decodeTestimonialItem_encodeTestimonialItem,
    decodeString_encodeString,
    Bool.or_false, TestimonialsSection.coerce, TestimonialsSection.backingAfter]

theorem coerce_of_valid_TestimonialsSection (t : TestimonialsSection) (h : TestimonialsSection.Valid t) : TestimonialsSection.coerce t = t := by
  obtain ⟨h0, h1⟩ := h
  cases t
  simp only [TestimonialsSection.coerce] at *
  rw [coerceUTF8_of_valid _ h0, map_coerce_of_valid_TestimonialItem _ h1]

theorem fieldIndex_ContactSection_title :
    fieldIndex ContactSection.names (ascii "title") = some 0 := by decide

theorem fieldIndex_ContactSection_description :
    fieldIndex ContactSection.names (ascii "description") = some 1 := by decide

theorem fieldIndex_ContactSection_serviceArea :
    fieldIndex ContactSection.names (ascii "serviceArea") = some 2 := by decide

theorem fieldIndex_ContactSection_buttonText :
    fieldIndex ContactSection.names (ascii "buttonText") = some 3 := by decide

/-- A `ContactSection` written by `encoding/json` is read back whatever the target held. -/
theorem decodeContactSection_encodeContactSection (t old : ContactSection) :
    decodeContactSection (encodeContactSection t) old = ⟨ContactSection.coerce t, false⟩ := by
  simp only [decodeContactSection, encodeContactSection, decodeStruct, decodeMember, List.foldl_cons,
    List.foldl_nil, fieldIndex_ContactSection_title, fieldIndex_ContactSection_description, fieldIndex_ContactSection_serviceArea, fieldIndex_ContactSection_buttonText,
    decodeString_encodeString,
    Bool.or_false, ContactSection.coerce]

theorem coerce_of_valid_ContactSection (t : ContactSection) (h : ContactSection.Valid t) : ContactSection.coerce t = t := by
  obtain ⟨h0, h1, h2, h3⟩ := h
  cases t
  simp only [ContactSection.coerce] at *
  rw [coerceUTF8_of_valid _ h0, coerceUTF8_of_valid _ h1, coerceUTF8_of_valid _ h2, coerceUTF8_of_valid _ h3]

theorem fieldIndex_FooterSection_text :
    fieldIndex FooterSection.names (ascii "text") = some 0 := by decide

/-- A `FooterSection` written by `encoding/json` is read back whatever the target held. -/
theorem decodeFooterSection_encodeFooterSection (t old : FooterSection) :
    decodeFooterSection (encodeFooterSection t) old = ⟨FooterSection.coerce t, false⟩ := by
  simp only [decodeFooterSection, encodeFooterSection, decodeStruct, decodeMember, List.foldl_cons,
    List.foldl_nil, fieldIndex_FooterSection_text,
    decodeString_encodeString,
    Bool.or_false, FooterSection.coerce]

theorem coerce_of_valid_FooterSection (t : FooterSection) (h : FooterSection.Valid t) : FooterSection.coerce t = t := by
  have h0 := h
  cases t
  simp only [FooterSection.coerce] at *
  rw [coerceUTF8_of_valid _ h0]

theorem fieldIndex_ContentData_hero :
    fieldIndex ContentData.names (ascii "hero") = some 0 := by decide

theorem fieldIndex_ContentData_about :
    fieldIndex ContentData.names (ascii "about") = some 1 := by decide

theorem fieldIndex_ContentData_program :
    fieldIndex ContentData.names (ascii "program") = some 2 := by decide

theorem fieldIndex_ContentData_gallery :
    fieldIndex ContentData.names (ascii "gallery") = some 3 := by decide

theorem fieldIndex_ContentData_testimonials :
    fieldIndex ContentData.names (ascii "testimonials") = some 4 := by decide

theorem fieldIndex_ContentData_contact :
    fieldIndex ContentData.names (ascii "contact") = some 5 := by decide

theorem fieldIndex_ContentData_footer :
    fieldIndex ContentData.names (ascii "footer") = some 6 := by decide

/-- A `ContentData` written by `encoding/json` is read back whatever the target held. -/
theorem decodeContentData_encodeContentData (t old : ContentData) (h : Backing) :
    decodeContentData (encodeContentData t) (old, h)
      = ⟨(ContentData.coerce t, ContentData.backingAfter t old h), false⟩ := by
  simp only [decodeContentData, encodeContentData, decodeStruct, decodeMember, List.foldl_cons,
    List.foldl_nil, fieldIndex_ContentData_hero, fieldIndex_ContentData_about, fieldIndex_ContentData_program, fieldIndex_ContentData_gallery, fieldIndex_ContentData_testimonials, fieldIndex_ContentData_contact, fieldIndex_ContentData_footer,
    decodeAboutSection_encodeAboutSection,
    decodeContactSection_encodeContactSection,
    decodeFooterSection_encodeFooterSection,
    decodeGallerySection_encodeGallerySection,
    decodeHeroSection_encodeHeroSection,
    decodeProgramSection_encodeProgramSection,
    decodeTestimonialsSection_encodeTestimonialsSection,
    Bool.or_false, ContentData.coerce, ContentData.backingAfter]

theorem coerce_of_valid_ContentData (t : ContentData) (h : ContentData.Valid t) : ContentData.coerce t = t := by
  obtain ⟨h0, h1, h2, h3, h4, h5, h6⟩ := h
  cases t
  simp only [ContentData.coerce] at *
  rw [coerce_of_valid_HeroSection _ h0, coerce_of_valid_AboutSection _ h1, coerce_of_valid_ProgramSection _ h2, coerce_of_valid_GallerySection _ h3, coerce_of_valid_TestimonialsSection _ h4, coerce_of_valid_ContactSection _ h5, coerce_of_valid_FooterSection _ h6]

/-! ## Lemmas on decoding into a document that holds something -/

theorem foldl_decodeMember_frame {α β : Type} (names : List String)
    (step : Nat → JSON → α → Decoded α) (get : α → β) (members : List (GoString × JSON))
    (h : ∀ m ∈ members, ∀ i, fieldIndex names m.1 = some i →
      ∀ t, get (step i m.2 t).val = get t) :
    ∀ acc : Decoded α,
      get (members.foldl (decodeMember names step) acc).val = get acc.val := by
  induction members with
  | nil => intro acc; rfl
  | cons m ms ih =>
    intro acc
    simp only [List.foldl_cons]
    rw [ih (fun m2 h2 => h m2 (by simp [h2]))]
    unfold decodeMember
    cases hf : fieldIndex names m.1 with
    | none => rfl
    | some j => exact h m (by simp) j hf acc.val

theorem mem_values {names : List String} {i : Nat} {members : List (GoString × JSON)}
    {m : GoString × JSON} (hm : m ∈ members) (hi : fieldIndex names m.1 = some i) :
    m.2 ∈ (JSON.object members).values names i := by
  simp only [JSON.values, List.mem_filterMap]
  exact ⟨m, hm, by simp [hi]⟩

/-- An observation of a struct that no value given by the object changes is
    the same after decoding. -/
theorem decodeStruct_frame {α β : Type} (names : List String)
    (step : Nat → JSON → α → Decoded α) (get : α → β) (v : JSON)
    (h : ∀ i, ∀ x ∈ v.values names i, ∀ t, get (step i x t).val = get t) (old : α) :
    get (decodeStruct names step v old).val = get old := by
  cases v with
  | object members =>
    simp only [decodeStruct]
    exact foldl_decodeMember_frame names step get members
      (fun m hm i hi t => h i m.2 (mem_values hm hi) t) ⟨old, false⟩
  | null => rfl
  | bool _ => rfl
  | number _ => rfl
  | string _ => rfl
  | array _ => rfl

theorem values_append (names : List String) (i : Nat) (ms : List (GoString × JSON))
    (m : GoString × JSON) :
    (JSON.object (ms ++ [m])).values names i =
      (JSON.object ms).values names i ++
        (if fieldIndex names m.1 = some i then [m.2] else []) := by
  simp only [JSON.values, List.filterMap_append, List.filterMap_cons, List.filterMap_nil]
  split <;> simp_all

/-- The field that the last value given for it is decoded into: what a field
    holds after decoding is the result of decoding that last value into it. -/
theorem decodeStruct_last {α β : Type} (names : List String)
    (step : Nat → JSON → α → Decoded α) (get : α → β) (i : Nat)
    (hframe : ∀ j x t, j ≠ i → get (step j x t).val = get t)
    (v : JSON) (x : JSON) (hlast : (v.values names i).getLast? = some x) (old : α) :
    ∃ t, get (decodeStruct names step v old).val = get (step i x t).val := by
  cases v with
  | object members =>
    simp only [decodeStruct]
    induction members using List.reverseRecOn with
    | nil => simp [JSON.values] at hlast
    | append_singleton ms m ih =>
      simp only [List.foldl_append, List.foldl_cons, List.foldl_nil]
      rw [values_append] at hlast
      unfold decodeMember
      cases hf : fieldIndex names m.1 with
      | none =>
        simp only [hf] at hlast
        have hne : ¬ (none = some i) := by simp
        simp only [if_neg hne, List.append_nil] at hlast
        exact ih hlast
      | some j =>
        by_cases hj : j = i
        · subst hj
          simp only [hf, if_true] at hlast
          rw [List.getLast?_append_of_ne_nil _ (by simp), List.getLast?_singleton] at hlast
          have hx : m.2 = x := Option.some.inj hlast
          subst hx
          exact ⟨_, rfl⟩
        · have hne : ¬ (some j = some i) := by
            intro hh
            exact hj (Option.some.inj hh)
          simp only [hf, if_neg hne, List.append_nil] at hlast
          obtain ⟨t, ht⟩ := ih hlast
          refine ⟨t, ?_⟩
          simp only
          rw [hframe j m.2 _ hj]
          exact ht
  | null => simp [JSON.values] at hlast
  | bool _ => simp [JSON.values] at hlast
  | number _ => simp [JSON.values] at hlast
  | string _ => simp [JSON.values] at hlast
  | array _ => simp [JSON.values] at hlast

/-! ## Lemmas on the fields of the document -/

theorem namesPath_false {names : List String} {i : Nat} {rest : FieldPath} {v : JSON}
    (h : v.namesPath ((names, i) :: rest) = false) (x : JSON) (hx : x ∈ v.values names i) :
    x.namesPath rest = false := by
  simp only [JSON.namesPath, List.any_eq_false] at h
  simpa using h x hx

theorem lastAt_cons {names : List String} {i : Nat} {rest : FieldPath} {v z : JSON}
    (h : v.lastAt ((names, i) :: rest) = some z) :
    ∃ x, (v.values names i).getLast? = some x ∧ x.lastAt rest = some z := by
  simp only [JSON.lastAt] at h
  cases hg : (v.values names i).getLast? with
  | none => rw [hg] at h; exact absurd h (by simp)
  | some x => rw [hg] at h; exact ⟨x, rfl, h⟩

/-- The field that the last value given for it is decoded into, in the form
    of an equation. -/
theorem decodeStruct_sets {α β : Type} (names : List String)
    (step : Nat → JSON → α → Decoded α) (get : α → β) (i : Nat)
    (hframe : ∀ j x t, j ≠ i → get (step j x t).val = get t)
    (v : JSON) (x : JSON) (hlast : (v.values names i).getLast? = some x) (c : β)
    (hc : ∀ t, get (step i x t).val = c) (old : α) :
    get (decodeStruct names step v old).val = c := by
  obtain ⟨t, ht⟩ := decodeStruct_last names step get i hframe v x hlast old
  rw [ht]
  exact hc t

theorem keep_heroTitle (v : JSON) (m : ContentData × Backing)
    (hn0 : v.namesPath [(ContentData.names, 0), (HeroSection.names, 0)] = false) :
    (decodeContentData v m).val.1.Hero.Title
      = m.1.Hero.Title := by
  show (fun p : ContentData × Backing => p.1.Hero.Title) (decodeContentData v m).val
      = (fun p : ContentData × Backing => p.1.Hero.Title) m
  unfold decodeContentData
  apply decodeStruct_frame ContentData.names _ (fun p : ContentData × Backing => p.1.Hero.Title) v
  intro i x0 hx0 t
  rcases i with _ | _ | _ | _ | _ | _ | _ | _
  all_goals try rfl
  have hn1 := namesPath_false hn0 x0 hx0
  show (fun p : HeroSection => p.Title) (decodeHeroSection x0 t.1.Hero).val
      = (fun p : HeroSection => p.Title) t.1.Hero
  unfold decodeHeroSection
  apply decodeStruct_frame HeroSection.names _ (fun p : HeroSection => p.Title) x0
  intro i x1 hx1 t
  rcases i with _ | _ | _ | _ | _ | _
  all_goals try rfl
  have hn2 := namesPath_false hn1 x1 hx1
  simp [JSON.namesPath] at hn2

theorem sets_heroTitle (v : JSON) (m : ContentData × Backing) (s : GoString)
    (hl0 : v.lastAt [(ContentData.names, 0), (HeroSection.names, 0)] = some (.string s)) :
    (decodeContentData v m).val.1.Hero.Title = s := by
  show (fun p : ContentData × Backing => p.1.Hero.Title) (decodeContentData v m).val = s
  obtain ⟨x0, hx0, hl1⟩ := lastAt_cons hl0
  unfold decodeContentData
  apply decodeStruct_sets ContentData.names _ (fun p : ContentData × Backing => p.1.Hero.Title) 0
    (by intro j y t hj
        rcases j with _ | _ | _ | _ | _ | _ | _ | _ <;> first | rfl | exact absurd rfl hj)
    v x0 hx0
  intro t
  show (fun p : HeroSection => p.Title) (decodeHeroSection x0 t.1.Hero).val = s
  obtain ⟨x1, hx1, hl2⟩ := lastAt_cons hl1
  unfold decodeHeroSection
  apply decodeStruct_sets HeroSection.names _ (fun p : HeroSection => p.Title) 0
    (by intro j y t hj
        rcases j with _ | _ | _ | _ | _ | _ <;> first | rfl | exact absurd rfl hj)
    x0 x1 hx1
  intro t
  have hy : x1 = .string s := by simpa [JSON.lastAt] using hl2
  subst hy
  rfl

theorem keep_heroSubtitle (v : JSON) (m : ContentData × Backing)
    (hn0 : v.namesPath [(ContentData.names, 0), (HeroSection.names, 1)] = false) :
    (decodeContentData v m).val.1.Hero.Subtitle
      = m.1.Hero.Subtitle := by
  show (fun p : ContentData × Backing => p.1.Hero.Subtitle) (decodeContentData v m).val
      = (fun p : ContentData × Backing => p.1.Hero.Subtitle) m
  unfold decodeContentData
  apply decodeStruct_frame ContentData.names _ (fun p : ContentData × Backing => p.1.Hero.Subtitle) v
  intro i x0 hx0 t
  rcases i with _ | _ | _ | _ | _ | _ | _ | _
  all_goals try rfl
  have hn1 := namesPath_false hn0 x0 hx0
  show (fun p : HeroSection => p.Subtitle) (decodeHeroSection x0 t.1.Hero).val
      = (fun p : HeroSection => p.Subtitle) t.1.Hero
  unfold decodeHeroSection
  apply decodeStruct_frame HeroSection.names _ (fun p : HeroSection => p.Subtitle) x0
  intro i x1 hx1 t
  rcases i with _ | _ | _ | _ | _ | _
  all_goals try rfl
  have hn2 := namesPath_false hn1 x1 hx1
  simp [JSON.namesPath] at hn2

theorem sets_heroSubtitle (v : JSON) (m : ContentData × Backing) (s : GoString)
    (hl0 : v.lastAt [(ContentData.names, 0), (HeroSection.names, 1)] = some (.string s)) :
    (decodeContentData v m).val.1.Hero.Subtitle = s := by
  show (fun p : ContentData × Backing => p.1.Hero.Subtitle) (decodeContentData v m).val = s
  obtain ⟨x0, hx0, hl1⟩ := lastAt_cons hl0
  unfold decodeContentData
  apply decodeStruct_sets ContentData.names _ (fun p : ContentData × Backing => p.1.Hero.Subtitle) 0
    (by intro j y t hj
        rcases j with _ | _ | _ | _ | _ | _ | _ | _ <;> first | rfl | exact absurd rfl hj)
    v x0 hx0
  intro t
  show (fun p : HeroSection => p.Subtitle) (decodeHeroSection x0 t.1.Hero).val = s
  obtain ⟨x1, hx1, hl2⟩ := lastAt_cons hl1
  unfold decodeHeroSection
  apply decodeStruct_sets HeroSection.names _ (fun p : HeroSection => p.Subtitle) 1
    (by intro j y t hj
        rcases j with _ | _ | _ | _ | _ | _ <;> first | rfl | exact absurd rfl hj)
    x0 x1 hx1
  intro t
  have hy : x1 = .string s := by simpa [JSON.lastAt] using hl2
  subst hy
  rfl

theorem keep_heroDescription (v : JSON) (m : ContentData × Backing)
    (hn0 : v.namesPath [(ContentData.names, 0), (HeroSection.names, 2)] = false) :
    (decodeContentData v m).val.1.Hero.Description
      = m.1.Hero.Description := by
  show (fun p : ContentData × Backing => p.1.Hero.Description) (decodeContentData v m).val
      = (fun p : ContentData × Backing => p.1.Hero.Description) m
  unfold decodeContentData
  apply decodeStruct_frame ContentData.names _ (fun p : ContentData × Backing => p.1.Hero.Description) v
  intro i x0 hx0 t
  rcases i with _ | _ | _ | _ | _ | _ | _ | _
  all_goals try rfl
  have hn1 := namesPath_false hn0 x0 hx0
  show (fun p : HeroSection => p.Description) (decodeHeroSection x0 t.1.Hero).val
      = (fun p : HeroSection => p.Description) t.1.Hero
  unfold decodeHeroSection
  apply decodeStruct_frame HeroSection.names _ (fun p : HeroSection => p.Description) x0
  intro i x1 hx1 t
  rcases i with _ | _ | _ | _ | _ | _
  all_goals try rfl
  have hn2 := namesPath_false hn1 x1 hx1
  simp [JSON.namesPath] at hn2

theorem sets_heroDescription (v : JSON) (m : ContentData × Backing) (s : GoString)
    (hl0 : v.lastAt [(ContentData.names, 0), (HeroSection.names, 2)] = some (.string s)) :
    (decodeContentData v m).val.1.Hero.Description = s := by
  show (fun p : ContentData × Backing => p.1.Hero.Description) (decodeContentData v m).val = s
  obtain ⟨x0, hx0, hl1⟩ := lastAt_cons hl0
  unfold decodeContentData
  apply decodeStruct_sets ContentData.names _ (fun p : ContentData × Backing => p.1.Hero.Description) 0
    (by intro j y t hj
        rcases j with _ | _ | _ | _ | _ | _ | _ | _ <;> first | rfl | exact absurd rfl hj)
    v x0 hx0
  intro t
  show (fun p : HeroSection => p.Description) (decodeHeroSection x0 t.1.Hero).val = s
  obtain ⟨x1, hx1, hl2⟩ := lastAt_cons hl1
  unfold decodeHeroSection
  apply decodeStruct_sets HeroSection.names _ (fun p : HeroSection => p.Description) 2
    (by intro j y t hj
        rcases j with _ | _ | _ | _ | _ | _ <;> first | rfl | exact absurd rfl hj)
    x0 x1 hx1
  intro t
  have hy : x1 = .string s := by simpa [JSON.lastAt] using hl2
  subst hy
  rfl

theorem keep_heroWhatsappNumber (v : JSON) (m : ContentData × Backing)
    (hn0 : v.namesPath [(ContentData.names, 0), (HeroSection.names, 3)] = false) :
    (decodeContentData v m).val.1.Hero.WhatsappNumber
      = m.1.Hero.WhatsappNumber := by
  show (fun p : ContentData × Backing => p.1.Hero.WhatsappNumber) (decodeContentData v m).val
      = (fun p : ContentData × Backing => p.1.Hero.WhatsappNumber) m
  unfold decodeContentData
  apply decodeStruct_frame ContentData.names _ (fun p : ContentData × Backing => p.1.Hero.WhatsappNumber) v
  intro i x0 hx0 t
  rcases i with _ | _ | _ | _ | _ | _ | _ | _
  all_goals try rfl
  have hn1 := namesPath_false hn0 x0 hx0
  show (fun p : HeroSection => p.WhatsappNumber) (decodeHeroSection x0 t.1.Hero).val
      = (fun p : HeroSection => p.WhatsappNumber) t.1.Hero
  unfold decodeHeroSection
  apply decodeStruct_frame HeroSection.names _ (fun p : HeroSection => p.WhatsappNumber) x0
  intro i x1 hx1 t
  rcases i with _ | _ | _ | _ | _ | _
  all_goals try rfl
  have hn2 := namesPath_false hn1 x1 hx1
  simp [JSON.namesPath] at hn2

theorem sets_heroWhatsappNumber (v : JSON) (m : ContentData × Backing) (s : GoString)
    (hl0 : v.lastAt [(ContentData.names, 0), (HeroSection.names, 3)] = some (.string s)) :
    (decodeContentData v m).val.1.Hero.WhatsappNumber = s := by
  show (fun p : ContentData × Backing => p.1.Hero.WhatsappNumber) (decodeContentData v m).val = s
  obtain ⟨x0, hx0, hl1⟩ := lastAt_cons hl0
  unfold decodeContentData
  apply decodeStruct_sets ContentData.names _ (fun p : ContentData × Backing => p.1.Hero.WhatsappNumber) 0
    (by intro j y t hj
        rcases j with _ | _ | _ | _ | _ | _ | _ | _ <;> first | rfl | exact absurd rfl hj)
    v x0 hx0
  intro t
  show (fun p : HeroSection => p.WhatsappNumber) (decodeHeroSection x0 t.1.Hero).val = s
  obtain ⟨x1, hx1, hl2⟩ := lastAt_cons hl1
  unfold decodeHeroSection
  apply decodeStruct_sets HeroSection.names _ (fun p : HeroSection => p.WhatsappNumber) 3
    (by intro j y t hj
        rcases j with _ | _ | _ | _ | _ | _ <;> first | rfl | exact absurd rfl hj)
    x0 x1 hx1
  intro t
  have hy : x1 = .string s := by simpa [JSON.lastAt] using hl2
  subst hy
  rfl

theorem keep_heroWhatsappMessage (v : JSON) (m : ContentData × Backing)
    (hn0 : v.namesPath [(ContentData.names, 0), (HeroSection.names, 4)] = false) :
    (decodeContentData v m).val.1.Hero.WhatsappMessage
      = m.1.Hero.WhatsappMessage := by
  show (fun p : ContentData × Backing => p.1.Hero.WhatsappMessage) (decodeContentData v m).val
      = (fun p : ContentData × Backing => p.1.Hero.WhatsappMessage) m
  unfold decodeContentData
  apply decodeStruct_frame ContentData.names _ (fun p : ContentData × Backing => p.1.Hero.WhatsappMessage) v
  intro i x0 hx0 t
  rcases i with _ | _ | _ | _ | _ | _ | _ | _
  all_goals try rfl
  have hn1 := namesPath_false hn0 x0 hx0
  show (fun p : HeroSection => p.WhatsappMessage) (decodeHeroSection x0 t.1.Hero).val
      = (fun p : HeroSection => p.WhatsappMessage) t.1.Hero
  unfold decodeHeroSection
  apply decodeStruct_frame HeroSection.names _ (fun p : HeroSection => p.WhatsappMessage) x0
  intro i x1 hx1 t
  rcases i with _ | _ | _ | _ | _ | _
  all_goals try rfl
  have hn2 := namesPath_false hn1 x1 hx1
  simp [JSON.namesPath] at hn2

theorem sets_heroWhatsappMessage (v : JSON) (m : ContentData × Backing) (s : GoString)
    (hl0 : v.lastAt [(ContentData.names, 0), (HeroSection.names, 4)] = some (.string s)) :
    (decodeContentData v m).val.1.Hero.WhatsappMessage = s := by
  show (fun p : ContentData × Backing => p.1.Hero.WhatsappMessage) (decodeContentData v m).val = s
  obtain ⟨x0, hx0, hl1⟩ := lastAt_cons hl0
  unfold decodeContentData
  apply decodeStruct_sets ContentData.names _ (fun p : ContentData × Backing => p.1.Hero.WhatsappMessage) 0
    (by intro j y t hj
        rcases j with _ | _ | _ | _ | _ | _ | _ | _ <;> first | rfl | exact absurd rfl hj)
    v x0 hx0
  intro t
  show (fun p : HeroSection => p.WhatsappMessage) (decodeHeroSection x0 t.1.Hero).val = s
  obtain ⟨x1, hx1, hl2⟩ := lastAt_cons hl1
  unfold decodeHeroSection
  apply decodeStruct_sets HeroSection.names _ (fun p : HeroSection => p.WhatsappMessage) 4
    (by intro j y t hj
        rcases j with _ | _ | _ | _ | _ | _ <;> first | rfl | exact absurd rfl hj)
    x0 x1 hx1
  intro t
  have hy : x1 = .string s := by simpa [JSON.lastAt] using hl2
  subst hy
  rfl

theorem keep_aboutTitle (v : JSON) (m : ContentData × Backing)
    (hn0 : v.namesPath [(ContentData.names, 1), (AboutSection.names, 0)] = false) :
    (decodeContentData v m).val.1.About.Title
      = m.1.About.Title := by
  show (fun p : ContentData × Backing => p.1.About.Title) (decodeContentData v m).val
      = (fun p : ContentData × Backing => p.1.About.Title) m
  unfold decodeContentData
  apply decodeStruct_frame ContentData.names _ (fun p : ContentData × Backing => p.1.About.Title) v
  intro i x0 hx0 t
  rcases i with _ | _ | _ | _ | _ | _ | _ | _
  all_goals try rfl
  have hn1 := namesPath_false hn0 x0 hx0
  show (fun p : AboutSection => p.Title) (decodeAboutSection x0 t.1.About).val
      = (fun p : AboutSection => p.Title) t.1.About
  unfold decodeAboutSection
  apply decodeStruct_frame AboutSection.names _ (fun p : AboutSection => p.Title) x0
  intro i x1 hx1 t
  rcases i with _ | _ | _ | _ | _
  all_goals try rfl
  have hn2 := namesPath_false hn1 x1 hx1
  simp [JSON.namesPath] at hn2

theorem sets_aboutTitle (v : JSON) (m : ContentData × Backing) (s : GoString)
    (hl0 : v.lastAt [(ContentData.names, 1), (AboutSection.names, 0)] = some (.string s)) :
    (decodeContentData v m).val.1.About.Title = s := by
  show (fun p : ContentData × Backing => p.1.About.Title) (decodeContentData v m).val = s
  obtain ⟨x0, hx0, hl1⟩ := lastAt_cons hl0
  unfold decodeContentData
  apply decodeStruct_sets ContentData.names _ (fun p : ContentData × Backing => p.1.About.Title) 1
    (by intro j y t hj
        rcases j with _ | _ | _ | _ | _ | _ | _ | _ <;> first | rfl | exact absurd rfl hj)
    v x0 hx0
  intro t
  show (fun p : AboutSection => p.Title) (decodeAboutSection x0 t.1.About).val = s
  obtain ⟨x1, hx1, hl2⟩ := lastAt_cons hl1
  unfold decodeAboutSection
  apply decodeStruct_sets AboutSection.names _ (fun p : AboutSection => p.Title) 0
    (by intro j y t hj
        rcases j with _ | _ | _ | _ | _ <;> first | rfl | exact absurd rfl hj)
    x0 x1 hx1
  intro t
  have hy : x1 = .string s := by simpa [JSON.lastAt] using hl2
  subst hy
  rfl

theorem keep_aboutDescription1 (v : JSON) (m : ContentData × Backing)
    (hn0 : v.namesPath [(ContentData.names, 1), (AboutSection.names, 1)] = false) :
    (decodeContentData v m).val.1.About.Description1
      = m.1.About.Description1 := by
  show (fun p : ContentData × Backing => p.1.About.Description1) (decodeContentData v m).val
      = (fun p : ContentData × Backing => p.1.About.Description1) m
  unfold decodeContentData
  apply decodeStruct_frame ContentData.names _ (fun p : ContentData × Backing => p.1.About.Description1) v
  intro i x0 hx0 t
  rcases i with _ | _ | _ | _ | _ | _ | _ | _
  all_goals try rfl
  have hn1 := namesPath_false hn0 x0 hx0
  show (fun p : AboutSection => p.Description1) (decodeAboutSection x0 t.1.About).val
      = (fun p : AboutSection => p.Description1) t.1.About
  unfold decodeAboutSection
  apply decodeStruct_frame AboutSection.names _ (fun p : AboutSection => p.Description1) x0
  intro i x1 hx1 t
  rcases i with _ | _ | _ | _ | _
  all_goals try rfl
  have hn2 := namesPath_false hn1 x1 hx1
  simp [JSON.namesPath] at hn2

theorem sets_aboutDescription1 (v : JSON) (m : ContentData × Backing) (s : GoString)
    (hl0 : v.lastAt [(ContentData.names, 1), (AboutSection.names, 1)] = some (.string s)) :
    (decodeContentData v m).val.1.About.Description1 = s := by
  show (fun p : ContentData × Backing => p.1.About.Description1) (decodeContentData v m).val = s
  obtain ⟨x0, hx0, hl1⟩ := lastAt_cons hl0
  unfold decodeContentData
  apply decodeStruct_sets ContentData.names _ (fun p : ContentData × Backing => p.1.About.Description1) 1
    (by intro j y t hj
        rcases j with _ | _ | _ | _ | _ | _ | _ | _ <;> first | rfl | exact absurd rfl hj)
    v x0 hx0
  intro t
  show (fun p : AboutSection => p.Description1) (decodeAboutSection x0 t.1.About).val = s
  obtain ⟨x1, hx1, hl2⟩ := lastAt_cons hl1
  unfold decodeAboutSection
  apply decodeStruct_sets AboutSection.names _ (fun p : AboutSection => p.Description1) 1
    (by intro j y t hj
        rcases j with _ | _ | _ | _ | _ <;> first | rfl | exact absurd rfl hj)
    x0 x1 hx1
  intro t
  have hy : x1 = .string s := by simpa [JSON.lastAt] using hl2
  subst hy
  rfl

theorem keep_aboutDescription2 (v : JSON) (m : ContentData × Backing)
    (hn0 : v.namesPath [(ContentData.names, 1), (AboutSection.names, 2)] = false) :
    (decodeContentData v m).val.1.About.Description2
      = m.1.About.Description2 := by
  show (fun p : ContentData × Backing => p.1.About.Description2) (decodeContentData v m).val
      = (fun p : ContentData × Backing => p.1.About.Description2) m
  unfold decodeContentData
  apply decodeStruct_frame ContentData.names _ (fun p : ContentData × Backing => p.1.About.Description2) v
  intro i x0 hx0 t
  rcases i with _ | _ | _ | _ | _ | _ | _ | _
  all_goals try rfl
  have hn1 := namesPath_false hn0 x0 hx0
  show (fun p : AboutSection => p.Description2) (decodeAboutSection x0 t.1.About).val
      = (fun p : AboutSection => p.Description2) t.1.About
  unfold decodeAboutSection
  apply decodeStruct_frame AboutSection.names _ (fun p : AboutSection => p.Description2) x0
  intro i x1 hx1 t
  rcases i with _ | _ | _ | _ | _
  all_goals try rfl
  have hn2 := namesPath_false hn1 x1 hx1
  simp [JSON.namesPath] at hn2

theorem sets_aboutDescription2 (v : JSON) (m : ContentData × Backing) (s : GoString)
    (hl0 : v.lastAt [(ContentData.names, 1), (AboutSection.names, 2)] = some (.string s)) :
    (decodeContentData v m).val.1.About.Description2 = s := by
  show (fun p : ContentData × Backing => p.1.About.Description2) (decodeContentData v m).val = s
  obtain ⟨x0, hx0, hl1⟩ := lastAt_cons hl0
  unfold decodeContentData
  apply decodeStruct_sets ContentData.names _ (fun p : ContentData × Backing => p.1.About.Description2) 1
    (by intro j y t hj
        rcases j with _ | _ | _ | _ | _ | _ | _ | _ <;> first | rfl | exact absurd rfl hj)
    v x0 hx0
  intro t
  show (fun p : AboutSection => p.Description2) (decodeAboutSection x0 t.1.About).val = s
  obtain ⟨x1, hx1, hl2⟩ := lastAt_cons hl1
  unfold decodeAboutSection
  apply decodeStruct_sets AboutSection.names _ (fun p : AboutSection => p.Description2) 2
    (by intro j y t hj
        rcases j with _ | _ | _ | _ | _ <;> first | rfl | exact absurd rfl hj)
    x0 x1 hx1
  intro t
  have hy : x1 = .string s := by simpa [JSON.lastAt] using hl2
  subst hy
  rfl

theorem keep_aboutDescription3 (v : JSON) (m : ContentData × Backing)
    (hn0 : v.namesPath [(ContentData.names, 1), (AboutSection.names, 3)] = false) :
    (decodeContentData v m).val.1.About.Description3
      = m.1.About.Description3 := by
  show (fun p : ContentData × Backing => p.1.About.Description3) (decodeContentData v m).val
      = (fun p : ContentData × Backing => p.1.About.Description3) m
  unfold decodeContentData
  apply decodeStruct_frame ContentData.names _ (fun p : ContentData × Backing => p.1.About.Description3) v
  intro i x0 hx0 t
  rcases i with _ | _ | _ | _ | _ | _ | _ | _
  all_goals try rfl
  have hn1 := namesPath_false hn0 x0 hx0
  show (fun p : AboutSection => p.Description3) (decodeAboutSection x0 t.1.About).val
      = (fun p : AboutSection => p.Description3) t.1.About
  unfold decodeAboutSection
  apply decodeStruct_frame AboutSection.names _ (fun p : AboutSection => p.Description3) x0
  intro i x1 hx1 t
  rcases i with _ | _ | _ | _ | _
  all_goals try rfl
  have hn2 := namesPath_false hn1 x1 hx1
  simp [JSON.namesPath] at hn2

theorem sets_aboutDescription3 (v : JSON) (m : ContentData × Backing) (s : GoString)
    (hl0 : v.lastAt [(ContentData.names, 1), (AboutSection.names, 3)] = some (.string s)) :
    (decodeContentData v m).val.1.About.Description3 = s := by
  show (fun p : ContentData × Backing => p.1.About.Description3) (decodeContentData v m).val = s
  obtain ⟨x0, hx0, hl1⟩ := lastAt_cons hl0
  unfold decodeContentData
  apply decodeStruct_sets ContentData.names _ (fun p : ContentData × Backing => p.1.About.Description3) 1
    (by intro j y t hj
        rcases j with _ | _ | _ | _ | _ | _ | _ | _ <;> first | rfl | exact absurd rfl hj)
    v x0 hx0
  intro t
  show (fun p : AboutSection => p.Description3) (decodeAboutSection x0 t.1.About).val = s
  obtain ⟨x1, hx1, hl2⟩ := lastAt_cons hl1
  unfold decodeAboutSection
  apply decodeStruct_sets AboutSection.names _ (fun p : AboutSection => p.Description3) 3
    (by intro j y t hj
        rcases j with _ | _ | _ | _ | _ <;> first | rfl | exact absurd rfl hj)
    x0 x1 hx1
  intro t
  have hy : x1 = .string s := by simpa [JSON.lastAt] using hl2
  subst hy
  rfl

theorem keep_programTitle (v : JSON) (m : ContentData × Backing)
    (hn0 : v.namesPath [(ContentData.names, 2), (ProgramSection.names, 0)] = false) :
    (decodeContentData v m).val.1.Program.Title
      = m.1.Program.Title := by
  show (fun p : ContentData × Backing => p.1.Program.Title) (decodeContentData v m).val
      = (fun p : ContentData × Backing => p.1.Program.Title) m
  unfold decodeContentData
  apply decodeStruct_frame ContentData.names _ (fun p : ContentData × Backing => p.1.Program.Title) v
  intro i x0 hx0 t
  rcases i with _ | _ | _ | _ | _ | _ | _ | _
  all_goals try rfl
  have hn1 := namesPath_false hn0 x0 hx0
  show (fun p : ProgramSection × ProgramBacking => p.1.Title) (decodeProgramSection x0 (t.1.Program, t.2.Program)).val
      = (fun p : ProgramSection × ProgramBacking => p.1.Title) (t.1.Program, t.2.Program)
  unfold decodeProgramSection
  apply decodeStruct_frame ProgramSection.names _ (fun p : ProgramSection × ProgramBacking => p.1.Title) x0
  intro i x1 hx1 t
  rcases i with _ | _ | _ | _
  all_goals try rfl
  have hn2 := namesPath_false hn1 x1 hx1
  simp [JSON.namesPath] at hn2

theorem sets_programTitle (v : JSON) (m : ContentData × Backing) (s : GoString)
    (hl0 : v.lastAt [(ContentData.names, 2), (ProgramSection.names, 0)] = some (.string s)) :
    (decodeContentData v m).val.1.Program.Title = s := by
  show (fun p : ContentData × Backing => p.1.Program.Title) (decodeContentData v m).val = s
  obtain ⟨x0, hx0, hl1⟩ := lastAt_cons hl0
  unfold decodeContentData
  apply decodeStruct_sets ContentData.names _ (fun p : ContentData × Backing => p.1.Program.Title) 2
    (by intro j y t hj
        rcases j with _ | _ | _ | _ | _ | _ | _ | _ <;> first | rfl | exact absurd rfl hj)
    v x0 hx0
  intro t
  show (fun p : ProgramSection × ProgramBacking => p.1.Title) (decodeProgramSection x0 (t.1.Program, t.2.Program)).val = s
  obtain ⟨x1, hx1, hl2⟩ := lastAt_cons hl1
  unfold decodeProgramSection
  apply decodeStruct_sets ProgramSection.names _ (fun p : ProgramSection × ProgramBacking => p.1.Title) 0
    (by intro j y t hj
        rcases j with _ | _ | _ | _ <;> first | rfl | exact absurd rfl hj)
    x0 x1 hx1
  intro t
  have hy : x1 = .string s := by simpa [JSON.lastAt] using hl2
  subst hy
  rfl

theorem keep_programSdTitle (v : JSON) (m : ContentData × Backing)
    (hn0 : v.namesPath [(ContentData.names, 2), (ProgramSection.names, 1), (ProgramItem.names, 0)] = false) :
    (decodeContentData v m).val.1.Program.Sd.Title
      = m.1.Program.Sd.Title := by
  show (fun p : ContentData × Backing => p.1.Program.Sd.Title) (decodeContentData v m).val
      = (fun p : ContentData × Backing => p.1.Program.Sd.Title) m
  unfold decodeContentData
  apply decodeStruct_frame ContentData.names _ (fun p : ContentData × Backing => p.1.Program.Sd.Title) v
  intro i x0 hx0 t
  rcases i with _ | _ | _ | _ | _ | _ | _ | _
  all_goals try rfl
  have hn1 := namesPath_false hn0 x0 hx0
  show (fun p : ProgramSection × ProgramBacking => p.1.Sd.Title) (decodeProgramSection x0 (t.1.Program, t.2.Program)).val
      = (fun p : ProgramSection × ProgramBacking => p.1.Sd.Title) (t.1.Program, t.2.Program)
  unfold decodeProgramSection
  apply decodeStruct_frame ProgramSection.names _ (fun p : ProgramSection × ProgramBacking => p.1.Sd.Title) x0
  intro i x1 hx1 t
  rcases i with _ | _ | _ | _
  all_goals try rfl
  have hn2 := namesPath_false hn1 x1 hx1
  show (fun p : ProgramItem × List GoString => p.1.Title) (decodeProgramItem x1 (t.1.Sd, t.2.Sd)).val
      = (fun p : ProgramItem × List GoString => p.1.Title) (t.1.Sd, t.2.Sd)
  unfold decodeProgramItem
  apply decodeStruct_frame ProgramItem.names _ (fun p : ProgramItem × List GoString => p.1.Title) x1
  intro i x2 hx2 t
  rcases i with _ | _ | _ | _
  all_goals try rfl
  have hn3 := namesPath_false hn2 x2 hx2
  simp [JSON.namesPath] at hn3

theorem sets_programSdTitle (v : JSON) (m : ContentData × Backing) (s : GoString)
    (hl0 : v.lastAt [(ContentData.names, 2), (ProgramSection.names, 1), (ProgramItem.names, 0)] = some (.string s)) :
    (decodeContentData v m).val.1.Program.Sd.Title = s := by
  show (fun p : ContentData × Backing => p.1.Program.Sd.Title) (decodeContentData v m).val = s
  obtain ⟨x0, hx0, hl1⟩ := lastAt_cons hl0
  unfold decodeContentData
  apply decodeStruct_sets ContentData.names _ (fun p : ContentData × Backing => p.1.Program.Sd.Title) 2
    (by intro j y t hj
        rcases j with _ | _ | _ | _ | _ | _ | _ | _ <;> first | rfl | exact absurd rfl hj)
    v x0 hx0
  intro t
  show (fun p : ProgramSection × ProgramBacking => p.1.Sd.Title) (decodeProgramSection x0 (t.1.Program, t.2.Program)).val = s
  obtain ⟨x1, hx1, hl2⟩ := lastAt_cons hl1
  unfold decodeProgramSection
  apply decodeStruct_sets ProgramSection.names _ (fun p : ProgramSection × ProgramBacking => p.1.Sd.Title) 1
    (by intro j y t hj
        rcases j with _ | _ | _ | _ <;> first | rfl | exact absurd rfl hj)
    x0 x1 hx1
  intro t
  show (fun p : ProgramItem × List GoString => p.1.Title) (decodeProgramItem x1 (t.1.Sd, t.2.Sd)).val = s
  obtain ⟨x2, hx2, hl3⟩ := lastAt_cons hl2
  unfold decodeProgramItem
  apply decodeStruct_sets ProgramItem.names _ (fun p : ProgramItem × List GoString => p.1.Title) 0
    (by intro j y t hj
        rcases j with _ | _ | _ | _ <;> first | rfl | exact absurd rfl hj)
    x1 x2 hx2
  intro t
  have hy : x2 = .string s := by simpa [JSON.lastAt] using hl3
  subst hy
  rfl

theorem keep_programSdDescription (v : JSON) (m : ContentData × Backing)
    (hn0 : v.namesPath [(ContentData.names, 2), (ProgramSection.names, 1), (ProgramItem.names, 1)] = false) :
    (decodeContentData v m).val.1.Program.Sd.Description
      = m.1.Program.Sd.Description := by
  show (fun p : ContentData × Backing => p.1.Program.Sd.Description) (decodeContentData v m).val
      = (fun p : ContentData × Backing => p.1.Program.Sd.Description) m
  unfold decodeContentData
  apply decodeStruct_frame ContentData.names _ (fun p : ContentData × Backing => p.1.Program.Sd.Description) v
  intro i x0 hx0 t
  rcases i with _ | _ | _ | _ | _ | _ | _ | _
  all_goals try rfl
  have hn1 := namesPath_false hn0 x0 hx0
  show (fun p : ProgramSection × ProgramBacking => p.1.Sd.Description) (decodeProgramSection x0 (t.1.Program, t.2.Program)).val
      = (fun p : ProgramSection × ProgramBacking => p.1.Sd.Description) (t.1.Program, t.2.Program)
  unfold decodeProgramSection
  apply decodeStruct_frame ProgramSection.names _ (fun p : ProgramSection × ProgramBacking => p.1.Sd.Description) x0
  intro i x1 hx1 t
  rcases i with _ | _ | _ | _
  all_goals try rfl
  have hn2 := namesPath_false hn1 x1 hx1
  show (fun p : ProgramItem × List GoString => p.1.Description) (decodeProgramItem x1 (t.1.Sd, t.2.Sd)).val
      = (fun p : ProgramItem × List GoString => p.1.Description) (t.1.Sd, t.2.Sd)
  unfold decodeProgramItem
  apply decodeStruct_frame ProgramItem.names _ (fun p : ProgramItem × List GoString => p.1.Description) x1
  intro i x2 hx2 t
  rcases i with _ | _ | _ | _
  all_goals try rfl
  have hn3 := namesPath_false hn2 x2 hx2
  simp [JSON.namesPath] at hn3

theorem sets_programSdDescription (v : JSON) (m : ContentData × Backing) (s : GoString)
    (hl0 : v.lastAt [(ContentData.names, 2), (ProgramSection.names, 1), (ProgramItem.names, 1)] = some (.string s)) :
    (decodeContentData v m).val.1.Program.Sd.Description = s := by
  show (fun p : ContentData × Backing => p.1.Program.Sd.Description) (decodeContentData v m).val = s
  obtain ⟨x0, hx0, hl1⟩ := lastAt_cons hl0
  unfold decodeContentData
  apply decodeStruct_sets ContentData.names _ (fun p : ContentData × Backing => p.1.Program.Sd.Description) 2
    (by intro j y t hj
        rcases j with _ | _ | _ | _ | _ | _ | _ | _ <;> first | rfl | exact absurd rfl hj)
    v x0 hx0
  intro t
  show (fun p : ProgramSection × ProgramBacking => p.1.Sd.Description) (decodeProgramSection x0 (t.1.Program, t.2.Program)).val = s
  obtain ⟨x1, hx1, hl2⟩ := lastAt_cons hl1
  unfold decodeProgramSection
  apply decodeStruct_sets ProgramSection.names _ (fun p : ProgramSection × ProgramBacking => p.1.Sd.Description) 1
    (by intro j y t hj
        rcases j with _ | _ | _ | _ <;> first | rfl | exact absurd rfl hj)
    x0 x1 hx1
  intro t
  show (fun p : ProgramItem × List GoString => p.1.Description) (decodeProgramItem x1 (t.1.Sd, t.2.Sd)).val = s
  obtain ⟨x2, hx2, hl3⟩ := lastAt_cons hl2
  unfold decodeProgramItem
  apply decodeStruct_sets ProgramItem.names _ (fun p : ProgramItem × List GoString => p.1.Description) 1
    (by intro j y t hj
        rcases j with _ | _ | _ | _ <;> first | rfl | exact absurd rfl hj)
    x1 x2 hx2
  intro t
  have hy : x2 = .string s := by simpa [JSON.lastAt] using hl3
  subst hy
  rfl

theorem keep_programSdFeatures (v : JSON) (m : ContentData × Backing)
    (hn0 : v.namesPath [(ContentData.names, 2), (ProgramSection.names, 1), (ProgramItem.names, 2)] = false) :
    ((decodeContentData v m).val.1.Program.Sd.Features, (decodeContentData v m).val.2.Program.Sd)
      = (m.1.Program.Sd.Features, m.2.Program.Sd) := by
  show (fun p : ContentData × Backing => (p.1.Program.Sd.Features, p.2.Program.Sd)) (decodeContentData v m).val
      = (fun p : ContentData × Backing => (p.1.Program.Sd.Features, p.2.Program.Sd)) m
  unfold decodeContentData
  apply decodeStruct_frame ContentData.names _ (fun p : ContentData × Backing => (p.1.Program.Sd.Features, p.2.Program.Sd)) v
  intro i x0 hx0 t
  rcases i with _ | _ | _ | _ | _ | _ | _ | _
  all_goals try rfl
  have hn1 := namesPath_false hn0 x0 hx0
  show (fun p : ProgramSection × ProgramBacking => (p.1.Sd.Features, p.2.Sd)) (decodeProgramSection x0 (t.1.Program, t.2.Program)).val
      = (fun p : ProgramSection × ProgramBacking => (p.1.Sd.Features, p.2.Sd)) (t.1.Program, t.2.Program)
  unfold decodeProgramSection
  apply decodeStruct_frame ProgramSection.names _ (fun p : ProgramSection × ProgramBacking => (p.1.Sd.Features, p.2.Sd)) x0
  intro i x1 hx1 t
  rcases i with _ | _ | _ | _
  all_goals try rfl
  have hn2 := namesPath_false hn1 x1 hx1
  show (fun p : ProgramItem × List GoString => (p.1.Features, p.2)) (decodeProgramItem x1 (t.1.Sd, t.2.Sd)).val
      = (fun p : ProgramItem × List GoString => (p.1.Features, p.2)) (t.1.Sd, t.2.Sd)
  unfold decodeProgramItem
  apply decodeStruct_frame ProgramItem.names _ (fun p : ProgramItem × List GoString => (p.1.Features, p.2)) x1
  intro i x2 hx2 t
  rcases i with _ | _ | _ | _
  all_goals try rfl
  have hn3 := namesPath_false hn2 x2 hx2
  simp [JSON.namesPath] at hn3

theorem keep_programSmpTitle (v : JSON) (m : ContentData × Backing)
    (hn0 : v.namesPath [(ContentData.names, 2), (ProgramSection.names, 2), (ProgramItem.names, 0)] = false) :
    (decodeContentData v m).val.1.Program.Smp.Title
      = m.1.Program.Smp.Title := by
  show (fun p : ContentData × Backing => p.1.Program.Smp.Title) (decodeContentData v m).val
      = (fun p : ContentData × Backing => p.1.Program.Smp.Title) m
  unfold decodeContentData
  apply decodeStruct_frame ContentData.names _ (fun p : ContentData × Backing => p.1.Program.Smp.Title) v
  intro i x0 hx0 t
  rcases i with _ | _ | _ | _ | _ | _ | _ | _
  all_goals try rfl
  have hn1 := namesPath_false hn0 x0 hx0
  show (fun p : ProgramSection × ProgramBacking => p.1.Smp.Title) (decodeProgramSection x0 (t.1.Program, t.2.Program)).val
      = (fun p : ProgramSection × ProgramBacking => p.1.Smp.Title) (t.1.Program, t.2.Program)
  unfold decodeProgramSection
  apply decodeStruct_frame ProgramSection.names _ (fun p : ProgramSection × ProgramBacking => p.1.Smp.Title) x0
  intro i x1 hx1 t
  rcases i with _ | _ | _ | _
  all_goals try rfl
  have hn2 := namesPath_false hn1 x1 hx1
  show (fun p : ProgramItem × List GoString => p.1.Title) (decodeProgramItem x1 (t.1.Smp, t.2.Smp)).val
      = (fun p : ProgramItem × List GoString => p.1.Title) (t.1.Smp, t.2.Smp)
  unfold decodeProgramItem
  apply decodeStruct_frame ProgramItem.names _ (fun p : ProgramItem × List GoString => p.1.Title) x1
  intro i x2 hx2 t
  rcases i with _ | _ | _ | _
  all_goals try rfl
  have hn3 := namesPath_false hn2 x2 hx2
  simp [JSON.namesPath] at hn3

theorem sets_programSmpTitle (v : JSON) (m : ContentData × Backing) (s : GoString)
    (hl0 : v.lastAt [(ContentData.names, 2), (ProgramSection.names, 2), (ProgramItem.names, 0)] = some (.string s)) :
    (decodeContentData v m).val.1.Program.Smp.Title = s := by
  show (fun p : ContentData × Backing => p.1.Program.Smp.Title) (decodeContentData v m).val = s
  obtain ⟨x0, hx0, hl1⟩ := lastAt_cons hl0
  unfold decodeContentData
  apply decodeStruct_sets ContentData.names _ (fun p : ContentData × Backing => p.1.Program.Smp.Title) 2
    (by intro j y t hj
        rcases j with _ | _ | _ | _ | _ | _ | _ | _ <;> first | rfl | exact absurd rfl hj)
    v x0 hx0
  intro t
  show (fun p : ProgramSection × ProgramBacking => p.1.Smp.Title) (decodeProgramSection x0 (t.1.Program, t.2.Program)).val = s
  obtain ⟨x1, hx1, hl2⟩ := lastAt_cons hl1
  unfold decodeProgramSection
  apply decodeStruct_sets ProgramSection.names _ (fun p : ProgramSection × ProgramBacking => p.1.Smp.Title) 2
    (by intro j y t hj
        rcases j with _ | _ | _ | _ <;> first | rfl | exact absurd rfl hj)
    x0 x1 hx1
  intro t
  show (fun p : ProgramItem × List GoString => p.1.Title) (decodeProgramItem x1 (t.1.Smp, t.2.Smp)).val = s
  obtain ⟨x2, hx2, hl3⟩ := lastAt_cons hl2
  unfold decodeProgramItem
  apply decodeStruct_sets ProgramItem.names _ (fun p : ProgramItem × List GoString => p.1.Title) 0
    (by intro j y t hj
        rcases j with _ | _ | _ | _ <;> first | rfl | exact absurd rfl hj)
    x1 x2 hx2
  intro t
  have hy : x2 = .string s := by simpa [JSON.lastAt] using hl3
  subst hy
  rfl

theorem keep_programSmpDescription (v : JSON) (m : ContentData × Backing)
    (hn0 : v.namesPath [(ContentData.names, 2), (ProgramSection.names, 2), (ProgramItem.names, 1)] = false) :
    (decodeContentData v m).val.1.Program.Smp.Description
      = m.1.Program.Smp.Description := by
  show (fun p : ContentData × Backing => p.1.Program.Smp.Description) (decodeContentData v m).val
      = (fun p : ContentData × Backing => p.1.Program.Smp.Description) m
  unfold decodeContentData
  apply decodeStruct_frame ContentData.names _ (fun p : ContentData × Backing => p.1.Program.Smp.Description) v
  intro i x0 hx0 t
  rcases i with _ | _ | _ | _ | _ | _ | _ | _
  all_goals try rfl
  have hn1 := namesPath_false hn0 x0 hx0
  show (fun p : ProgramSection × ProgramBacking => p.1.Smp.Description) (decodeProgramSection x0 (t.1.Program, t.2.Program)).val
      = (fun p : ProgramSection × ProgramBacking => p.1.Smp.Description) (t.1.Program, t.2.Program)
  unfold decodeProgramSection
  apply decodeStruct_frame ProgramSection.names _ (fun p : ProgramSection × ProgramBacking => p.1.Smp.Description) x0
  intro i x1 hx1 t
  rcases i with _ | _ | _ | _
  all_goals try rfl
  have hn2 := namesPath_false hn1 x1 hx1
  show (fun p : ProgramItem × List GoString => p.1.Description) (decodeProgramItem x1 (t.1.Smp, t.2.Smp)).val
      = (fun p : ProgramItem × List GoString => p.1.Description) (t.1.Smp, t.2.Smp)
  unfold decodeProgramItem
  apply decodeStruct_frame ProgramItem.names _ (fun p : ProgramItem × List GoString => p.1.Description) x1
  intro i x2 hx2 t
  rcases i with _ | _ | _ | _
  all_goals try rfl
  have hn3 := namesPath_false hn2 x2 hx2
  simp [JSON.namesPath] at hn3

theorem sets_programSmpDescription (v : JSON) (m : ContentData × Backing) (s : GoString)
    (hl0 : v.lastAt [(ContentData.names, 2), (ProgramSection.names, 2), (ProgramItem.names, 1)] = some (.string s)) :
    (decodeContentData v m).val.1.Program.Smp.Description = s := by
  show (fun p : ContentData × Backing => p.1.Program.Smp.Description) (decodeContentData v m).val = s
  obtain ⟨x0, hx0, hl1⟩ := lastAt_cons hl0
  unfold decodeContentData
  apply decodeStruct_sets ContentData.names _ (fun p : ContentData × Backing => p.1.Program.Smp.Description) 2
    (by intro j y t hj
        rcases j with _ | _ | _ | _ | _ | _ | _ | _ <;> first | rfl | exact absurd rfl hj)
    v x0 hx0
  intro t
  show (fun p : ProgramSection × ProgramBacking => p.1.Smp.Description) (decodeProgramSection x0 (t.1.Program, t.2.Program)).val = s
  obtain ⟨x1, hx1, hl2⟩ := lastAt_cons hl1
  unfold decodeProgramSection
  apply decodeStruct_sets ProgramSection.names _ (fun p : ProgramSection × ProgramBacking => p.1.Smp.Description) 2
    (by intro j y t hj
        rcases j with _ | _ | _ | _ <;> first | rfl | exact absurd rfl hj)
    x0 x1 hx1
  intro t
  show (fun p : ProgramItem × List GoString => p.1.Description) (decodeProgramItem x1 (t.1.Smp, t.2.Smp)).val = s
  obtain ⟨x2, hx2, hl3⟩ := lastAt_cons hl2
  unfold decodeProgramItem
  apply decodeStruct_sets ProgramItem.names _ (fun p : ProgramItem × List GoString => p.1.Description) 1
    (by intro j y t hj
        rcases j with _ | _ | _ | _ <;> first | rfl | exact absurd rfl hj)
    x1 x2 hx2
  intro t
  have hy : x2 = .string s := by simpa [JSON.lastAt] using hl3
  subst hy
  rfl

theorem keep_programSmpFeatures (v : JSON) (m : ContentData × Backing)
    (hn0 : v.namesPath [(ContentData.names, 2), (ProgramSection.names, 2), (ProgramItem.names, 2)] = false) :
    ((decodeContentData v m).val.1.Program.Smp.Features, (decodeContentData v m).val.2.Program.Smp)
      = (m.1.Program.Smp.Features, m.2.Program.Smp) := by
  show (fun p : ContentData × Backing => (p.1.Program.Smp.Features, p.2.Program.Smp)) (decodeContentData v m).val
      = (fun p : ContentData × Backing => (p.1.Program.Smp.Features, p.2.Program.Smp)) m
  unfold decodeContentData
  apply decodeStruct_frame ContentData.names _ (fun p : ContentData × Backing => (p.1.Program.Smp.Features, p.2.Program.Smp)) v
  intro i x0 hx0 t
  rcases i with _ | _ | _ | _ | _ | _ | _ | _
  all_goals try rfl
  have hn1 := namesPath_false hn0 x0 hx0
  show (fun p : ProgramSection × ProgramBacking => (p.1.Smp.Features, p.2.Smp)) (decodeProgramSection x0 (t.1.Program, t.2.Program)).val
      = (fun p : ProgramSection × ProgramBacking => (p.1.Smp.Features, p.2.Smp)) (t.1.Program, t.2.Program)
  unfold decodeProgramSection
  apply decodeStruct_frame ProgramSection.names _ (fun p : ProgramSection × ProgramBacking => (p.1.Smp.Features, p.2.Smp)) x0
  intro i x1 hx1 t
  rcases i with _ | _ | _ | _
  all_goals try rfl
  have hn2 := namesPath_false hn1 x1 hx1
  show (fun p : ProgramItem × List GoString => (p.1.Features, p.2)) (decodeProgramItem x1 (t.1.Smp, t.2.Smp)).val
      = (fun p : ProgramItem × List GoString => (p.1.Features, p.2)) (t.1.Smp, t.2.Smp)
  unfold decodeProgramItem
  apply decodeStruct_frame ProgramItem.names _ (fun p : ProgramItem × List GoString => (p.1.Features, p.2)) x1
  intro i x2 hx2 t
  rcases i with _ | _ | _ | _
  all_goals try rfl
  have hn3 := namesPath_false hn2 x2 hx2
  simp [JSON.namesPath] at hn3

theorem keep_galleryTitle (v : JSON) (m : ContentData × Backing)
    (hn0 : v.namesPath [(ContentData.names, 3), (GallerySection.names, 0)] = false) :
    (decodeContentData v m).val.1.Gallery.Title
      = m.1.Gallery.Title := by
  show (fun p : ContentData × Backing => p.1.Gallery.Title) (decodeContentData v m).val
      = (fun p : ContentData × Backing => p.1.Gallery.Title) m
  unfold decodeContentData
  apply decodeStruct_frame ContentData.names _ (fun p : ContentData × Backing => p.1.Gallery.Title) v
  intro i x0 hx0 t
  rcases i with _ | _ | _ | _ | _ | _ | _ | _
  all_goals try rfl
  have hn1 := namesPath_false hn0 x0 hx0
  show (fun p : GallerySection × List GalleryItem => p.1.Title) (decodeGallerySection x0 (t.1.Gallery, t.2.Gallery)).val
      = (fun p : GallerySection × List GalleryItem => p.1.Title) (t.1.Gallery, t.2.Gallery)
  unfold decodeGallerySection
  apply decodeStruct_frame GallerySection.names _ (fun p : GallerySection × List GalleryItem => p.1.Title) x0
  intro i x1 hx1 t
  rcases i with _ | _ | _
  all_goals try rfl
  have hn2 := namesPath_false hn1 x1 hx1
  simp [JSON.namesPath] at hn2

theorem sets_galleryTitle (v : JSON) (m : ContentData × Backing) (s : GoString)
    (hl0 : v.lastAt [(ContentData.names, 3), (GallerySection.names, 0)] = some (.string s)) :
    (decodeContentData v m).val.1.Gallery.Title = s := by
  show (fun p : ContentData × Backing => p.1.Gallery.Title) (decodeContentData v m).val = s
  obtain ⟨x0, hx0, hl1⟩ := lastAt_cons hl0
  unfold decodeContentData
  apply decodeStruct_sets ContentData.names _ (fun p : ContentData × Backing => p.1.Gallery.Title) 3
    (by intro j y t hj
        rcases j with _ | _ | _ | _ | _ | _ | _ | _ <;> first | rfl | exact absurd rfl hj)
    v x0 hx0
  intro t
  show (fun p : GallerySection × List GalleryItem => p.1.Title) (decodeGallerySection x0 (t.1.Gallery, t.2.Gallery)).val = s
  obtain ⟨x1, hx1, hl2⟩ := lastAt_cons hl1
  unfold decodeGallerySection
  apply decodeStruct_sets GallerySection.names _ (fun p : GallerySection × List GalleryItem => p.1.Title) 0
    (by intro j y t hj
        rcases j with _ | _ | _ <;> first | rfl | exact absurd rfl hj)
    x0 x1 hx1
  intro t
  have hy : x1 = .string s := by simpa [JSON.lastAt] using hl2
  subst hy
  rfl

theorem keep_galleryItems (v : JSON) (m : ContentData × Backing)
    (hn0 : v.namesPath [(ContentData.names, 3), (GallerySection.names, 1)] = false) :
    ((decodeContentData v m).val.1.Gallery.Items, (decodeContentData v m).val.2.Gallery)
      = (m.1.Gallery.Items, m.2.Gallery) := by
  show (fun p : ContentData × Backing => (p.1.Gallery.Items, p.2.Gallery)) (decodeContentData v m).val
      = (fun p : ContentData × Backing => (p.1.Gallery.Items, p.2.Gallery)) m
  unfold decodeContentData
  apply decodeStruct_frame ContentData.names _ (fun p : ContentData × Backing => (p.1.Gallery.Items, p.2.Gallery)) v
  intro i x0 hx0 t
  rcases i with _ | _ | _ | _ | _ | _ | _ | _
  all_goals try rfl
  have hn1 := namesPath_false hn0 x0 hx0
  show (fun p : GallerySection × List GalleryItem => (p.1.Items, p.2)) (decodeGallerySection x0 (t.1.Gallery, t.2.Gallery)).val
      = (fun p : GallerySection × List GalleryItem => (p.1.Items, p.2)) (t.1.Gallery, t.2.Gallery)
  unfold decodeGallerySection
  apply decodeStruct_frame GallerySection.names _ (fun p : GallerySection × List GalleryItem => (p.1.Items, p.2)) x0
  intro i x1 hx1 t
  rcases i with _ | _ | _
  all_goals try rfl
  have hn2 := namesPath_false hn1 x1 hx1
  simp [JSON.namesPath] at hn2

theorem keep_testimonialsTitle (v : JSON) (m : ContentData × Backing)
    (hn0 : v.namesPath [(ContentData.names, 4), (TestimonialsSection.names, 0)] = false) :
    (decodeContentData v m).val.1.Testimonials.Title
      = m.1.Testimonials.Title := by
  show (fun p : ContentData × Backing => p.1.Testimonials.Title) (decodeContentData v m).val
      = (fun p : ContentData × Backing => p.1.Testimonials.Title) m
  unfold decodeContentData
  apply decodeStruct_frame ContentData.names _ (fun p : ContentData × Backing => p.1.Testimonials.Title) v
  intro i x0 hx0 t
  rcases i with _ | _ | _ | _ | _ | _ | _ | _
  all_goals try rfl
  have hn1 := namesPath_false hn0 x0 hx0
  show (fun p : TestimonialsSection × List TestimonialItem => p.1.Title) (decodeTestimonialsSection x0 (t.1.Testimonials, t.2.Testimonials)).val
      = (fun p : TestimonialsSection × List TestimonialItem => p.1.Title) (t.1.Testimonials, t.2.Testimonials)
  unfold decodeTestimonialsSection
  apply decodeStruct_frame TestimonialsSection.names _ (fun p : TestimonialsSection × List TestimonialItem => p.1.Title) x0
  intro i x1 hx1 t
  rcases i with _ | _ | _
  all_goals try rfl
  have hn2 := namesPath_false hn1 x1 hx1
  simp [JSON.namesPath] at hn2

theorem sets_testimonialsTitle (v : JSON) (m : ContentData × Backing) (s : GoString)
    (hl0 : v.lastAt [(ContentData.names, 4), (TestimonialsSection.names, 0)] = some (.string s)) :
    (decodeContentData v m).val.1.Testimonials.Title = s := by
  show (fun p : ContentData × Backing => p.1.Testimonials.Title) (decodeContentData v m).val = s
  obtain ⟨x0, hx0, hl1⟩ := lastAt_cons hl0
  unfold decodeContentData
  apply decodeStruct_sets ContentData.names _ (fun p : ContentData × Backing => p.1.Testimonials.Title) 4
    (by intro j y t hj
        rcases j with _ | _ | _ | _ | _ | _ | _ | _ <;> first | rfl | exact absurd rfl hj)
    v x0 hx0
  intro t
  show (fun p : TestimonialsSection × List TestimonialItem => p.1.Title) (decodeTestimonialsSection x0 (t.1.Testimonials, t.2.Testimonials)).val = s
  obtain ⟨x1, hx1, hl2⟩ := lastAt_cons hl1
  unfold decodeTestimonialsSection
  apply decodeStruct_sets TestimonialsSection.names _ (fun p : TestimonialsSection × List TestimonialItem => p.1.Title) 0
    (by intro j y t hj
        rcases j with _ | _ | _ <;> first | rfl | exact absurd rfl hj)
    x0 x1 hx1
  intro t
  have hy : x1 = .string s := by simpa [JSON.lastAt] using hl2
  subst hy
  rfl

theorem keep_testimonialsItems (v : JSON) (m : ContentData × Backing)
    (hn0 : v.namesPath [(ContentData.names, 4), (TestimonialsSection.names, 1)] = false) :
    ((decodeContentData v m).val.1.Testimonials.Items, (decodeContentData v m).val.2.Testimonials)
      = (m.1.Testimonials.Items, m.2.Testimonials) := by
  show (fun p : ContentData × Backing => (p.1.Testimonials.Items, p.2.Testimonials)) (decodeContentData v m).val
      = (fun p : ContentData × Backing => (p.1.Testimonials.Items, p.2.Testimonials)) m
  unfold decodeContentData
  apply decodeStruct_frame ContentData.names _ (fun p : ContentData × Backing => (p.1.Testimonials.Items, p.2.Testimonials)) v
  intro i x0 hx0 t
  rcases i with _ | _ | _ | _ | _ | _ | _ | _
  all_goals try rfl
  have hn1 := namesPath_false hn0 x0 hx0
  show (fun p : TestimonialsSection × List TestimonialItem => (p.1.Items, p.2)) (decodeTestimonialsSection x0 (t.1.Testimonials, t.2.Testimonials)).val
      = (fun p : TestimonialsSection × List TestimonialItem => (p.1.Items, p.2)) (t.1.Testimonials, t.2.Testimonials)
  unfold decodeTestimonialsSection
  apply decodeStruct_frame TestimonialsSection.names _ (fun p : TestimonialsSection × List TestimonialItem => (p.1.Items, p.2)) x0
  intro i x1 hx1 t
  rcases i with _ | _ | _
  all_goals try rfl
  have hn2 := namesPath_false hn1 x1 hx1
  simp [JSON.namesPath] at hn2

theorem keep_contactTitle (v : JSON) (m : ContentData × Backing)
    (hn0 : v.namesPath [(ContentData.names, 5), (ContactSection.names, 0)] = false) :
    (decodeContentData v m).val.1.Contact.Title
      = m.1.Contact.Title := by
  show (fun p : ContentData × Backing => p.1.Contact.Title) (decodeContentData v m).val
      = (fun p : ContentData × Backing => p.1.Contact.Title) m
  unfold decodeContentData
  apply decodeStruct_frame ContentData.names _ (fun p : ContentData × Backing => p.1.Contact.Title) v
  intro i x0 hx0 t
  rcases i with _ | _ | _ | _ | _ | _ | _ | _
  all_goals try rfl
  have hn1 := namesPath_false hn0 x0 hx0
  show (fun p : ContactSection => p.Title) (decodeContactSection x0 t.1.Contact).val
      = (fun p : ContactSection => p.Title) t.1.Contact
  unfold decodeContactSection
  apply decodeStruct_frame ContactSection.names _ (fun p : ContactSection => p.Title) x0
  intro i x1 hx1 t
  rcases i with _ | _ | _ | _ | _
  all_goals try rfl
  have hn2 := namesPath_false hn1 x1 hx1
  simp [JSON.namesPath] at hn2

theorem sets_contactTitle (v : JSON) (m : ContentData × Backing) (s : GoString)
    (hl0 : v.lastAt [(ContentData.names, 5), (ContactSection.names, 0)] = some (.string s)) :
    (decodeContentData v m).val.1.Contact.Title = s := by
  show (fun p : ContentData × Backing => p.1.Contact.Title) (decodeContentData v m).val = s
  obtain ⟨x0, hx0, hl1⟩ := lastAt_cons hl0
  unfold decodeContentData
  apply decodeStruct_sets ContentData.names _ (fun p : ContentData × Backing => p.1.Contact.Title) 5
    (by intro j y t hj
        rcases j with _ | _ | _ | _ | _ | _ | _ | _ <;> first | rfl | exact absurd rfl hj)
    v x0 hx0
  intro t
  show (fun p : ContactSection => p.Title) (decodeContactSection x0 t.1.Contact).val = s
  obtain ⟨x1, hx1, hl2⟩ := lastAt_cons hl1
  unfold decodeContactSection
  apply decodeStruct_sets ContactSection.names _ (fun p : ContactSection => p.Title) 0
    (by intro j y t hj
        rcases j with _ | _ | _ | _ | _ <;> first | rfl | exact absurd rfl hj)
    x0 x1 hx1
  intro t
  have hy : x1 = .string s := by simpa [JSON.lastAt] using hl2
  subst hy
  rfl

theorem keep_contactDescription (v : JSON) (m : ContentData × Backing)
    (hn0 : v.namesPath [(ContentData.names, 5), (ContactSection.names, 1)] = false) :
    (decodeContentData v m).val.1.Contact.Description
      = m.1.Contact.Description := by
  show (fun p : ContentData × Backing => p.1.Contact.Description) (decodeContentData v m).val
      = (fun p : ContentData × Backing => p.1.Contact.Description) m
  unfold decodeContentData
  apply decodeStruct_frame ContentData.names _ (fun p : ContentData × Backing => p.1.Contact.Description) v
  intro i x0 hx0 t
  rcases i with _ | _ | _ | _ | _ | _ | _ | _
  all_goals try rfl
  have hn1 := namesPath_false hn0 x0 hx0
  show (fun p : ContactSection => p.Description) (decodeContactSection x0 t.1.Contact).val
      = (fun p : ContactSection => p.Description) t.1.Contact
  unfold decodeContactSection
  apply decodeStruct_frame ContactSection.names _ (fun p : ContactSection => p.Description) x0
  intro i x1 hx1 t
  rcases i with _ | _ | _ | _ | _
  all_goals try rfl
  have hn2 := namesPath_false hn1 x1 hx1
  simp [JSON.namesPath] at hn2

theorem sets_contactDescription (v : JSON) (m : ContentData × Backing) (s : GoString)
    (hl0 : v.lastAt [(ContentData.names, 5), (ContactSection.names, 1)] = some (.string s)) :
    (decodeContentData v m).val.1.Contact.Description = s := by
  show (fun p : ContentData × Backing => p.1.Contact.Description) (decodeContentData v m).val = s
  obtain ⟨x0, hx0, hl1⟩ := lastAt_cons hl0
  unfold decodeContentData
  apply decodeStruct_sets ContentData.names _ (fun p : ContentData × Backing => p.1.Contact.Description) 5
    (by intro j y t hj
        rcases j with _ | _ | _ | _ | _ | _ | _ | _ <;> first | rfl | exact absurd rfl hj)
    v x0 hx0
  intro t
  show (fun p : ContactSection => p.Description) (decodeContactSection x0 t.1.Contact).val = s
  obtain ⟨x1, hx1, hl2⟩ := lastAt_cons hl1
  unfold decodeContactSection
  apply decodeStruct_sets ContactSection.names _ (fun p : ContactSection => p.Description) 1
    (by intro j y t hj
        rcases j with _ | _ | _ | _ | _ <;> first | rfl | exact absurd rfl hj)
    x0 x1 hx1
  intro t
  have hy : x1 = .string s := by simpa [JSON.lastAt] using hl2
  subst hy
  rfl

theorem keep_contactServiceArea (v : JSON) (m : ContentData × Backing)
    (hn0 : v.namesPath [(ContentData.names, 5), (ContactSection.names, 2)] = false) :
    (decodeContentData v m).val.1.Contact.ServiceArea
      = m.1.Contact.ServiceArea := by
  show (fun p : ContentData × Backing => p.1.Contact.ServiceArea) (decodeContentData v m).val
      = (fun p : ContentData × Backing => p.1.Contact.ServiceArea) m
  unfold decodeContentData
  apply decodeStruct_frame ContentData.names _ (fun p : ContentData × Backing => p.1.Contact.ServiceArea) v
  intro i x0 hx0 t
  rcases i with _ | _ | _ | _ | _ | _ | _ | _
  all_goals try rfl
  have hn1 := namesPath_false hn0 x0 hx0
  show (fun p : ContactSection => p.ServiceArea) (decodeContactSection x0 t.1.Contact).val
      = (fun p : ContactSection => p.ServiceArea) t.1.Contact
  unfold decodeContactSection
  apply decodeStruct_frame ContactSection.names _ (fun p : ContactSection => p.ServiceArea) x0
  intro i x1 hx1 t
  rcases i with _ | _ | _ | _ | _
  all_goals try rfl
  have hn2 := namesPath_false hn1 x1 hx1
  simp [JSON.namesPath] at hn2

theorem sets_contactServiceArea (v : JSON) (m : ContentData × Backing) (s : GoString)
    (hl0 : v.lastAt [(ContentData.names, 5), (ContactSection.names, 2)] = some (.string s)) :
    (decodeContentData v m).val.1.Contact.ServiceArea = s := by
  show (fun p : ContentData × Backing => p.1.Contact.ServiceArea) (decodeContentData v m).val = s
  obtain ⟨x0, hx0, hl1⟩ := lastAt_cons hl0
  unfold decodeContentData
  apply decodeStruct_sets ContentData.names _ (fun p : ContentData × Backing => p.1.Contact.ServiceArea) 5
    (by intro j y t hj
        rcases j with _ | _ | _ | _ | _ | _ | _ | _ <;> first | rfl | exact absurd rfl hj)
    v x0 hx0
  intro t
  show (fun p : ContactSection => p.ServiceArea) (decodeContactSection x0 t.1.Contact).val = s
  obtain ⟨x1, hx1, hl2⟩ := lastAt_cons hl1
  unfold decodeContactSection
  apply decodeStruct_sets ContactSection.names _ (fun p : ContactSection => p.ServiceArea) 2
    (by intro j y t hj
        rcases j with _ | _ | _ | _ | _ <;> first | rfl | exact absurd rfl hj)
    x0 x1 hx1
  intro t
  have hy : x1 = .string s := by simpa [JSON.lastAt] using hl2
  subst hy
  rfl

theorem keep_contactButtonText (v : JSON) (m : ContentData × Backing)
    (hn0 : v.namesPath [(ContentData.names, 5), (ContactSection.names, 3)] = false) :
    (decodeContentData v m).val.1.Contact.ButtonText
      = m.1.Contact.ButtonText := by
  show (fun p : ContentData × Backing => p.1.Contact.ButtonText) (decodeContentData v m).val
      = (fun p : ContentData × Backing => p.1.Contact.ButtonText) m
  unfold decodeContentData
  apply decodeStruct_frame ContentData.names _ (fun p : ContentData × Backing => p.1.Contact.ButtonText) v
  intro i x0 hx0 t
  rcases i with _ | _ | _ | _ | _ | _ | _ | _
  all_goals try rfl
  have hn1 := namesPath_false hn0 x0 hx0
  show (fun p : ContactSection => p.ButtonText) (decodeContactSection x0 t.1.Contact).val
      = (fun p : ContactSection => p.ButtonText) t.1.Contact
  unfold decodeContactSection
  apply decodeStruct_frame ContactSection.names _ (fun p : ContactSection => p.ButtonText) x0
  intro i x1 hx1 t
  rcases i with _ | _ | _ | _ | _
  all_goals try rfl
  have hn2 := namesPath_false hn1 x1 hx1
  simp [JSON.namesPath] at hn2

theorem sets_contactButtonText (v : JSON) (m : ContentData × Backing) (s : GoString)
    (hl0 : v.lastAt [(ContentData.names, 5), (ContactSection.names, 3)] = some (.string s)) :
    (decodeContentData v m).val.1.Contact.ButtonText = s := by
  show (fun p : ContentData × Backing => p.1.Contact.ButtonText) (decodeContentData v m).val = s
  obtain ⟨x0, hx0, hl1⟩ := lastAt_cons hl0
  unfold decodeContentData
  apply decodeStruct_sets ContentData.names _ (fun p : ContentData × Backing => p.1.Contact.ButtonText) 5
    (by intro j y t hj
        rcases j with _ | _ | _ | _ | _ | _ | _ | _ <;> first | rfl | exact absurd rfl hj)
    v x0 hx0
  intro t
  show (fun p : ContactSection => p.ButtonText) (decodeContactSection x0 t.1.Contact).val = s
  obtain ⟨x1, hx1, hl2⟩ := lastAt_cons hl1
  unfold decodeContactSection
  apply decodeStruct_sets ContactSection.names _ (fun p : ContactSection => p.ButtonText) 3
    (by intro j y t hj
        rcases j with _ | _ | _ | _ | _ <;> first | rfl | exact absurd rfl hj)
    x0 x1 hx1
  intro t
  have hy : x1 = .string s := by simpa [JSON.lastAt] using hl2
  subst hy
  rfl

theorem keep_footerText (v : JSON) (m : ContentData × Backing)
    (hn0 : v.namesPath [(ContentData.names, 6), (FooterSection.names, 0)] = false) :
    (decodeContentData v m).val.1.Footer.Text
      = m.1.Footer.Text := by
  show (fun p : ContentData × Backing => p.1.Footer.Text) (decodeContentData v m).val
      = (fun p : ContentData × Backing => p.1.Footer.Text) m
  unfold decodeContentData
  apply decodeStruct_frame ContentData.names _ (fun p : ContentData × Backing => p.1.Footer.Text) v
  intro i x0 hx0 t
  rcases i with _ | _ | _ | _ | _ | _ | _ | _
  all_goals try rfl
  have hn1 := namesPath_false hn0 x0 hx0
  show (fun p : FooterSection => p.Text) (decodeFooterSection x0 t.1.Footer).val
      = (fun p : FooterSection => p.Text) t.1.Footer
  unfold decodeFooterSection
  apply decodeStruct_frame FooterSection.names _ (fun p : FooterSection => p.Text) x0
  intro i x1 hx1 t
  rcases i with _ | _
  all_goals try rfl
  have hn2 := namesPath_false hn1 x1 hx1
  simp [JSON.namesPath] at hn2

theorem sets_footerText (v : JSON) (m : ContentData × Backing) (s : GoString)
    (hl0 : v.lastAt [(ContentData.names, 6), (FooterSection.names, 0)] = some (.string s)) :
    (decodeContentData v m).val.1.Footer.Text = s := by
  show (fun p : ContentData × Backing => p.1.Footer.Text) (decodeContentData v m).val = s
  obtain ⟨x0, hx0, hl1⟩ := lastAt_cons hl0
  unfold decodeContentData
  apply decodeStruct_sets ContentData.names _ (fun p : ContentData × Backing => p.1.Footer.Text) 6
    (by intro j y t hj
        rcases j with _ | _ | _ | _ | _ | _ | _ | _ <;> first | rfl | exact absurd rfl hj)
    v x0 hx0
  intro t
  show (fun p : FooterSection => p.Text) (decodeFooterSection x0 t.1.Footer).val = s
  obtain ⟨x1, hx1, hl2⟩ := lastAt_cons hl1
  unfold decodeFooterSection
  apply decodeStruct_sets FooterSection.names _ (fun p : FooterSection => p.Text) 0
    (by intro j y t hj
        rcases j with _ | _ <;> first | rfl | exact absurd rfl hj)
    x0 x1 hx1
  intro t
  have hy : x1 = .string s := by simpa [JSON.lastAt] using hl2
  subst hy
  rfl

theorem keep_section_Hero (v : JSON) (m : ContentData × Backing)
    (hn0 : v.namesPath [(ContentData.names, 0)] = false) :
    (decodeContentData v m).val.1.Hero
      = m.1.Hero := by
  show (fun p : ContentData × Backing => p.1.Hero) (decodeContentData v m).val
      = (fun p : ContentData × Backing => p.1.Hero) m
  unfold decodeContentData
  apply decodeStruct_frame ContentData.names _ (fun p : ContentData × Backing => p.1.Hero) v
  intro i x0 hx0 t
  rcases i with _ | _ | _ | _ | _ | _ | _ | _
  all_goals try rfl
  have hn1 := namesPath_false hn0 x0 hx0
  simp [JSON.namesPath] at hn1

theorem keep_section_About (v : JSON) (m : ContentData × Backing)
    (hn0 : v.namesPath [(ContentData.names, 1)] = false) :
    (decodeContentData v m).val.1.About
      = m.1.About := by
  show (fun p : ContentData × Backing => p.1.About) (decodeContentData v m).val
      = (fun p : ContentData × Backing => p.1.About) m
  unfold decodeContentData
  apply decodeStruct_frame ContentData.names _ (fun p : ContentData × Backing => p.1.About) v
  intro i x0 hx0 t
  rcases i with _ | _ | _ | _ | _ | _ | _ | _
  all_goals try rfl
  have hn1 := namesPath_false hn0 x0 hx0
  simp [JSON.namesPath] at hn1

theorem keep_section_Program (v : JSON) (m : ContentData × Backing)
    (hn0 : v.namesPath [(ContentData.names, 2)] = false) :
    ((decodeContentData v m).val.1.Program, (decodeContentData v m).val.2.Program)
      = (m.1.Program, m.2.Program) := by
  show (fun p : ContentData × Backing => (p.1.Program, p.2.Program)) (decodeContentData v m).val
      = (fun p : ContentData × Backing => (p.1.Program, p.2.Program)) m
  unfold decodeContentData
  apply decodeStruct_frame ContentData.names _ (fun p : ContentData × Backing => (p.1.Program, p.2.Program)) v
  intro i x0 hx0 t
  rcases i with _ | _ | _ | _ | _ | _ | _ | _
  all_goals try rfl
  have hn1 := namesPath_false hn0 x0 hx0
  simp [JSON.namesPath] at hn1

theorem keep_section_Gallery (v : JSON) (m : ContentData × Backing)
    (hn0 : v.namesPath [(ContentData.names, 3)] = false) :
    ((decodeContentData v m).val.1.Gallery, (decodeContentData v m).val.2.Gallery)
      = (m.1.Gallery, m.2.Gallery) := by
  show (fun p : ContentData × Backing => (p.1.Gallery, p.2.Gallery)) (decodeContentData v m).val
      = (fun p : ContentData × Backing => (p.1.Gallery, p.2.Gallery)) m
  unfold decodeContentData
  apply decodeStruct_frame ContentData.names _ (fun p : ContentData × Backing => (p.1.Gallery, p.2.Gallery)) v
  intro i x0 hx0 t
  rcases i with _ | _ | _ | _ | _ | _ | _ | _
  all_goals try rfl
  have hn1 := namesPath_false hn0 x0 hx0
  simp [JSON.namesPath] at hn1

theorem keep_section_Testimonials (v : JSON) (m : ContentData × Backing)
    (hn0 : v.namesPath [(ContentData.names, 4)] = false) :
    ((decodeContentData v m).val.1.Testimonials, (decodeContentData v m).val.2.Testimonials)
      = (m.1.Testimonials, m.2.Testimonials) := by
  show (fun p : ContentData × Backing => (p.1.Testimonials, p.2.Testimonials)) (decodeContentData v m).val
      = (fun p : ContentData × Backing => (p.1.Testimonials, p.2.Testimonials)) m
  unfold decodeContentData
  apply decodeStruct_frame ContentData.names _ (fun p : ContentData × Backing => (p.1.Testimonials, p.2.Testimonials)) v
  intro i x0 hx0 t
  rcases i with _ | _ | _ | _ | _ | _ | _ | _
  all_goals try rfl
  have hn1 := namesPath_false hn0 x0 hx0
  simp [JSON.namesPath] at hn1

theorem keep_section_Contact (v : JSON) (m : ContentData × Backing)
    (hn0 : v.namesPath [(ContentData.names, 5)] = false) :
    (decodeContentData v m).val.1.Contact
      = m.1.Contact := by
  show (fun p : ContentData × Backing => p.1.Contact) (decodeContentData v m).val
      = (fun p : ContentData × Backing => p.1.Contact) m
  unfold decodeContentData
  apply decodeStruct_frame ContentData.names _ (fun p : ContentData × Backing => p.1.Contact) v
  intro i x0 hx0 t
  rcases i with _ | _ | _ | _ | _ | _ | _ | _
  all_goals try rfl
  have hn1 := namesPath_false hn0 x0 hx0
  simp [JSON.namesPath] at hn1

theorem keep_section_Footer (v : JSON) (m : ContentData × Backing)
    (hn0 : v.namesPath [(ContentData.names, 6)] = false) :
    (decodeContentData v m).val.1.Footer
      = m.1.Footer := by
  show (fun p : ContentData × Backing => p.1.Footer) (decodeContentData v m).val
      = (fun p : ContentData × Backing => p.1.Footer) m
  unfold decodeContentData
  apply decodeStruct_frame ContentData.names _ (fun p : ContentData × Backing => p.1.Footer) v
  intro i x0 hx0 t
  rcases i with _ | _ | _ | _ | _ | _ | _ | _
  all_goals try rfl
  have hn1 := namesPath_false hn0 x0 hx0
  simp [JSON.namesPath] at hn1

/-- A string field for which the body gives no value keeps what it held. -/
theorem leaf_keep (l : Leaf) (v : JSON) (m : ContentData × Backing)
    (hn : v.namesPath l.path = false) :
    l.get (decodeContentData v m).val.1 = l.get m.1 := by
  cases l
  · exact keep_heroTitle v m hn
  · exact keep_heroSubtitle v m hn
  · exact keep_heroDescription v m hn
  · exact keep_heroWhatsappNumber v m hn
  · exact keep_heroWhatsappMessage v m hn
  · exact keep_aboutTitle v m hn
  · exact keep_aboutDescription1 v m hn
  · exact keep_aboutDescription2 v m hn
  · exact keep_aboutDescription3 v m hn
  · exact keep_programTitle v m hn
  · exact keep_programSdTitle v m hn
  · exact keep_programSdDescription v m hn
  · exact keep_programSmpTitle v m hn
  · exact keep_programSmpDescription v m hn
  · exact keep_galleryTitle v m hn
  · exact keep_testimonialsTitle v m hn
  · exact keep_contactTitle v m hn
  · exact keep_contactDescription v m hn
  · exact keep_contactServiceArea v m hn
  · exact keep_contactButtonText v m hn
  · exact keep_footerText v m hn

/-- A string field holds the string that the body gives for it last. -/
theorem leaf_sets (l : Leaf) (v : JSON) (m : ContentData × Backing) (s : GoString)
    (hl : v.lastAt l.path = some (.string s)) :
    l.get (decodeContentData v m).val.1 = s := by
  cases l
  · exact sets_heroTitle v m s hl
  · exact sets_heroSubtitle v m s hl
  · exact sets_heroDescription v m s hl
  · exact sets_heroWhatsappNumber v m s hl
  · exact sets_heroWhatsappMessage v m s hl
  · exact sets_aboutTitle v m s hl
  · exact sets_aboutDescription1 v m s hl
  · exact sets_aboutDescription2 v m s hl
  · exact sets_aboutDescription3 v m s hl
  · exact sets_programTitle v m s hl
  · exact sets_programSdTitle v m s hl
  · exact sets_programSdDescription v m s hl
  · exact sets_programSmpTitle v m s hl
  · exact sets_programSmpDescription v m s hl
  · exact sets_galleryTitle v m s hl
  · exact sets_testimonialsTitle v m s hl
  · exact sets_contactTitle v m s hl
  · exact sets_contactDescription v m s hl
  · exact sets_contactServiceArea v m s hl
  · exact sets_contactButtonText v m s hl
  · exact sets_footerText v m s hl

/-! ## Lemmas on the handlers -/

/-- Except in answer to HEAD the response is sent as the handler wrote it. -/
theorem handle_of_not_head (rt : Route) (env : Env) (r : Request) (s : Server)
    (h : r.Method ≠ "HEAD") : handle rt env r s = handler rt env r s := by
  simp [handle, sent, h]

theorem post_ne_head : "POST" ≠ "HEAD" := by decide

theorem get_ne_head : "GET" ≠ "HEAD" := by decide

theorem options_ne_head : "OPTIONS" ≠ "HEAD" := by decide

/-- The headers a handler of the static files can set. -/
theorem serveFile_no_cors (fs : FS) (r : Request) (name : GoString) (redirect : Bool) :
    (serveFile fs r name redirect Response.new).getHeader "Access-Control-Allow-Origin"
      = none := by
  unfold serveFile serveContent
  split
  · rfl
  · split
    · rfl
    · split
      · rfl
      · simp only []
        split <;> (try split) <;> rfl
    · split
      · rfl
      · split <;> rfl

theorem ServeFile_no_cors (fs : FS) (r : Request) (name : GoString) :
    (ServeFile fs r name Response.new).getHeader "Access-Control-Allow-Origin" = none := by
  unfold ServeFile
  split
  · rfl
  · exact serveFile_no_cors fs r name false

/-- The file server looks at the method only to tell HEAD from the rest. -/
theorem serveFile_method (fs : FS) (r : Request) (name : GoString) (redirect : Bool)
    (w : Response) (method : String) (h1 : r.Method ≠ "HEAD") (h2 : method ≠ "HEAD") :
    serveFile fs r name redirect w = serveFile fs { r with Method := method } name redirect w := by
  simp [serveFile, serveContent, h1, h2]

theorem FS.write_same (fs : FS) (path : GoString) (d : Option FileData) :
    fs.write path d path = d := by
  simp [FS.write]

set_option maxRecDepth 100000 in
theorem InitializeDefaultContent_coerce :
    InitializeDefaultContent.coerce = InitializeDefaultContent := by
  decide

/-- The state and the answer of an authorized POST to `/api/content`. -/
theorem handleContent_post (env : Env) (r : Request) (s : Server)
    (hm : r.Method = "POST") (ha : checkAuth r.Authorization = true) :
    handleContent env r s =
      match r.Body with
      | none => (s, httpError (((Response.new.setHeader "Access-Control-Allow-Origin"
          (ascii "*")).setHeader "Access-Control-Allow-Methods"
          (ascii "GET, POST, OPTIONS")).setHeader "Access-Control-Allow-Headers"
          (ascii "Content-Type, Authorization")) "Invalid request body" 400)
      | some _ => UpdateContent env r s (((Response.new.setHeader
          "Access-Control-Allow-Origin" (ascii "*")).setHeader
          "Access-Control-Allow-Methods" (ascii "GET, POST, OPTIONS")).setHeader
          "Access-Control-Allow-Headers" (ascii "Content-Type, Authorization")) := by
  have h1 : ¬ ("POST" = "OPTIONS") := by decide
  have h2 : ¬ ("POST" = "GET") := by decide
  simp only [handleContent, hm, h1, h2, ha, if_false, if_true, Bool.not_true, Bool.and_false]
  cases hb : r.Body with
  | none => simp [UpdateContent, ha, hb]
  | some _ => simp

/-- The answer of `/api/content` to a GET. -/
theorem handle_get_content (env : Env) (r : Request) (s : Server) (hm : r.Method = "GET") :
    (handle .apiContent env r s).1 = s ∧
    (handle .apiContent env r s).2.status = 200 ∧
    (handle .apiContent env r s).2.body = .json (encodeContentData s.contentData) := by
  have hg : ¬ ("GET" = "OPTIONS") := by decide
  have hp : ¬ ("GET" = "POST") := by decide
  rw [handle_of_not_head _ _ _ _ (by rw [hm]; exact get_ne_head)]
  simp [handler, handleContent, hm, hg, hp, GetContent, encodeTo, Response.setHeader,
    Response.new]

/-! ## Lemmas on the upload -/

theorem Split_no_sep (sep : Byte) (s : GoString) : ∀ p ∈ Split sep s, sep ∉ p := by
  induction s with
  | nil => simp [Split]
  | cons c cs ih =>
    intro p hp
    unfold Split at hp
    by_cases hc : c = sep
    · rw [if_pos hc] at hp
      rcases List.mem_cons.mp hp with h | h
      · subst h; simp
      · exact ih p h
    · rw [if_neg hc] at hp
      cases hs : Split sep cs with
      | nil => exact absurd hs (Split_ne_nil sep cs)
      | cons q qs =>
        rw [hs] at hp ih
        rcases List.mem_cons.mp hp with h | h
        · subst h
          intro hmem
          rcases List.mem_cons.mp hmem with h1 | h1
          · exact hc h1.symm
          · exact ih q (by simp) h1
        · exact ih p (by simp [h])

/-- A base name is `.`, `/`, or a non-empty name without a slash. -/
theorem Base_cases (path : GoString) :
    Base path = ascii "." ∨ Base path = ascii "/" ∨
      (Base path ≠ [] ∧ (47 : Byte) ∉ Base path) := by
  unfold Base
  by_cases h : path = []
  · simp [h]
  · rw [if_neg h]
    simp only
    by_cases hl : (Split 47 (trimSlashes path)).getLastD [] = []
    · rw [if_pos hl]
      exact Or.inr (Or.inl rfl)
    · rw [if_neg hl]
      refine Or.inr (Or.inr ⟨hl, ?_⟩)
      apply Split_no_sep 47 (trimSlashes path)
      cases hs : Split 47 (trimSlashes path) with
      | nil => exact absurd hs (Split_ne_nil _ _)
      | cons q qs =>
        rw [List.getLastD_eq_getLast?, List.getLast?_eq_getLast _ (by simp)]
        simp only [Option.getD_some]
        exact List.getLast_mem _

theorem HasSuffix_slash_false (pre n : GoString) (hne : n ≠ []) (hn : (47 : Byte) ∉ n) :
    HasSuffix (pre ++ n) (ascii "/") = false := by
  rw [← Bool.not_eq_true]
  intro h
  unfold HasSuffix at h
  rw [List.isSuffixOf_iff_suffix] at h
  obtain ⟨t, ht⟩ := h
  have e : ascii "/" = [(47 : Byte)] := by decide
  rw [e] at ht
  have h1 : (pre ++ n).getLast? = some 47 := by
    rw [← ht]
    simp
  rw [List.getLast?_append_of_ne_nil _ hne] at h1
  exact hn (List.mem_of_getLast?_eq_some h1)

theorem uploads_path_cons (n : GoString) :
    ascii "/uploads/" ++ n = 47 :: 117 :: (ascii "ploads/" ++ n) := by
  have e : ascii "/uploads/" = 47 :: 117 :: ascii "ploads/" := by decide
  rw [e]
  rfl

/-- The `ServeMux` hands a path under `/uploads/` to the handler of `/`. -/
theorem route_uploads (n : GoString) : route (ascii "/uploads/" ++ n) = .root := by
  have h1 : ascii "/api/content" = 47 :: 97 :: ascii "pi/content" := by decide
  have h2 : ascii "/api/authenticate" = 47 :: 97 :: ascii "pi/authenticate" := by decide
  have h3 : ascii "/api/upload-image" = 47 :: 97 :: ascii "pi/upload-image" := by decide
  have h4 : ascii "/dashboard" = 47 :: 100 :: ascii "ashboard" := by decide
  unfold route
  rw [uploads_path_cons, h1, h2, h3, h4]
  simp

theorem fileKey_uploads (n : GoString) (hne : n ≠ []) (hn : (47 : Byte) ∉ n) :
    fileKey (ascii "/uploads/" ++ n) = ascii "uploads/" ++ n := by
  unfold fileKey
  rw [HasSuffix_slash_false _ n hne hn]
  have e : ascii "/uploads/" ++ n = ascii "/" ++ (ascii "uploads/" ++ n) := by
    have e0 : ascii "/uploads/" = ascii "/" ++ ascii "uploads/" := by decide
    rw [e0, List.append_assoc]
  simp only [Bool.false_eq_true, if_false]
  rw [e, HasPrefix_append, if_pos rfl]
  have e1 : ascii "/" = [(47 : Byte)] := by decide
  rw [e1]
  rfl

/-- The part after the last separator of a string is determined by the string. -/
theorem append_sep_last_inj (sep : Byte) (u p n w : GoString) (hp : sep ∉ p) (hw : sep ∉ w)
    (h : u ++ sep :: p = n ++ sep :: w) : u = n ∧ p = w := by
  rcases List.append_eq_append_iff.mp h with ⟨a, h1, h2⟩ | ⟨c, h1, h2⟩
  · cases a with
    | nil => simp at h1 h2; exact ⟨h1.symm, h2⟩
    | cons x xs =>
      simp at h2
      obtain ⟨_, h3⟩ := h2
      exact absurd (by rw [h3]; simp) hp
  · cases c with
    | nil => simp at h1 h2; exact ⟨h1, h2.symm⟩
    | cons x xs =>
      simp at h2
      obtain ⟨_, h3⟩ := h2
      exact absurd (by rw [h3]; simp) hw

/-- Under `/uploads/` only the name `index.html` gives a path that ends in
    `/index.html`. -/
theorem HasSuffix_index_false (n : GoString) (hn : (47 : Byte) ∉ n)
    (hidx : n ≠ ascii "index.html") :
    HasSuffix (ascii "/uploads/" ++ n) (ascii "/index.html") = false := by
  rw [← Bool.not_eq_true]
  intro h
  unfold HasSuffix at h
  rw [List.isSuffixOf_iff_suffix] at h
  obtain ⟨t, ht⟩ := h
  have e1 : ascii "/index.html" = (47 : Byte) :: ascii "index.html" := by decide
  have e2 : ascii "/uploads/" = ascii "/uploads" ++ [(47 : Byte)] := by decide
  rw [e1, e2, List.append_assoc] at ht
  have := append_sep_last_inj 47 t (ascii "index.html") (ascii "/uploads") n (by decide) hn
    (by simpa using ht)
  exact hidx this.2.symm

theorem coerceFrom_ascii (b : Byte) (rest : GoString) (hb : b.val < 128) :
    coerceFrom 0 (b :: rest) = b :: coerceFrom 0 rest := by
  simp [coerceFrom, runeWidth, hb]

/-- A path under `/uploads/` with a name that is valid UTF-8 is written into
    a JSON string as it is. -/
theorem coerceUTF8_uploads (n : GoString) (hv : ValidString n = true) :
    coerceUTF8 (ascii "/uploads/" ++ n) = ascii "/uploads/" ++ n := by
  have e : ascii "/uploads/" = [47, 117, 112, 108, 111, 97, 100, 115, 47] := by decide
  rw [e]
  unfold coerceUTF8
  simp only [List.cons_append, List.nil_append]
  rw [coerceFrom_ascii _ _ (by decide), coerceFrom_ascii _ _ (by decide),
    coerceFrom_ascii _ _ (by decide), coerceFrom_ascii _ _ (by decide),
    coerceFrom_ascii _ _ (by decide), coerceFrom_ascii _ _ (by decide),
    coerceFrom_ascii _ _ (by decide), coerceFrom_ascii _ _ (by decide),
    coerceFrom_ascii _ _ (by decide)]
  rw [coerceFrom_of_validFrom n 0 hv]

theorem uploads_ne_dir (n : GoString) : ascii "uploads/" ++ n ≠ ascii "uploads" := by
  intro h
  have hl := congrArg List.length h
  have e1 : (ascii "uploads/").length = 8 := by decide
  have e2 : (ascii "uploads").length = 7 := by decide
  rw [List.length_append, e1, e2] at hl
  omega

/-- The upload directory after `os.MkdirAll`. -/
theorem mkdirUploads_dir (env : Env) (fs : FS)
    (hup : fs (ascii "uploads") = some .dir ∨
      (fs (ascii "uploads") = none ∧ env.mkdir = true)) :
    mkdirUploads env fs (ascii "uploads") = some .dir := by
  unfold mkdirUploads
  rcases hup with h | ⟨h, hm⟩
  · rw [h]
    exact h
  · rw [h]
    simp [hm, FS.write]

theorem mkdirUploads_other (env : Env) (fs : FS) (path : GoString)
    (hp : path ≠ ascii "uploads") : mkdirUploads env fs path = fs path := by
  unfold mkdirUploads
  cases h : fs (ascii "uploads") with
  | none =>
    by_cases hm : env.mkdir = true
    · simp [hm, FS.write, hp]
    · simp [hm]
  | some d => rfl

/-- When `os.Create` can succeed. -/
theorem creatable_of (env : Env) (fs : FS) (n : GoString)
    (hup : fs (ascii "uploads") = some .dir ∨
      (fs (ascii "uploads") = none ∧ env.mkdir = true))
    (htgt : fs (ascii "uploads/" ++ n) ≠ some .dir)
    (hname : n ≠ ascii "." ∧ n ≠ ascii ".." ∧ n ≠ ascii "/")
    (hnul : ∀ c ∈ n, c.val ≠ 0) :
    creatable (mkdirUploads env fs) n = true := by
  unfold creatable
  rw [mkdirUploads_dir env fs hup, mkdirUploads_other env fs _ (uploads_ne_dir n)]
  have h1 : (match fs (ascii "uploads/" ++ n) with
      | some .dir => false
      | _ => true) = true := by
    split
    · rename_i heq
      exact absurd heq htgt
    · rfl
  rw [h1]
  have h2 : n.any (fun c => decide (c.val = 0)) = false := by
    rw [List.any_eq_false]
    intro c hc
    simpa using hnul c hc
  simp [hname.1, hname.2.1, hname.2.2, h2]

/-- The name that `FormFile` hands on is a base name. -/
theorem FormFile_base (r : Request) (n : GoString) (b : List Byte)
    (hf : FormFile r = some (n, b)) : ∃ raw, n = Base raw := by
  unfold FormFile at hf
  cases hi : r.Image with
  | none => rw [hi] at hf; exact absurd hf (by simp)
  | some p =>
    obtain ⟨raw, data⟩ := p
    rw [hi] at hf
    simp only at hf
    by_cases hr : raw = []
    · rw [if_pos hr] at hf
      exact absurd hf (by simp)
    · rw [if_neg hr] at hf
      simp only [Option.some.injEq, Prod.mk.injEq] at hf
      exact ⟨raw, hf.1.symm⟩

/-! ## The properties of the specification -/

/-- C2: a POST to `/api/content` on which `checkAuth` is false is answered
    with status 401, and the state of the server (the in-memory document and
    every file, the content file included) is exactly what it was, whatever
    body the request carries and however the system calls would end. -/
theorem C2_unauthorized_post_leaves_state (env : Env) (r : Request) (s : Server)
    (hm : r.Method = "POST") (ha : checkAuth r.Authorization = false) :
    (handle .apiContent env r s).2.status = 401 ∧
    (handle .apiContent env r s).2.body = .text "Unauthorized" ∧
    (handle .apiContent env r s).1 = s := by
  have h1 : ¬ ("POST" = "OPTIONS") := by decide
  rw [handle_of_not_head _ _ _ _ (by rw [hm]; exact post_ne_head)]
  simp [handler, handleContent, hm, h1, ha, httpError]

/-- C2 at concrete requests: no header, another scheme, undecodable base64,
    and the credentials of the login endpoint. -/
theorem C2_unauthorized_post_leaves_state_witness :
    (checkAuth none = false ∧
      (handle .apiContent okEnv
        (jsonRequest "POST" (ascii "/api/content") none (encodeContentData ContentData.zero))
        defaultServer).2.status = 401) ∧
    (checkAuth (some (ascii "Bearer bmlrbWE6MjgwMjAw")) = false ∧
      (handle .apiContent okEnv
        (plainRequest "POST" (ascii "/api/content") (some (ascii "Bearer bmlrbWE6MjgwMjAw")))
        defaultServer).1 = defaultServer) ∧
    (checkAuth (some (ascii "Basic !!!!")) = false ∧
      (handle .apiContent okEnv
        (plainRequest "POST" (ascii "/api/content") (some (ascii "Basic !!!!")))
        defaultServer).1 = defaultServer) ∧
    (checkAuth (some (basicHeader (ascii "nikma") (ascii "250200"))) = false ∧
      (handle .apiContent okEnv
        (plainRequest "POST" (ascii "/api/content")
          (some (basicHeader (ascii "nikma") (ascii "250200"))))
        defaultServer).1 = defaultServer) :=
  ⟨⟨by decide, (C2_unauthorized_post_leaves_state okEnv _ defaultServer rfl (by decide)).1⟩,
   ⟨by decide, (C2_unauthorized_post_leaves_state okEnv _ defaultServer rfl (by decide)).2.2⟩,
   ⟨by decide, (C2_unauthorized_post_leaves_state okEnv _ defaultServer rfl (by decide)).2.2⟩,
   ⟨by decide, (C2_unauthorized_post_leaves_state okEnv _ defaultServer rfl (by decide)).2.2⟩⟩

/-- C4: a POST to `/api/authenticate` whose body decodes to the credentials
    `(u, p)` is answered with status 200 and the JSON object with the one
    member `success` set to `true` exactly when `u` is `nikma` and `p` is
    `250200`; every other pair is answered with status 401 and the JSON object
    with the one member `success` set to `false`.  The server state is untouched. -/
theorem C4_authenticate_fixed_pair (env : Env) (r : Request) (s : Server) (v : JSON)
    (u p : GoString) (hm : r.Method = "POST") (hb : r.Body = some v)
    (hd : decodeAuthCredentials v AuthCredentials.zero = ⟨⟨u, p⟩, false⟩) :
    (((handle .apiAuthenticate env r s).2.status = 200 ∧
        (handle .apiAuthenticate env r s).2.body
          = .json (.object [(ascii "success", .bool true)])) ↔
      (u = ascii "nikma" ∧ p = ascii "250200")) ∧
    (¬ (u = ascii "nikma" ∧ p = ascii "250200") →
      (handle .apiAuthenticate env r s).2.status = 401 ∧
        (handle .apiAuthenticate env r s).2.body
          = .json (.object [(ascii "success", .bool false)])) ∧
    (handle .apiAuthenticate env r s).1 = s := by
  obtain ⟨h1, h2, h3⟩ := handleAuthenticate_post r s v u p hm hb hd
  rw [handle_of_not_head _ _ _ _ (by rw [hm]; exact post_ne_head)]
  simp only [handler]
  refine ⟨⟨?_, ?_⟩, ?_, h1⟩
  · rintro ⟨hs, _⟩
    by_contra hc
    rw [h2, if_neg hc] at hs
    exact absurd hs (by decide)
  · intro hc
    rw [h2, h3, if_pos hc]
    simp [hc, encodeSuccess]
  · intro hc
    rw [h2, h3, if_neg hc]
    simp [hc, encodeSuccess]

/-- C4 at the login pair and at the pair of the Basic-Auth gate. -/
theorem C4_authenticate_fixed_pair_witness :
    (handle .apiAuthenticate okEnv
      (jsonRequest "POST" (ascii "/api/authenticate") none
        (loginBody (ascii "nikma") (ascii "250200"))) defaultServer).2.status = 200 ∧
    (handle .apiAuthenticate okEnv
      (jsonRequest "POST" (ascii "/api/authenticate") none
        (loginBody (ascii "nikma") (ascii "250200"))) defaultServer).2.body
      = .json (.object [(ascii "success", .bool true)]) ∧
    (handle .apiAuthenticate okEnv
      (jsonRequest "POST" (ascii "/api/authenticate") none
        (loginBody (ascii "nikma") (ascii "280200"))) defaultServer).2.status = 401 ∧
    (handle .apiAuthenticate okEnv
      (jsonRequest "POST" (ascii "/api/authenticate") none
        (loginBody (ascii "nikma") (ascii "280200"))) defaultServer).2.body
      = .json (.object [(ascii "success", .bool false)]) :=
  ⟨((C4_authenticate_fixed_pair okEnv _ defaultServer _ _ _ rfl rfl
      (decode_loginBody (ascii "nikma") (ascii "250200"))).1.mpr ⟨rfl, rfl⟩).1,
   ((C4_authenticate_fixed_pair okEnv _ defaultServer _ _ _ rfl rfl
      (decode_loginBody (ascii "nikma") (ascii "250200"))).1.mpr ⟨rfl, rfl⟩).2,
   ((C4_authenticate_fixed_pair okEnv _ defaultServer _ _ _ rfl rfl
      (decode_loginBody (ascii "nikma") (ascii "280200"))).2.1 (by decide)).1,
   ((C4_authenticate_fixed_pair okEnv _ defaultServer _ _ _ rfl rfl
      (decode_loginBody (ascii "nikma") (ascii "280200"))).2.1 (by decide)).2⟩

/-- C5: the login endpoint and the Basic-Auth gate accept the same user name
    with different passwords.  For every pair `(u, p)`: when the login accepts
    the body for `(u, p)`, `checkAuth` rejects the header `Basic base64(u:p)`;
    when `checkAuth` accepts that header, the login answers 401; the login
    accepts exactly `nikma` with `250200`, the gate exactly `nikma` with `280200`. -/
theorem C5_login_and_gate_disagree (env : Env) (r : Request) (s : Server) (u p : GoString)
    (hm : r.Method = "POST") (hb : r.Body = some (loginBody u p)) :
    ((handle .apiAuthenticate env r s).2.status = 200 →
      checkAuth (some (basicHeader u p)) = false) ∧
    (checkAuth (some (basicHeader u p)) = true →
      (handle .apiAuthenticate env r s).2.status = 401) ∧
    ((handle .apiAuthenticate env r s).2.status = 200 ↔
      (u = ascii "nikma" ∧ p = ascii "250200")) ∧
    (checkAuth (some (basicHeader u p)) = true ↔
      (u = ascii "nikma" ∧ p = ascii "280200")) := by
  obtain ⟨_, h2, _⟩ := handleAuthenticate_post r s _ u p hm hb (decode_loginBody u p)
  have hh := handle_of_not_head .apiAuthenticate env r s (by rw [hm]; exact post_ne_head)
  have hlogin : (handle .apiAuthenticate env r s).2.status = 200 ↔
      (u = ascii "nikma" ∧ p = ascii "250200") := by
    rw [hh]
    simp only [handler]
    rw [h2]
    by_cases hc : u = ascii "nikma" ∧ p = ascii "250200"
    · simp [hc]
    · rw [if_neg hc]
      simp [hc]
  have hgate := checkAuth_basicHeader u p
  have hne : ascii "250200" ≠ ascii "280200" := by decide
  refine ⟨?_, ?_, hlogin, hgate⟩
  · intro h
    obtain ⟨_, hp⟩ := hlogin.mp h
    rw [← Bool.not_eq_true, hgate]
    rintro ⟨_, hp2⟩
    exact hne (hp.symm.trans hp2)
  · intro h
    obtain ⟨_, hp⟩ := hgate.mp h
    have hno : ¬ (u = ascii "nikma" ∧ p = ascii "250200") := by
      rintro ⟨_, hp2⟩
      exact hne (hp2.symm.trans hp)
    rw [hh]
    simp only [handler]
    rw [h2, if_neg hno]

/-- C5 at the two hard-coded pairs. -/
theorem C5_login_and_gate_disagree_witness :
    ((handle .apiAuthenticate okEnv
        (jsonRequest "POST" (ascii "/api/authenticate") none
          (loginBody (ascii "nikma") (ascii "250200"))) defaultServer).2.status = 200 ∧
      checkAuth (some (basicHeader (ascii "nikma") (ascii "250200"))) = false) ∧
    (checkAuth (some (basicHeader (ascii "nikma") (ascii "280200"))) = true ∧
      (handle .apiAuthenticate okEnv
        (jsonRequest "POST" (ascii "/api/authenticate") none
          (loginBody (ascii "nikma") (ascii "280200"))) defaultServer).2.status = 401) :=
  have h1 := C5_login_and_gate_disagree okEnv
    (jsonRequest "POST" (ascii "/api/authenticate") none
      (loginBody (ascii "nikma") (ascii "250200"))) defaultServer _ _ rfl rfl
  have h2 := C5_login_and_gate_disagree okEnv
    (jsonRequest "POST" (ascii "/api/authenticate") none
      (loginBody (ascii "nikma") (ascii "280200"))) defaultServer _ _ rfl rfl
  ⟨⟨h1.2.2.1.mpr ⟨rfl, rfl⟩, h1.1 (h1.2.2.1.mpr ⟨rfl, rfl⟩)⟩,
   ⟨h2.2.2.2.mpr ⟨rfl, rfl⟩, h2.2.1 (h2.2.2.2.mpr ⟨rfl, rfl⟩)⟩⟩

/-- C10: `checkAuth` accepts a header value exactly when it is `Basic `
    followed by text that standard base64 decodes to `nikma:280200`; for a
    value without line breaks (which the decoder skips and an HTTP header
    cannot hold) that is the one text `bmlrbWE6MjgwMjAw`.  It rejects a
    missing or empty header, every other scheme, text that does not decode,
    every decoded string whose number of colons is not one, and so every
    password that holds a colon. -/
theorem C10_checkAuth_exact_decoder (h : Option GoString) :
    (checkAuth h = true ↔
      ∃ rest, h = some (ascii "Basic " ++ rest) ∧
        DecodeString rest = some (ascii "nikma:" ++ ascii "280200")) ∧
    (h = none ∨ h = some [] → checkAuth h = false) ∧
    (∀ v, h = some v → HasPrefix v (ascii "Basic ") = false → checkAuth h = false) ∧
    (∀ rest, h = some (ascii "Basic " ++ rest) → DecodeString rest = none →
      checkAuth h = false) ∧
    (∀ rest c, h = some (ascii "Basic " ++ rest) → DecodeString rest = some c →
      c.count 58 ≠ 1 → checkAuth h = false) ∧
    (∀ u p : GoString, (58 : Byte) ∈ p → checkAuth (some (basicHeader u p)) = false) ∧
    (∀ rest : GoString, (∀ c ∈ rest, isNewline c = false) →
      (checkAuth (some (ascii "Basic " ++ rest)) = true ↔
        rest = ascii "bmlrbWE6MjgwMjAw")) := by
  refine ⟨?_, ?_, ?_, ?_, ?_, ?_, ?_⟩
  · have e : ascii "nikma:" ++ ascii "280200" = ascii "nikma:280200" := by decide
    rw [e]
    exact checkAuth_iff h
  · rintro (rfl | rfl)
    · exact checkAuth_none
    · exact checkAuth_not_basic [] (by decide)
  · rintro v rfl hv
    exact checkAuth_not_basic v hv
  · rintro rest rfl hd
    rw [checkAuth_basic, hd]
  · rintro rest c rfl hd hc
    rw [checkAuth_basic, hd]
    simp only [decide_eq_false_iff_not]
    intro hcc
    apply hc
    rw [hcc]
    decide
  · intro u p hp
    rw [← Bool.not_eq_true, checkAuth_basicHeader]
    rintro ⟨_, rfl⟩
    exact absurd hp (by decide)
  · intro rest hnl
    have key := DecodeString_eq_iff rest (ascii "nikma:280200") hnl (by decide)
    have enc : EncodeToString (ascii "nikma:280200") = ascii "bmlrbWE6MjgwMjAw" := by decide
    rw [checkAuth_basic]
    constructor
    · intro h
      cases hd : DecodeString rest with
      | none => rw [hd] at h; exact absurd h (by simp)
      | some c =>
        rw [hd] at h
        simp only [decide_eq_true_eq] at h
        subst h
        rw [← enc]
        exact key.mp hd
    · intro h
      rw [key.mpr (h.trans enc.symm)]
      simp

/-- C6 (amended): the three API routes answer OPTIONS with status 200, the
    three CORS headers and nothing else, an empty body, without looking at the
    credentials and without changing the state.  The web routes `/` and
    `/dashboard` have no OPTIONS branch: they never set a CORS header and
    answer OPTIONS as they answer GET, by serving the file; the state is not
    changed either. -/
theorem C6_options_on_api_routes (env : Env) (r : Request) (s : Server)
    (hm : r.Method = "OPTIONS") :
    handle .apiContent env r s =
      (s, ⟨200, [("Access-Control-Allow-Origin", ascii "*"),
        ("Access-Control-Allow-Methods", ascii "GET, POST, OPTIONS"),
        ("Access-Control-Allow-Headers", ascii "Content-Type, Authorization")], .empty⟩) ∧
    handle .apiAuthenticate env r s =
      (s, ⟨200, [("Access-Control-Allow-Origin", ascii "*"),
        ("Access-Control-Allow-Methods", ascii "POST, OPTIONS"),
        ("Access-Control-Allow-Headers", ascii "Content-Type")], .empty⟩) ∧
    handle .apiUploadImage env r s =
      (s, ⟨200, [("Access-Control-Allow-Origin", ascii "*"),
        ("Access-Control-Allow-Methods", ascii "POST, OPTIONS"),
        ("Access-Control-Allow-Headers", ascii "Content-Type, Authorization")], .empty⟩) ∧
    (handle .root env r s = handle .root env { r with Method := "GET" } s ∧
      (handle .root env r s).1 = s ∧
      (handle .root env r s).2.getHeader "Access-Control-Allow-Origin" = none) ∧
    (handle .dashboard env r s = handle .dashboard env { r with Method := "GET" } s ∧
      (handle .dashboard env r s).1 = s ∧
      (handle .dashboard env r s).2.getHeader "Access-Control-Allow-Origin" = none) := by
  have hne : r.Method ≠ "HEAD" := by rw [hm]; exact options_ne_head
  have hget : ∀ rt, handle rt env { r with Method := "GET" } s
      = handler rt env { r with Method := "GET" } s :=
    fun rt => handle_of_not_head rt env _ s get_ne_head
  simp only [handle_of_not_head _ env r s hne, hget]
  refine ⟨?_, ?_, ?_, ⟨?_, ?_, ?_⟩, ⟨?_, rfl, ?_⟩⟩
  · simp [handler, handleContent, hm, Response.setHeader, Response.new]
  · simp [handler, handleAuthenticate, hm, Response.setHeader, Response.new]
  · simp [handler, handleUploadImage, hm, Response.setHeader, Response.new]
  · simp only [handler, handleRoot, GetIndex, ServeFile, FileServer]
    rw [serveFile_method s.fs r _ false _ "GET" hne get_ne_head,
      serveFile_method s.fs r _ true _ "GET" hne get_ne_head]
  · simp only [handler, handleRoot]
    split <;> rfl
  · simp only [handler, handleRoot]
    split
    · exact ServeFile_no_cors _ _ _
    · exact serveFile_no_cors _ _ _ _
  · simp only [handler, handleDashboard, GetDashboard, ServeFile]
    rw [serveFile_method s.fs r _ false _ "GET" hne get_ne_head]
  · exact ServeFile_no_cors _ _ _

/-- C6 at an OPTIONS request without credentials. -/
theorem C6_options_on_api_routes_witness :
    (handle .apiContent okEnv (plainRequest "OPTIONS" (ascii "/api/content") none)
      siteServer).2.body = .empty ∧
    (handle .apiUploadImage okEnv (plainRequest "OPTIONS" (ascii "/api/upload-image") none)
      siteServer).2.status = 200 :=
  ⟨congrArg (fun x => x.2.body)
      (C6_options_on_api_routes okEnv (plainRequest "OPTIONS" (ascii "/api/content") none)
        siteServer rfl).1,
   congrArg (fun x => x.2.status)
      (C6_options_on_api_routes okEnv (plainRequest "OPTIONS" (ascii "/api/upload-image") none)
        siteServer rfl).2.2.1⟩

/-- C6 as stated fails on the web routes: an OPTIONS request to `/` is
    answered with the bytes of `index.html` and one to `/dashboard` with the
    bytes of `dashboard.html`, neither with a CORS header. -/
theorem C6_counterexample :
    (handle .root okEnv (plainRequest "OPTIONS" (ascii "/") none) siteServer).2.body
      = .file (.raw (ascii "<html>index</html>")) ∧
    (handle .root okEnv (plainRequest "OPTIONS" (ascii "/") none)
      siteServer).2.getHeader "Access-Control-Allow-Origin" = none ∧
    (handle .dashboard okEnv (plainRequest "OPTIONS" (ascii "/dashboard") none)
      siteServer).2.body = .file (.raw (ascii "<html>dashboard</html>")) ∧
    (handle .dashboard okEnv (plainRequest "OPTIONS" (ascii "/dashboard") none)
      siteServer).2.getHeader "Access-Control-Allow-Origin" = none ∧
    ¬ ((handle .root okEnv (plainRequest "OPTIONS" (ascii "/") none) siteServer).2.body
      = .empty) ∧
    ¬ ((handle .dashboard okEnv (plainRequest "OPTIONS" (ascii "/dashboard") none)
      siteServer).2.body = .empty) := by
  refine ⟨rfl, rfl, rfl, rfl, ?_, ?_⟩
  · intro h
    have h2 : (handle .root okEnv (plainRequest "OPTIONS" (ascii "/") none) siteServer).2.body
        = .file (.raw (ascii "<html>index</html>")) := rfl
    rw [h2] at h
    exact Body.noConfusion h
  · intro h
    have h2 : (handle .dashboard okEnv (plainRequest "OPTIONS" (ascii "/dashboard") none)
        siteServer).2.body = .file (.raw (ascii "<html>dashboard</html>")) := rfl
    rw [h2] at h
    exact Body.noConfusion h

/-- C7 (amended): a successful `SaveContent` followed by `LoadContent` in a
    fresh process (zero-valued `contentData`, the files as `SaveContent` left
    them) returns no error and yields the saved document with every string
    coerced to UTF-8 (U+FFFD for each invalid byte); for every document whose
    strings are valid UTF-8 that is exactly the saved document. -/
theorem C7_load_after_save (env env2 : Env) (s : Server)
    (hw : env.writeFile = .ok) (hr : env2.readFile = true) :
    (SaveContent env s).2 = false ∧
    (LoadContent env2 (Server.fresh (SaveContent env s).1.fs)).2 = false ∧
    (LoadContent env2 (Server.fresh (SaveContent env s).1.fs)).1.contentData
      = s.contentData.coerce ∧
    (ContentData.Valid s.contentData →
      (LoadContent env2 (Server.fresh (SaveContent env s).1.fs)).1.contentData
        = s.contentData) ∧
    (LoadContent env2 (Server.fresh (SaveContent env s).1.fs)).1.fs
      = (SaveContent env s).1.fs := by
  simp only [SaveContent, hw, LoadContent, Server.fresh, FS.write_same, hr,
    decodeContentData_encodeContentData]
  have hne : ¬ (true = false) := by decide
  simp only [if_neg hne, true_and, and_true]
  intro hv
  exact coerce_of_valid_ContentData _ hv

set_option maxRecDepth 100000 in
/-- C7 at the default document. -/
theorem C7_load_after_save_witness :
    ContentData.Valid InitializeDefaultContent ∧
    (LoadContent okEnv (Server.fresh (SaveContent okEnv defaultServer).1.fs)).1.contentData
      = InitializeDefaultContent :=
  have hv : ContentData.Valid defaultServer.contentData := by
    simp only [ContentData.Valid, HeroSection.Valid, AboutSection.Valid, ProgramSection.Valid,
      ProgramItem.Valid, GallerySection.Valid, GalleryItem.Valid, TestimonialsSection.Valid,
      TestimonialItem.Valid, ContactSection.Valid, FooterSection.Valid]
    decide
  ⟨hv, (C7_load_after_save okEnv okEnv defaultServer rfl rfl).2.2.2.1 hv⟩

/-- C7 as stated fails for a Go string that is not UTF-8: the document whose
    footer text is the byte FF is saved and loaded without error, and the
    loaded footer text is the three bytes of U+FFFD. -/
theorem C7_counterexample :
    (SaveContent okEnv ⟨badDocument, Backing.empty, emptyFS⟩).2 = false ∧
    (LoadContent okEnv (Server.fresh (SaveContent okEnv ⟨badDocument, Backing.empty, emptyFS⟩).1.fs)).2
      = false ∧
    (LoadContent okEnv
      (Server.fresh (SaveContent okEnv ⟨badDocument, Backing.empty, emptyFS⟩).1.fs)).1.contentData.Footer.Text
      = [239, 191, 189] ∧
    (LoadContent okEnv
      (Server.fresh (SaveContent okEnv ⟨badDocument, Backing.empty, emptyFS⟩).1.fs)).1.contentData
      ≠ badDocument := by
  decide

/-- C8: when the content file does not exist, `LoadContent` sets the
    in-memory document to the document of `InitializeDefaultContent` and
    writes its serialization to the content file, touching no other path; it
    returns an error exactly when that write fails (`main` then exits).  A GET
    on `/api/content` served in the state `LoadContent` left is answered, with
    or without credentials, with status 200 and the JSON of the default
    document, which decodes back to the default document itself. -/
theorem C8_default_document (env : Env) (s : Server) (h : s.fs contentFilePath = none) :
    (LoadContent env s).1.contentData = InitializeDefaultContent ∧
    ((LoadContent env s).2 = false ↔ env.writeFile = .ok) ∧
    (env.writeFile = .ok →
      (LoadContent env s).1.fs contentFilePath
        = some (.json (encodeContentData InitializeDefaultContent))) ∧
    (∀ path, path ≠ contentFilePath → (LoadContent env s).1.fs path = s.fs path) ∧
    (∀ (env2 : Env) (r : Request), r.Method = "GET" →
      (handle .apiContent env2 r (LoadContent env s).1).2.status = 200 ∧
      (handle .apiContent env2 r (LoadContent env s).1).2.body
        = .json (encodeContentData InitializeDefaultContent) ∧
      (handle .apiContent env2 r (LoadContent env s).1).1 = (LoadContent env s).1) ∧
    (decodeContentData (encodeContentData InitializeDefaultContent)
        (ContentData.zero, Backing.empty)).val.1 = InitializeDefaultContent ∧
    (decodeContentData (encodeContentData InitializeDefaultContent)
        (ContentData.zero, Backing.empty)).err = false := by
  have hg : ¬ ("GET" = "OPTIONS") := by decide
  have hp : ¬ ("GET" = "POST") := by decide
  refine ⟨?_, ?_, ?_, ?_, ?_, ?_, ?_⟩
  · simp only [LoadContent, h, SaveContent]
    cases env.writeFile <;> rfl
  · simp only [LoadContent, h, SaveContent]
    cases env.writeFile <;> simp
  · intro hw
    simp only [LoadContent, h, SaveContent, hw, FS.write_same]
  · intro path hpath
    simp only [LoadContent, h, SaveContent]
    cases env.writeFile <;> simp [FS.write, hpath]
  · intro env2 r hm
    have hc : (LoadContent env s).1.contentData = InitializeDefaultContent := by
      simp only [LoadContent, h, SaveContent]
      cases env.writeFile <;> rfl
    obtain ⟨g1, g2, g3⟩ := handle_get_content env2 r (LoadContent env s).1 hm
    rw [hc] at g3
    exact ⟨g2, g3, g1⟩
  · rw [decodeContentData_encodeContentData, InitializeDefaultContent_coerce]
  · rw [decodeContentData_encodeContentData]

/-- C8 at a working directory without any file. -/
theorem C8_default_document_witness :
    emptyFS contentFilePath = none ∧
    (LoadContent okEnv (Server.fresh emptyFS)).1.contentData = InitializeDefaultContent ∧
    (handle .apiContent okEnv (plainRequest "GET" (ascii "/api/content") none)
      (LoadContent okEnv (Server.fresh emptyFS)).1).2.body
        = .json (encodeContentData InitializeDefaultContent) :=
  ⟨rfl, (C8_default_document okEnv (Server.fresh emptyFS) rfl).1,
    ((C8_default_document okEnv (Server.fresh emptyFS) rfl).2.2.2.2.1 okEnv
      (plainRequest "GET" (ascii "/api/content") none) rfl).2.1⟩

/-- C1 (amended): an authorized POST to `/api/content` whose body is a JSON
    value that decodes without a type error, and whose save succeeds, is
    answered with status 200 and leaves as stored document the body decoded
    INTO the old document (the merge of `encoding/json`), persisted in the
    content file; a GET that follows returns exactly the stored document
    (its JSON, which decodes back to it).
    When the body is the JSON of a whole document the stored document is that
    document, whatever the old one was, and equals the body decoded into a
    zero document.  Otherwise the old document shows through: a section for
    which the body gives no value keeps its old value; inside a section the
    body does name, every string field and every slice for which no value is
    given keeps its old value, and a string field holds the string given for
    it last; array elements are decoded into the elements the slice holds,
    and past its length into what its backing array still holds. -/
theorem C1_update_merges_into_old (env : Env) (r : Request) (s : Server) (v : JSON)
    (hm : r.Method = "POST") (ha : checkAuth r.Authorization = true)
    (hb : r.Body = some v)
    (hd : (decodeContentData v (s.contentData, s.backing)).err = false)
    (hw : env.writeFile = .ok) :
    (handle .apiContent env r s).2.status = 200 ∧
    (handle .apiContent env r s).1.contentData = (decodeContentData v (s.contentData, s.backing)).val.1 ∧
    (handle .apiContent env r s).1.backing = (decodeContentData v (s.contentData, s.backing)).val.2 ∧
    (handle .apiContent env r s).1.fs contentFilePath
      = some (.json (encodeContentData (handle .apiContent env r s).1.contentData)) ∧
    (∀ (env2 : Env) (r2 : Request), r2.Method = "GET" →
      (handle .apiContent env2 r2 (handle .apiContent env r s).1).2.body
        = .json (encodeContentData (handle .apiContent env r s).1.contentData)) ∧
    (∀ d : ContentData, v = encodeContentData d →
      (handle .apiContent env r s).1.contentData = d.coerce ∧
      (decodeContentData v (ContentData.zero, Backing.empty)).val.1 = d.coerce) ∧
    (v.namesPath [(ContentData.names, 0)] = false →
      (handle .apiContent env r s).1.contentData.Hero = s.contentData.Hero) ∧
    (v.namesPath [(ContentData.names, 1)] = false →
      (handle .apiContent env r s).1.contentData.About = s.contentData.About) ∧
    (v.namesPath [(ContentData.names, 2)] = false →
      (handle .apiContent env r s).1.contentData.Program = s.contentData.Program ∧
      (handle .apiContent env r s).1.backing.Program = s.backing.Program) ∧
    (v.namesPath [(ContentData.names, 3)] = false →
      (handle .apiContent env r s).1.contentData.Gallery = s.contentData.Gallery ∧
      (handle .apiContent env r s).1.backing.Gallery = s.backing.Gallery) ∧
    (v.namesPath [(ContentData.names, 4)] = false →
      (handle .apiContent env r s).1.contentData.Testimonials = s.contentData.Testimonials ∧
      (handle .apiContent env r s).1.backing.Testimonials = s.backing.Testimonials) ∧
    (v.namesPath [(ContentData.names, 5)] = false →
      (handle .apiContent env r s).1.contentData.Contact = s.contentData.Contact) ∧
    (v.namesPath [(ContentData.names, 6)] = false →
      (handle .apiContent env r s).1.contentData.Footer = s.contentData.Footer) ∧
    (∀ l : Leaf, v.namesPath l.path = false →
      l.get (handle .apiContent env r s).1.contentData = l.get s.contentData) ∧
    (∀ (l : Leaf) (t : GoString), v.lastAt l.path = some (.string t) →
      l.get (handle .apiContent env r s).1.contentData = t) ∧
    (v.namesPath [(ContentData.names, 2), (ProgramSection.names, 1), (ProgramItem.names, 2)] = false →
      (handle .apiContent env r s).1.contentData.Program.Sd.Features = s.contentData.Program.Sd.Features ∧
      (handle .apiContent env r s).1.backing.Program.Sd = s.backing.Program.Sd) ∧
    (v.namesPath [(ContentData.names, 2), (ProgramSection.names, 2), (ProgramItem.names, 2)] = false →
      (handle .apiContent env r s).1.contentData.Program.Smp.Features = s.contentData.Program.Smp.Features ∧
      (handle .apiContent env r s).1.backing.Program.Smp = s.backing.Program.Smp) ∧
    (v.namesPath [(ContentData.names, 3), (GallerySection.names, 1)] = false →
      (handle .apiContent env r s).1.contentData.Gallery.Items = s.contentData.Gallery.Items ∧
      (handle .apiContent env r s).1.backing.Gallery = s.backing.Gallery) ∧
    (v.namesPath [(ContentData.names, 4), (TestimonialsSection.names, 1)] = false →
      (handle .apiContent env r s).1.contentData.Testimonials.Items = s.contentData.Testimonials.Items ∧
      (handle .apiContent env r s).1.backing.Testimonials = s.backing.Testimonials) ∧
    (decodeContentData (encodeContentData (handle .apiContent env r s).1.contentData)
        (ContentData.zero, Backing.empty)).val.1 = (handle .apiContent env r s).1.contentData.coerce := by
  have hh : handle .apiContent env r s =
      (⟨(decodeContentData v (s.contentData, s.backing)).val.1,
          (decodeContentData v (s.contentData, s.backing)).val.2,
          s.fs.write contentFilePath (some (.json (encodeContentData
            (decodeContentData v (s.contentData, s.backing)).val.1)))⟩,
        encodeTo ((((Response.new.setHeader "Access-Control-Allow-Origin" (ascii "*")).setHeader
          "Access-Control-Allow-Methods" (ascii "GET, POST, OPTIONS")).setHeader
          "Access-Control-Allow-Headers" (ascii "Content-Type, Authorization")).setHeader
          "Content-Type" (ascii "application/json"))
          (encodeMap [("message", ascii "Content updated successfully"),
                      ("status", ascii "success")])) := by
    rw [handle_of_not_head _ _ _ _ (by rw [hm]; exact post_ne_head)]
    simp only [handler]
    rw [handleContent_post env r s hm ha, hb]
    simp only [UpdateContent, ha, hb, hd, SaveContent, hw]
    simp
  rw [hh]
  refine ⟨rfl, rfl, rfl, ?_, ?_, ?_, ?_, ?_, ?_, ?_, ?_, ?_, ?_, ?_, ?_, ?_, ?_, ?_, ?_, ?_⟩
  · simp only [FS.write_same]
  · intro env2 r2 hm2
    exact (handle_get_content env2 r2 _ hm2).2.2
  · intro d hv
    subst hv
    simp only [decodeContentData_encodeContentData, and_self]
  · intro hn
    exact keep_section_Hero v (s.contentData, s.backing) hn
  · intro hn
    exact keep_section_About v (s.contentData, s.backing) hn
  · intro hn
    have h2 := keep_section_Program v (s.contentData, s.backing) hn
    exact ⟨congrArg Prod.fst h2, congrArg Prod.snd h2⟩
  · intro hn
    have h2 := keep_section_Gallery v (s.contentData, s.backing) hn
    exact ⟨congrArg Prod.fst h2, congrArg Prod.snd h2⟩
  · intro hn
    have h2 := keep_section_Testimonials v (s.contentData, s.backing) hn
    exact ⟨congrArg Prod.fst h2, congrArg Prod.snd h2⟩
  · intro hn
    exact keep_section_Contact v (s.contentData, s.backing) hn
  · intro hn
    exact keep_section_Footer v (s.contentData, s.backing) hn
  · intro l hn
    exact leaf_keep l v (s.contentData, s.backing) hn
  · intro l t hl
    exact leaf_sets l v (s.contentData, s.backing) t hl
  · intro hn
    have h2 := keep_programSdFeatures v (s.contentData, s.backing) hn
    exact ⟨congrArg Prod.fst h2, congrArg Prod.snd h2⟩
  · intro hn
    have h2 := keep_programSmpFeatures v (s.contentData, s.backing) hn
    exact ⟨congrArg Prod.fst h2, congrArg Prod.snd h2⟩
  · intro hn
    have h2 := keep_galleryItems v (s.contentData, s.backing) hn
    exact ⟨congrArg Prod.fst h2, congrArg Prod.snd h2⟩
  · intro hn
    have h2 := keep_testimonialsItems v (s.contentData, s.backing) hn
    exact ⟨congrArg Prod.fst h2, congrArg Prod.snd h2⟩
  · rw [decodeContentData_encodeContentData]

set_option maxRecDepth 100000 in
/-- C1 at the default document: a client that posts the zero document, and a
    client whose body names the gallery twice, first with one item and then
    with two items that give a title only: the second item of the second
    array is decoded into the old second item, which the first array had cut
    off, and keeps its image. -/
theorem C1_update_merges_into_old_witness :
    checkAuth (some gateHeader) = true ∧
    (handle .apiContent okEnv
      (jsonRequest "POST" (ascii "/api/content") (some gateHeader)
        (encodeContentData ContentData.zero)) defaultServer).1.contentData
      = ContentData.zero.coerce ∧
    (handle .apiContent okEnv
      (jsonRequest "POST" (ascii "/api/content") (some gateHeader) twiceGalleryBody)
      defaultServer).1.contentData.Gallery.Items
      = some [⟨ascii "b", ascii "/assets/images/gallery1.jpg"⟩,
              ⟨ascii "c", ascii "/assets/images/gallery2.jpg"⟩] ∧
    (handle .apiContent okEnv
      (jsonRequest "POST" (ascii "/api/content") (some gateHeader) twiceGalleryBody)
      defaultServer).1.contentData.Hero = InitializeDefaultContent.Hero :=
  have ha : checkAuth (some gateHeader) = true := by decide
  have h1 := C1_update_merges_into_old okEnv
      (jsonRequest "POST" (ascii "/api/content") (some gateHeader)
        (encodeContentData ContentData.zero)) defaultServer _ rfl ha rfl
      (by rw [decodeContentData_encodeContentData]) rfl
  have h2 := C1_update_merges_into_old okEnv
      (jsonRequest "POST" (ascii "/api/content") (some gateHeader) twiceGalleryBody)
      defaultServer _ rfl ha rfl (by decide) rfl
  ⟨ha, (h1.2.2.2.2.2.1 ContentData.zero rfl).1,
    (congrArg (fun d : ContentData => d.Gallery.Items) h2.2.1).trans (by decide),
    h2.2.2.2.2.2.2.1 (by decide)⟩

set_option maxRecDepth 100000 in
/-- C1 as stated fails: on the default document an authorized POST of a body
    that names the footer only is answered with 200 and stores a document
    that still has the default hero section, whereas the body decoded into a
    zero document has the zero hero section. -/
theorem C1_counterexample :
    (handle .apiContent okEnv
      (jsonRequest "POST" (ascii "/api/content") (some gateHeader) footerBody)
      defaultServer).2.status = 200 ∧
    (handle .apiContent okEnv
      (jsonRequest "POST" (ascii "/api/content") (some gateHeader) footerBody)
      defaultServer).1.contentData.Hero = InitializeDefaultContent.Hero ∧
    (decodeContentData footerBody (ContentData.zero, Backing.empty)).val.1.Hero
      = HeroSection.zero ∧
    (decodeContentData footerBody (ContentData.zero, Backing.empty)).err = false ∧
    (handle .apiContent okEnv
      (jsonRequest "POST" (ascii "/api/content") (some gateHeader) footerBody)
      defaultServer).1.contentData
      ≠ (decodeContentData footerBody (ContentData.zero, Backing.empty)).val.1 := by
  decide

/-- C3 (amended): an authorized POST to `/api/content` leaves the in-memory
    document as it was when it is answered 400 because the body is no
    well-formed JSON value.  The program has no rollback: when the body is
    well-formed and a value has the wrong type (400), or when `SaveContent`
    fails (500), the in-memory document is already the body decoded into the
    old document.  With a well-typed body and a successful save the answer is 200. -/
theorem C3_no_rollback (env : Env) (r : Request) (s : Server)
    (hm : r.Method = "POST") (ha : checkAuth r.Authorization = true) :
    (r.Body = none →
      (handle .apiContent env r s).2.status = 400 ∧ (handle .apiContent env r s).1 = s) ∧
    (∀ v, r.Body = some v →
      (decodeContentData v (s.contentData, s.backing)).err = true →
      (handle .apiContent env r s).2.status = 400 ∧
      (handle .apiContent env r s).1.contentData
        = (decodeContentData v (s.contentData, s.backing)).val.1 ∧
      (handle .apiContent env r s).1.backing
        = (decodeContentData v (s.contentData, s.backing)).val.2 ∧
      (handle .apiContent env r s).1.fs = s.fs) ∧
    (∀ v left, r.Body = some v →
      (decodeContentData v (s.contentData, s.backing)).err = false →
      env.writeFile = .failed left →
      (handle .apiContent env r s).2.status = 500 ∧
      (handle .apiContent env r s).1.contentData
        = (decodeContentData v (s.contentData, s.backing)).val.1 ∧
      (handle .apiContent env r s).1.backing
        = (decodeContentData v (s.contentData, s.backing)).val.2) ∧
    (∀ v, r.Body = some v →
      (decodeContentData v (s.contentData, s.backing)).err = false →
      env.writeFile = .ok →
      (handle .apiContent env r s).2.status = 200) := by
  rw [handle_of_not_head _ _ _ _ (by rw [hm]; exact post_ne_head)]
  simp only [handler]
  rw [handleContent_post env r s hm ha]
  refine ⟨?_, ?_, ?_, ?_⟩
  · intro hb
    rw [hb]
    exact ⟨rfl, rfl⟩
  · intro v hb he
    rw [hb]
    simp only [UpdateContent, ha, hb, he]
    simp [httpError]
  · intro v left hb he hw
    rw [hb]
    simp only [UpdateContent, ha, hb, he, SaveContent, hw]
    simp [httpError]
  · intro v hb he hw
    rw [hb]
    simp only [UpdateContent, ha, hb, he, SaveContent, hw]
    simp [encodeTo, Response.setHeader, Response.new]

set_option maxRecDepth 100000 in
/-- C3 at an authorized POST without a JSON body, and at two POSTs in a row:
    the first cuts the features of the SD program down to one, the second
    gives two features of which the second is a number; it is answered 400
    and leaves the first feature replaced and, as second feature, the old
    second feature that the first POST had cut off. -/
theorem C3_no_rollback_witness :
    checkAuth (some gateHeader) = true ∧
    (handle .apiContent okEnv
      (plainRequest "POST" (ascii "/api/content") (some gateHeader)) defaultServer).2.status
      = 400 ∧
    (handle .apiContent okEnv
      (plainRequest "POST" (ascii "/api/content") (some gateHeader)) defaultServer).1
      = defaultServer ∧
    (handle .apiContent okEnv
      (jsonRequest "POST" (ascii "/api/content") (some gateHeader) mistypedFeatureBody)
      (handle .apiContent okEnv
        (jsonRequest "POST" (ascii "/api/content") (some gateHeader) oneFeatureBody)
        defaultServer).1).2.status = 400 ∧
    (handle .apiContent okEnv
      (jsonRequest "POST" (ascii "/api/content") (some gateHeader) mistypedFeatureBody)
      (handle .apiContent okEnv
        (jsonRequest "POST" (ascii "/api/content") (some gateHeader) oneFeatureBody)
        defaultServer).1).1.contentData.Program.Sd.Features
      = some [ascii "p", ascii "Pemahaman konsep dasar Matematika"] :=
  have ha : checkAuth (some gateHeader) = true := by decide
  have h1 := C3_no_rollback okEnv (plainRequest "POST" (ascii "/api/content") (some gateHeader))
    defaultServer rfl ha
  have h2 := (C3_no_rollback okEnv
    (jsonRequest "POST" (ascii "/api/content") (some gateHeader) mistypedFeatureBody)
    (handle .apiContent okEnv
      (jsonRequest "POST" (ascii "/api/content") (some gateHeader) oneFeatureBody)
      defaultServer).1 rfl ha).2.1 mistypedFeatureBody rfl (by decide)
  ⟨ha, (h1.1 rfl).1, (h1.1 rfl).2, h2.1,
    (congrArg (fun d : ContentData => d.Program.Sd.Features) h2.2.1).trans (by decide)⟩

set_option maxRecDepth 100000 in
/-- C3 as stated fails: an authorized POST whose save fails is answered 500,
    and one whose body gives a number for the hero section is answered 400,
    and after each the in-memory footer is the posted one, not the old one. -/
theorem C3_counterexample :
    (handle .apiContent failEnv
      (jsonRequest "POST" (ascii "/api/content") (some gateHeader) footerBody)
      defaultServer).2.status = 500 ∧
    (handle .apiContent failEnv
      (jsonRequest "POST" (ascii "/api/content") (some gateHeader) footerBody)
      defaultServer).1.contentData.Footer.Text = ascii "x" ∧
    (handle .apiContent failEnv
      (jsonRequest "POST" (ascii "/api/content") (some gateHeader) footerBody)
      defaultServer).1.contentData ≠ defaultServer.contentData ∧
    (handle .apiContent okEnv
      (jsonRequest "POST" (ascii "/api/content") (some gateHeader) mistypedBody)
      defaultServer).2.status = 400 ∧
    (handle .apiContent okEnv
      (jsonRequest "POST" (ascii "/api/content") (some gateHeader) mistypedBody)
      defaultServer).1.contentData ≠ defaultServer.contentData := by
  decide

/-- C9 (amended): an authorized POST to `/api/upload-image` with a file of
    name `n` and bytes `b` in the form field `image`, when nothing fails in
    creating or writing the file (the directory `uploads` is there or can be
    made, `uploads/n` is no directory, `n` is none of `.`, `..`, `/` and holds
    no NUL byte, `os.Create` and `io.Copy` succeed), is answered with 200,
    stores exactly `b` at `uploads/n` in place of whatever file was there,
    touches no other file and not the document.  When `n` is valid UTF-8 the
    answer is the JSON object with `imagePath` set to `/uploads/n`, and unless
    `n` is `index.html` a GET for that path is routed to the static file
    server, which answers 200 with exactly the bytes `b`. -/
theorem C9_upload_then_fetch (env : Env) (r : Request) (s : Server) (n : GoString)
    (b : List Byte) (hm : r.Method = "POST") (ha : checkAuth r.Authorization = true)
    (hf : FormFile r = some (n, b))
    (hup : s.fs (ascii "uploads") = some .dir ∨
      (s.fs (ascii "uploads") = none ∧ env.mkdir = true))
    (htgt : s.fs (ascii "uploads/" ++ n) ≠ some .dir)
    (hname : n ≠ ascii "." ∧ n ≠ ascii ".." ∧ n ≠ ascii "/")
    (hnul : ∀ c ∈ n, c.val ≠ 0)
    (hc : env.create = true) (hcp : env.copy = .ok) :
    (handle .apiUploadImage env r s).2.status = 200 ∧
    (handle .apiUploadImage env r s).1.fs (ascii "uploads/" ++ n) = some (.raw b) ∧
    (∀ path, path ≠ ascii "uploads/" ++ n → path ≠ ascii "uploads" →
      (handle .apiUploadImage env r s).1.fs path = s.fs path) ∧
    (handle .apiUploadImage env r s).1.contentData = s.contentData ∧
    (handle .apiUploadImage env r s).1.backing = s.backing ∧
    (handle .apiUploadImage env r s).2.body =
      .json (.object [
        (ascii "imagePath", .string (coerceUTF8 (ascii "/uploads/" ++ n))),
        (ascii "message", .string (ascii "Image uploaded successfully")),
        (ascii "status", .string (ascii "success"))]) ∧
    (ValidString n = true →
      (handle .apiUploadImage env r s).2.body =
        .json (.object [
          (ascii "imagePath", .string (ascii "/uploads/" ++ n)),
          (ascii "message", .string (ascii "Image uploaded successfully")),
          (ascii "status", .string (ascii "success"))])) ∧
    (n ≠ ascii "index.html" →
      ∀ (env2 : Env) (r2 : Request), r2.Method = "GET" →
        r2.Path = ascii "/uploads/" ++ n →
        (serve env2 r2 (handle .apiUploadImage env r s).1).2.status = 200 ∧
        (serve env2 r2 (handle .apiUploadImage env r s).1).2.body = .file (.raw b) ∧
        (serve env2 r2 (handle .apiUploadImage env r s).1).1
          = (handle .apiUploadImage env r s).1) := by
  -- the name is a proper base name
  have hbase : n ≠ [] ∧ (47 : Byte) ∉ n := by
    obtain ⟨raw, hraw⟩ := FormFile_base r n b hf
    rcases Base_cases raw with h | h | h
    · exact absurd (hraw.trans h) hname.1
    · exact absurd (hraw.trans h) hname.2.2
    · rw [← hraw] at h
      exact h
  have hcr := creatable_of env s.fs n hup htgt hname hnul
  have e1 : coerceUTF8 (ascii "Image uploaded successfully")
      = ascii "Image uploaded successfully" := by decide
  have e2 : coerceUTF8 (ascii "success") = ascii "success" := by decide
  have h1 : ¬ ("POST" = "OPTIONS") := by decide
  have hh : handle .apiUploadImage env r s =
      ({ s with fs := (mkdirUploads env s.fs).write (ascii "uploads/" ++ n) (some (.raw b)) },
        encodeTo ((((Response.new.setHeader "Access-Control-Allow-Origin" (ascii "*")).setHeader
          "Access-Control-Allow-Methods" (ascii "POST, OPTIONS")).setHeader
          "Access-Control-Allow-Headers" (ascii "Content-Type, Authorization")).setHeader
          "Content-Type" (ascii "application/json"))
          (.object [
            (ascii "imagePath", .string (coerceUTF8 (ascii "/uploads/" ++ n))),
            (ascii "message", .string (ascii "Image uploaded successfully")),
            (ascii "status", .string (ascii "success"))])) := by
    rw [handle_of_not_head _ _ _ _ (by rw [hm]; exact post_ne_head)]
    simp only [handler, handleUploadImage, hm, h1, ha, if_false, Bool.not_true,
      Bool.false_eq_true, UploadImage, hf, hc, hcr, Bool.and_self, hcp, encodeMap, List.map,
      encodeString, e1, e2, if_true]
  rw [hh]
  refine ⟨rfl, ?_, ?_, rfl, rfl, rfl, ?_, ?_⟩
  · simp only [FS.write_same]
  · intro path hp1 hp2
    simp only [FS.write, if_neg hp1]
    exact mkdirUploads_other env s.fs path hp2
  · intro hv
    rw [coerceUTF8_uploads n hv]
    rfl
  · intro hidx env2 r2 hm2 hp
    have hroot : r2.Path ≠ ascii "/" := by
      rw [hp, uploads_path_cons]
      have e : ascii "/" = [(47 : Byte)] := by decide
      rw [e]
      simp
    have hne2 : r2.Method ≠ "HEAD" := by rw [hm2]; exact get_ne_head
    simp only [serve, hp, route_uploads]
    rw [handle_of_not_head _ _ _ _ hne2]
    simp only [handler, handleRoot]
    rw [if_neg hroot]
    simp only [FileServer, serveFile]
    rw [hp, HasSuffix_index_false n hbase.2 hidx, fileKey_uploads n hbase.1 hbase.2,
      FS.write_same, HasSuffix_slash_false _ n hbase.1 hbase.2]
    simp [Response.new, serveContent, hm2]

set_option maxRecDepth 100000 in
/-- C9 at the upload of a file named `a.png` into a working directory where
    `uploads/a.png` already holds other bytes. -/
theorem C9_upload_then_fetch_witness :
    uploadedServer.fs (ascii "uploads/a.png") = some (.raw [9, 9]) ∧
    (handle .apiUploadImage okEnv (uploadRequest (ascii "a.png") [1, 2, 3])
      uploadedServer).2.status = 200 ∧
    (handle .apiUploadImage okEnv (uploadRequest (ascii "a.png") [1, 2, 3])
      uploadedServer).1.fs (ascii "uploads/a.png") = some (.raw [1, 2, 3]) ∧
    (serve okEnv (plainRequest "GET" (ascii "/uploads/a.png") none)
      (handle .apiUploadImage okEnv (uploadRequest (ascii "a.png") [1, 2, 3])
        uploadedServer).1).2.body = .file (.raw [1, 2, 3]) :=
  have h := C9_upload_then_fetch okEnv (uploadRequest (ascii "a.png") [1, 2, 3]) uploadedServer
    (ascii "a.png") [1, 2, 3] rfl (by decide) (by decide) (Or.inl rfl)
    (by
      intro hd
      have h2 : uploadedServer.fs (ascii "uploads/" ++ ascii "a.png") = some (.raw [9, 9]) :=
        rfl
      rw [h2] at hd
      exact absurd (Option.some.inj hd) (fun e => FileData.noConfusion e))
    (by decide) (by decide) rfl rfl
  ⟨rfl, h.1, h.2.1,
    (h.2.2.2.2.2.2.2 (by decide) okEnv (plainRequest "GET" (ascii "/uploads/a.png") none)
      rfl (by decide)).2.1⟩

set_option maxRecDepth 100000 in
/-- C9 as stated fails twice.  For the name `index.html` the upload succeeds
    and stores the bytes, but the request for the returned path
    `/uploads/index.html` is answered by the file server with the redirect 301
    to `./` and no content.  For the name `caf` + byte E9 + `.png`, which is
    no UTF-8, the upload succeeds and stores the bytes under that name, but
    the returned image path has U+FFFD in place of the byte, and a request
    for the returned path is answered 404. -/
theorem C9_counterexample :
    (handle .apiUploadImage okEnv (uploadRequest (ascii "index.html") [1, 2, 3])
      defaultServer).2.status = 200 ∧
    FormFile (uploadRequest (ascii "index.html") [1, 2, 3])
      = some (ascii "index.html", [1, 2, 3]) ∧
    (serve okEnv (plainRequest "GET" (ascii "/uploads/index.html") none)
      (handle .apiUploadImage okEnv (uploadRequest (ascii "index.html") [1, 2, 3])
        defaultServer).1).2.status = 301 ∧
    (serve okEnv (plainRequest "GET" (ascii "/uploads/index.html") none)
      (handle .apiUploadImage okEnv (uploadRequest (ascii "index.html") [1, 2, 3])
        defaultServer).1).2.getHeader "Location" = some (ascii "./") ∧
    ¬ ((serve okEnv (plainRequest "GET" (ascii "/uploads/index.html") none)
      (handle .apiUploadImage okEnv (uploadRequest (ascii "index.html") [1, 2, 3])
        defaultServer).1).2.body = .file (.raw [1, 2, 3])) ∧
    (handle .apiUploadImage okEnv (uploadRequest latin1Name [1, 2, 3])
      defaultServer).2.status = 200 ∧
    FormFile (uploadRequest latin1Name [1, 2, 3]) = some (latin1Name, [1, 2, 3]) ∧
    (handle .apiUploadImage okEnv (uploadRequest latin1Name [1, 2, 3])
      defaultServer).2.body =
      .json (.object [
        (ascii "imagePath",
          .string (ascii "/uploads/caf" ++ [239, 191, 189] ++ ascii ".png")),
        (ascii "message", .string (ascii "Image uploaded successfully")),
        (ascii "status", .string (ascii "success"))]) ∧
    ascii "/uploads/caf" ++ [239, 191, 189] ++ ascii ".png" ≠ ascii "/uploads/" ++ latin1Name ∧
    (serve okEnv
      (plainRequest "GET" (ascii "/uploads/caf" ++ [239, 191, 189] ++ ascii ".png") none)
      (handle .apiUploadImage okEnv (uploadRequest latin1Name [1, 2, 3])
        defaultServer).1).2.status = 404 := by
  refine ⟨by decide, by decide, by decide, by decide, ?_, by decide, by decide, rfl,
    by decide, by decide⟩
  intro h
  have h2 : (serve okEnv (plainRequest "GET" (ascii "/uploads/index.html") none)
      (handle .apiUploadImage okEnv (uploadRequest (ascii "index.html") [1, 2, 3])
        defaultServer).1).2.body = .empty := rfl
  rw [h2] at h
  exact Body.noConfusion h

end Nikma
